import Mathlib

/-!
# Jumbo File System: a shallow embedding of `jumbo_file_system.c`

The file system layer (`jfs_*`) is translated function by function.  The block
storage layer below it (`read_block`, `write_block`, `allocate_block`,
`release_block`, `bfs_mount`, `bfs_unmount`) and the header constants are not
part of the translated source; the constants are parameters (`Config`) and the
storage layer is modelled from the specification.

Conventions
* C strings are lists of bytes (the characters before the terminating NUL), so
  `strcmp(a, b) == 0` is `a = b` and `strlen` is `List.length`.
* C arrays inside a block are functions from indices; the three views of the
  block union (directory node, inode, raw payload) are separate fields, the
  overlap of the views in memory is not modelled.
* `uint32_t` and `uint16_t` arithmetic wraps explicitly (`u32`, `u16`).
-/

namespace JFS

/-! ## Constants of the header -/

/-- Constants of `jumbo_file_system.h`, taken as parameters. -/
structure Config where
  BLOCK_SIZE : Nat
  MAX_NAME_LENGTH : Nat
  MAX_DIR_ENTRIES : Nat
  MAX_FILE_SIZE : Nat

/-- Sanity of the constants: blocks are not empty, `num_entries` fits its
`uint16_t` field and sizes (plus one `unsigned short` count and the rounding
term of the ceiling division) fit the `uint32_t` `file_size` field. -/
def Config.wf (cfg : Config) : Prop :=
  0 < cfg.BLOCK_SIZE ∧ cfg.MAX_DIR_ENTRIES < 65536 ∧
    cfg.MAX_FILE_SIZE + cfg.BLOCK_SIZE + 65536 ≤ 4294967296

instance (cfg : Config) : Decidable cfg.wf := by
  unfold Config.wf; infer_instance

/-- Return codes of the `jfs_*` functions: the `E_*` constants of the header (taken
to be pairwise distinct and different from `-1`) and the raw `-1` that is passed
through from a failed storage call. -/
inductive Status where
  | E_SUCCESS
  | E_EXISTS
  | E_MAX_NAME_LENGTH
  | E_MAX_DIR_ENTRIES
  | E_DISK_FULL
  | E_NOT_EXISTS
  | E_NOT_DIR
  | E_NOT_EMPTY
  | E_IS_DIR
  | E_MAX_FILE_SIZE
  | E_UNKNOWN
  | minus_one
  deriving DecidableEq, Repr

/-- Wrap to `uint32_t`. -/
def u32 (n : Nat) : Nat := n % 4294967296

/-- Wrap to `uint16_t`. -/
def u16 (n : Nat) : Nat := n % 65536

/-- The ceiling division `(fSize + BLOCK_SIZE - 1)/BLOCK_SIZE` on `uint32_t`. -/
def ceil_div (cfg : Config) (fSize : Nat) : Nat :=
  u32 (fSize + cfg.BLOCK_SIZE - 1) / cfg.BLOCK_SIZE

/-! ## Blocks -/

/-- One slot of `contents.dirnode.entries`. -/
structure DirEntry where
  block_num : Nat
  name : List Nat
  deriving DecidableEq, Repr

/-- The `struct block`: the discriminant, the directory-node view, the inode view
and the raw payload view used by `memcpy` on data blocks. -/
structure Block where
  is_dir : Nat
  num_entries : Nat
  entries : Nat → DirEntry
  file_size : Nat
  data_blocks : Nat → Nat
  bytes : Nat → Nat

/-- The result of `bzero(&b, sizeof(struct block))`. -/
def zero_block : Block where
  is_dir := 0
  num_entries := 0
  entries := fun _ => ⟨0, []⟩
  file_size := 0
  data_blocks := fun _ => 0
  bytes := fun _ => 0

/-- Pointwise update of a C array or of the disk. -/
def upd {α : Type} (f : Nat → α) (i : Nat) (v : α) : Nat → α :=
  fun j => if j = i then v else f j

/-- The copy `memcpy(&dst[off], &src[srcoff], n)` into the payload of a block. -/
def memcpy_bytes (dst : Nat → Nat) (off : Nat) (src : List Nat) (srcoff n : Nat) :
    Nat → Nat :=
  fun i => if off ≤ i ∧ i < off + n then src.getD (srcoff + (i - off)) 0 else dst i

/-- The copy `memcpy(&dst[off], src, n)` from a block payload into a caller buffer
(the buffer keeps its length). -/
def memcpy_buf (dst : List Nat) (off : Nat) (src : Nat → Nat) (n : Nat) : List Nat :=
  (List.range dst.length).map
    (fun i => if off ≤ i ∧ i < off + n then src (i - off) else dst.getD i 0)

/-! ## The storage layer -/

/-- Modelled from the spec: the state of the block storage layer
(`basic_file_system`, not under src/) together with the session variable
`current_dir`.  `blocks` is the disk, `used` the allocation status of every
block, `pick` the allocator's strategy (the block it hands out for a given
allocation status, `0` for exhaustion), and `rfail`, `wfail`, `relfail`, `mfail`,
`ufail` say which storage calls report an error. -/
structure State where
  current_dir : Nat
  blocks : Nat → Block
  used : Nat → Bool
  pick : (Nat → Bool) → Nat
  rfail : Nat → Bool
  wfail : Nat → Bool
  relfail : Nat → Bool
  mfail : Bool
  ufail : Bool

/-- Modelled from the spec: `read_block(num, out)` of the storage layer, `none`
for the error return `-1`. -/
def read_block (st : State) (block_num : Nat) : Option Block :=
  if st.rfail block_num then none else some (st.blocks block_num)

/-- Modelled from the spec: `write_block(num, in)` of the storage layer; a failed
write returns `-1` and leaves the disk as it was. -/
def write_block (st : State) (block_num : Nat) (b : Block) : Int × State :=
  if st.wfail block_num then (-1, st)
  else (0, { st with blocks := upd st.blocks block_num b })

/-- Modelled from the spec: `allocate_block()` of the storage layer; `0` signals
exhaustion, any other answer is marked allocated. -/
def allocate_block (st : State) : Nat × State :=
  let b := st.pick st.used
  if b = 0 then (0, st) else (b, { st with used := upd st.used b true })

/-- Modelled from the spec: `release_block(num)` of the storage layer; on success
the block is free again. -/
def release_block (st : State) (block_num : Nat) : Int × State :=
  if st.relfail block_num then (-1, st)
  else (0, { st with used := upd st.used block_num false })

/-- Modelled from the spec: `bfs_mount(filename)` of the storage layer. -/
def bfs_mount (st : State) (_filename : List Nat) : Int × State :=
  (if st.mfail then -1 else 0, st)

/-- Modelled from the spec: `bfs_unmount()` of the storage layer. -/
def bfs_unmount (st : State) : Int × State :=
  (if st.ufail then -1 else 0, st)

/-! ## Helpers of `jumbo_file_system.c` -/

/-- The helper `is_dir`: the `bool_t` (a `char`) it returns, `-1` when the read
fails, otherwise `target_block.is_dir == 0`. -/
def is_dir (st : State) (block_num : Nat) : Int :=
  match read_block st block_num with
  | none => -1
  | some target_block => if target_block.is_dir = 0 then 1 else 0

/-- The scan `for (i = 0; i < cur_entries; i++) if (strcmp(...) == 0) return i;`
started at index `i` with `fuel` iterations left; `-1` when it runs out. -/
def name_scan (entries : Nat → DirEntry) (target_name : List Nat) : Nat → Nat → Int
  | 0, _ => -1
  | fuel + 1, i =>
    if (entries i).name = target_name then (i : Int)
    else name_scan entries target_name fuel (i + 1)

/-- The helper `if_exist`: index of `target_name` in the current directory, `-1`
if it is absent or the read fails. -/
def if_exist (st : State) (target_name : List Nat) : Int :=
  match read_block st st.current_dir with
  | none => -1
  | some cur_block => name_scan cur_block.entries target_name cur_block.num_entries 0

/-- The decrement `num_entries--` of a `uint16_t`. -/
def u16_dec (n : Nat) : Nat := u16 (n + 65535)

/-- The helper `remove_directory_entry`: returns the released block number (`0` on
failure), the caller's `cur_block` as the function leaves it, and the storage. -/
def remove_directory_entry (st : State) (cur_block : Block) (entry_index : Int) :
    Nat × Block × State :=
  let target_block_num := (cur_block.entries entry_index.toNat).block_num
  let r := release_block st target_block_num
  if r.1 = -1 then (0, cur_block, r.2)
  else
    let st1 := (write_block r.2 target_block_num zero_block).2
    let cur_entry_num := cur_block.num_entries
    let moved : Block :=
      if entry_index + 1 ≠ (cur_entry_num : Int) then
        { cur_block with
          entries := upd cur_block.entries entry_index.toNat
            (cur_block.entries (cur_entry_num - 1)) }
      else cur_block
    let cur_block1 : Block := { moved with num_entries := u16_dec moved.num_entries }
    let w := write_block st1 st.current_dir cur_block1
    if w.1 = -1 then (0, cur_block1, w.2) else (target_block_num, cur_block1, w.2)

/-- The loop of `release_data_blocks` from index `i`, `fuel` iterations left. -/
def release_data_loop (inode_block : Block) : Nat → Nat → State → Int × State
  | 0, _, st => (0, st)
  | fuel + 1, i, st =>
    let r := release_block st (inode_block.data_blocks i)
    if r.1 = -1 then (-1, r.2) else release_data_loop inode_block fuel (i + 1) r.2

/-- The helper `release_data_blocks`. -/
def release_data_blocks (cfg : Config) (st : State) (inode_block : Block) : Int × State :=
  release_data_loop inode_block (ceil_div cfg inode_block.file_size) 0 st

/-- The helper `release_all`: releases every listed block, remembers a failure
and goes on. -/
def release_all : State → List Nat → Int × State
  | st, [] => (0, st)
  | st, b :: rest =>
    let r := release_block st b
    let t := release_all r.2 rest
    (if r.1 ≠ 0 then -1 else t.1, t.2)

/-- The allocation loop of `write_data_blocks`: `n` more blocks are needed and
`acc` holds `new_block_nums` so far; `none` stands for the return of `-2`. -/
def alloc_loop : Nat → State → List Nat → Option (List Nat) × State
  | 0, st, acc => (some acc, st)
  | n + 1, st, acc =>
    let a := allocate_block st
    if a.1 = 0 then (none, (release_all a.2 acc).2)
    else alloc_loop n a.2 (acc ++ [a.1])

/-- The loop of `write_data_blocks` that fills the zeroed `new_blocks` from the
payload: `n` blocks to go, `copied` bytes taken so far, `count` bytes left. -/
def fill_new_blocks (cfg : Config) (buf : List Nat) : Nat → Nat → Nat → List Block
  | 0, _, _ => []
  | n + 1, copied, count =>
    if count ≤ cfg.BLOCK_SIZE then
      { zero_block with bytes := memcpy_bytes zero_block.bytes 0 buf copied count } ::
        fill_new_blocks cfg buf n (copied + count) 0
    else
      { zero_block with bytes := memcpy_bytes zero_block.bytes 0 buf copied cfg.BLOCK_SIZE } ::
        fill_new_blocks cfg buf n (copied + cfg.BLOCK_SIZE) (count - cfg.BLOCK_SIZE)

/-- The loop `data_blocks[cur_block_amount + i] = new_block_nums[i]`. -/
def store_block_nums (data_blocks : Nat → Nat) : Nat → List Nat → Nat → Nat
  | _, [] => data_blocks
  | idx, b :: rest => store_block_nums (upd data_blocks idx b) (idx + 1) rest

/-- The last loop of `write_data_blocks`: writes `new_blocks[i]` to
`new_block_nums[i]`; on a failed write releases all of `new_block_nums`. -/
def write_new_blocks (new_block_nums : List Nat) : List Nat → List Block → State → Int × State
  | b :: bs, blk :: blks, st =>
    let w := write_block st b blk
    if w.1 = -1 then (-1, (release_all w.2 new_block_nums).2)
    else write_new_blocks new_block_nums bs blks w.2
  | _, _, st => (0, st)

/-- The helper `write_data_blocks`: result code (`0`, `-1`, `-2`), the caller's
`inode_block` as the function leaves it, and the storage. -/
def write_data_blocks (cfg : Config) (st : State) (inode_block : Block) (buf : List Nat)
    (count : Nat) : Int × Block × State :=
  let cur_fSize := inode_block.file_size
  let cur_block_amount := ceil_div cfg cur_fSize
  let cur_block_vol := u32 (cur_block_amount * cfg.BLOCK_SIZE)
  let new_size := u32 (cur_fSize + count)
  let new_block_amount := ceil_div cfg new_size
  let block_amount_diff := new_block_amount - cur_block_amount
  -- `data_blocks[cur_block_amount - 1]`, only used when the last block has room
  let last_block_num := inode_block.data_blocks (cur_block_amount - 1)
  match alloc_loop block_amount_diff st [] with
  | (none, st1) => (-2, inode_block, st1)
  | (some new_block_nums, st1) =>
    let room := decide (cur_fSize < cur_block_vol)
    -- append to the last data block
    let filled : Option (Block × Nat × Nat) :=
      if room then
        match read_block st1 last_block_num with
        | none => none
        | some last_block =>
          let from_here := cfg.BLOCK_SIZE - (cur_block_vol - cur_fSize)
          let bytes_left := cur_block_vol - cur_fSize
          if bytes_left > count then
            some ({ last_block with
                    bytes := memcpy_bytes last_block.bytes from_here buf 0 count },
                  count, 0)
          else
            some ({ last_block with
                    bytes := memcpy_bytes last_block.bytes from_here buf 0 bytes_left },
                  bytes_left, count - bytes_left)
      else some (zero_block, 0, count)
    match filled with
    | none => (-1, inode_block, st1)
    | some (last_block, copied, count1) =>
      let new_blocks := fill_new_blocks cfg buf block_amount_diff copied count1
      let inode1 : Block :=
        { inode_block with
          file_size := new_size
          data_blocks := store_block_nums inode_block.data_blocks cur_block_amount
            new_block_nums }
      let w : Int × State :=
        if room then write_block st1 last_block_num last_block else (0, st1)
      if w.1 = -1 then (-1, inode1, (release_all w.2 new_block_nums).2)
      else
        let r := write_new_blocks new_block_nums new_block_nums new_blocks w.2
        (r.1, inode1, r.2)

/-! ## The public operations -/

/-- The function `jfs_mount`. -/
def jfs_mount (st : State) (filename : List Nat) : Int × State :=
  let r := bfs_mount st filename
  (r.1, { r.2 with current_dir := 1 })

/-- The function `jfs_mkdir`. -/
def jfs_mkdir (cfg : Config) (st : State) (directory_name : List Nat) : Status × State :=
  if directory_name.length > cfg.MAX_NAME_LENGTH then (Status.E_MAX_NAME_LENGTH, st)
  else
    match read_block st st.current_dir with
    | none => (Status.minus_one, st)
    | some cur_block =>
      let cur_entries := cur_block.num_entries
      if cur_entries ≥ cfg.MAX_DIR_ENTRIES then (Status.E_MAX_DIR_ENTRIES, st)
      else if name_scan cur_block.entries directory_name cur_entries 0 ≠ -1 then
        (Status.E_EXISTS, st)
      else
        let a := allocate_block st
        let new_block_num := a.1
        if new_block_num = 0 then (Status.E_DISK_FULL, a.2)
        else
          let st1 := (write_block a.2 new_block_num zero_block).2
          let new_block : Block := { zero_block with is_dir := 0, num_entries := 0 }
          let w := write_block st1 new_block_num new_block
          if w.1 = -1 then (Status.E_UNKNOWN, w.2)
          else
            let cur_num_entries := u16 (cur_block.num_entries + 1)
            let cur_block1 : Block :=
              { cur_block with
                num_entries := cur_num_entries
                entries := upd cur_block.entries (cur_num_entries - 1)
                  ⟨new_block_num, directory_name⟩ }
            let w2 := write_block w.2 st.current_dir cur_block1
            if w2.1 = -1 then (Status.E_UNKNOWN, w2.2) else (Status.E_SUCCESS, w2.2)

/-- The function `jfs_creat`. -/
def jfs_creat (cfg : Config) (st : State) (file_name : List Nat) : Status × State :=
  if file_name.length > cfg.MAX_NAME_LENGTH then (Status.E_MAX_NAME_LENGTH, st)
  else
    match read_block st st.current_dir with
    | none => (Status.minus_one, st)
    | some cur_block =>
      let cur_entries := cur_block.num_entries
      if cur_entries ≥ cfg.MAX_DIR_ENTRIES then (Status.E_MAX_DIR_ENTRIES, st)
      else if name_scan cur_block.entries file_name cur_entries 0 ≠ -1 then
        (Status.E_EXISTS, st)
      else
        let a := allocate_block st
        let new_block_num := a.1
        if new_block_num = 0 then (Status.E_DISK_FULL, a.2)
        else
          let st1 := (write_block a.2 new_block_num zero_block).2
          let new_block : Block := { zero_block with is_dir := 1, file_size := 0 }
          let w := write_block st1 new_block_num new_block
          if w.1 = -1 then (Status.E_UNKNOWN, w.2)
          else
            let cur_num_entries := u16 (cur_block.num_entries + 1)
            let cur_block1 : Block :=
              { cur_block with
                num_entries := cur_num_entries
                entries := upd cur_block.entries (cur_num_entries - 1)
                  ⟨new_block_num, file_name⟩ }
            let w2 := write_block w.2 st.current_dir cur_block1
            if w2.1 = -1 then (Status.E_UNKNOWN, w2.2) else (Status.E_SUCCESS, w2.2)

/-- The function `jfs_chdir`; `none` is the `NULL` name. -/
def jfs_chdir (st : State) (directory_name : Option (List Nat)) : Status × State :=
  match directory_name with
  | none => (Status.E_SUCCESS, { st with current_dir := 1 })
  | some name =>
    match read_block st st.current_dir with
    | none => (Status.minus_one, st)
    | some cur_block =>
      let target_index := if_exist st name
      if target_index ≠ -1 then
        let target_dir_num := (cur_block.entries target_index.toNat).block_num
        if is_dir st target_dir_num ≠ 0 then
          (Status.E_SUCCESS, { st with current_dir := target_dir_num })
        else (Status.E_NOT_DIR, st)
      else (Status.E_NOT_EXISTS, st)

/-- The function `jfs_rmdir`. -/
def jfs_rmdir (st : State) (directory_name : List Nat) : Status × State :=
  match read_block st st.current_dir with
  | none => (Status.minus_one, st)
  | some cur_block =>
    let target_index := if_exist st directory_name
    if target_index = -1 then (Status.E_NOT_EXISTS, st)
    else
      let target_block_num := (cur_block.entries target_index.toNat).block_num
      if is_dir st target_block_num ≠ 0 then
        match read_block st target_block_num with
        | none => (Status.minus_one, st)
        | some target_block =>
          if target_block.num_entries > 0 then (Status.E_NOT_EMPTY, st)
          else
            let d := remove_directory_entry st cur_block target_index
            if d.1 = 0 then (Status.E_UNKNOWN, d.2.2) else (Status.E_SUCCESS, d.2.2)
      else (Status.E_NOT_DIR, st)

/-- The function `jfs_remove`. -/
def jfs_remove (cfg : Config) (st : State) (file_name : List Nat) : Status × State :=
  match read_block st st.current_dir with
  | none => (Status.minus_one, st)
  | some cur_block =>
    let target_index := if_exist st file_name
    if target_index = -1 then (Status.E_NOT_EXISTS, st)
    else
      let target_block_num := (cur_block.entries target_index.toNat).block_num
      if is_dir st target_block_num ≠ 0 then (Status.E_IS_DIR, st)
      else
        match read_block st target_block_num with
        | none => (Status.minus_one, st)
        | some target_block =>
          let fSize := target_block.file_size
          let rel : Int × State :=
            if fSize ≠ 0 then release_data_blocks cfg st target_block else (0, st)
          if rel.1 ≠ 0 then (Status.minus_one, rel.2)
          else
            let d := remove_directory_entry rel.2 cur_block target_index
            if d.1 = 0 then (Status.E_UNKNOWN, d.2.2) else (Status.E_SUCCESS, d.2.2)

/-- The `struct stats` filled by `jfs_stat`. -/
structure Stats where
  is_dir : Nat
  name : List Nat
  block_num : Nat
  num_data_blocks : Nat
  file_size : Nat
  deriving DecidableEq, Repr

/-- The function `jfs_stat`; the second component is `*buf` after the call. -/
def jfs_stat (cfg : Config) (st : State) (name : List Nat) (buf : Stats) : Status × Stats :=
  match read_block st st.current_dir with
  | none => (Status.minus_one, buf)
  | some cur_block =>
    let target_index := if_exist st name
    if target_index = -1 then (Status.E_NOT_EXISTS, buf)
    else
      let target_block_num := (cur_block.entries target_index.toNat).block_num
      match read_block st target_block_num with
      | none => (Status.minus_one, buf)
      | some target_block =>
        let buf1 : Stats :=
          { is_dir := target_block.is_dir
            name := (cur_block.entries target_index.toNat).name
            block_num := target_block_num
            num_data_blocks := 0
            file_size := 0 }
        if target_block.is_dir ≠ 0 then
          let fSize := target_block.file_size
          (Status.E_SUCCESS,
            { buf1 with num_data_blocks := ceil_div cfg fSize, file_size := fSize })
        else (Status.E_SUCCESS, buf1)

/-- The function `jfs_write`; `buf` holds the payload and `count` is the number of
bytes to append. -/
def jfs_write (cfg : Config) (st : State) (file_name : List Nat) (buf : List Nat)
    (count : Nat) : Status × State :=
  match read_block st st.current_dir with
  | none => (Status.minus_one, st)
  | some cur_block =>
    let target_index := if_exist st file_name
    if target_index = -1 then (Status.E_NOT_EXISTS, st)
    else
      let target_block_num := (cur_block.entries target_index.toNat).block_num
      if is_dir st target_block_num ≠ 0 then (Status.E_IS_DIR, st)
      else
        match read_block st target_block_num with
        | none => (Status.minus_one, st)
        | some target_block =>
          let cur_fSize := target_block.file_size
          let new_size := u32 (cur_fSize + count)
          if new_size > cfg.MAX_FILE_SIZE then (Status.E_MAX_FILE_SIZE, st)
          else
            let r := write_data_blocks cfg st target_block buf count
            if r.1 ≠ 0 then
              if r.1 = -2 then (Status.E_DISK_FULL, r.2.2) else (Status.E_UNKNOWN, r.2.2)
            else
              let w := write_block r.2.2 target_block_num r.2.1
              if w.1 = -1 then (Status.E_UNKNOWN, w.2) else (Status.E_SUCCESS, w.2)

/-- The copy loop of `jfs_read`: `fuel` is `block_amount - cur_block_index`; the
result is the code (`-1` for a failed read) and the buffer. -/
def read_loop (cfg : Config) (st : State) (target_block : Block) :
    Nat → Nat → Nat → Nat → List Nat → Status × List Nat
  | 0, _, _, _, buf => (Status.E_SUCCESS, buf)
  | fuel + 1, cur_block_index, left, buf_index, buf =>
    if left > 0 then
      match read_block st (target_block.data_blocks cur_block_index) with
      | none => (Status.minus_one, buf)
      | some data_block =>
        if left ≥ cfg.BLOCK_SIZE then
          read_loop cfg st target_block fuel (cur_block_index + 1) (left - cfg.BLOCK_SIZE)
            (buf_index + cfg.BLOCK_SIZE)
            (memcpy_buf buf buf_index data_block.bytes cfg.BLOCK_SIZE)
        else
          -- `left = 0; buf_index = buf_index + left;`
          read_loop cfg st target_block fuel (cur_block_index + 1) 0 (buf_index + 0)
            (memcpy_buf buf buf_index data_block.bytes left)
    else (Status.E_SUCCESS, buf)

/-- The function `jfs_read`: the code, the buffer and `*ptr_count` after the call. -/
def jfs_read (cfg : Config) (st : State) (file_name : List Nat) (buf : List Nat)
    (ptr_count : Nat) : Status × List Nat × Nat :=
  match read_block st st.current_dir with
  | none => (Status.minus_one, buf, ptr_count)
  | some cur_block =>
    let target_index := if_exist st file_name
    if target_index = -1 then (Status.E_NOT_EXISTS, buf, ptr_count)
    else
      let target_block_num := (cur_block.entries target_index.toNat).block_num
      if is_dir st target_block_num ≠ 0 then (Status.E_IS_DIR, buf, ptr_count)
      else
        match read_block st target_block_num with
        | none => (Status.minus_one, buf, ptr_count)
        | some target_block =>
          let fSize := target_block.file_size
          let count1 := if ptr_count > fSize then fSize else ptr_count
          let block_amount := ceil_div cfg fSize
          let r := read_loop cfg st target_block block_amount 0 count1 0 buf
          (r.1, r.2, count1)

/-- The function `jfs_unmount`. -/
def jfs_unmount (st : State) : Int × State :=
  bfs_unmount st

/-! ## Vocabulary of the statements -/

/-- No `read_block` call reports an error. -/
def reads_ok (st : State) : Prop := ∀ b, st.rfail b = false

/-- No `write_block` call reports an error. -/
def writes_ok (st : State) : Prop := ∀ b, st.wfail b = false

/-- No `release_block` call reports an error. -/
def releases_ok (st : State) : Prop := ∀ b, st.relfail b = false

/-- The allocator hands out only blocks that are not in use. -/
def fresh_alloc (st : State) : Prop :=
  ∀ u : Nat → Bool, st.pick u ≠ 0 → u (st.pick u) = false

/-- The name is not among the first `num_entries` entries of the directory node. -/
def absent (blk : Block) (name : List Nat) : Prop :=
  ∀ j, j < blk.num_entries → (blk.entries j).name ≠ name

/-- Entry `i` is the entry the name resolves to: the first of the `num_entries`
live entries carrying that name. -/
def resolves (blk : Block) (name : List Nat) (i : Nat) : Prop :=
  i < blk.num_entries ∧ (blk.entries i).name = name ∧
    ∀ j, j < i → (blk.entries j).name ≠ name

/-- The names of the first `num_entries` entries are pairwise distinct. -/
def names_distinct (blk : Block) : Prop :=
  ∀ i, i < blk.num_entries → ∀ j, j < blk.num_entries →
    (blk.entries i).name = (blk.entries j).name → i = j

/-- The directory invariant of the data model. -/
def dir_inv (cfg : Config) (blk : Block) : Prop :=
  blk.num_entries ≤ cfg.MAX_DIR_ENTRIES ∧ names_distinct blk

instance (blk : Block) (name : List Nat) : Decidable (absent blk name) := by
  unfold absent; infer_instance

instance (blk : Block) (name : List Nat) (i : Nat) : Decidable (resolves blk name i) := by
  unfold resolves; infer_instance

instance (blk : Block) : Decidable (names_distinct blk) := by
  unfold names_distinct; infer_instance

instance (cfg : Config) (blk : Block) : Decidable (dir_inv cfg blk) := by
  unfold dir_inv; infer_instance

/-- The part that `jfs_mkdir` (`tag = 0`) and `jfs_creat` (`tag = 1`) share after
their checks: allocation, initialisation of the new block, insertion of the entry.
The two functions differ only in the discriminant they store. -/
def create_entry (st : State) (cur_block : Block) (name : List Nat) (tag : Nat) :
    Status × State :=
  let a := allocate_block st
  let new_block_num := a.1
  if new_block_num = 0 then (Status.E_DISK_FULL, a.2)
  else
    let st1 := (write_block a.2 new_block_num zero_block).2
    let new_block : Block := { zero_block with is_dir := tag }
    let w := write_block st1 new_block_num new_block
    if w.1 = -1 then (Status.E_UNKNOWN, w.2)
    else
      let cur_num_entries := u16 (cur_block.num_entries + 1)
      let cur_block1 : Block :=
        { cur_block with
          num_entries := cur_num_entries
          entries := upd cur_block.entries (cur_num_entries - 1) ⟨new_block_num, name⟩ }
      let w2 := write_block w.2 st.current_dir cur_block1
      if w2.1 = -1 then (Status.E_UNKNOWN, w2.2) else (Status.E_SUCCESS, w2.2)

/-- The common shape of `jfs_mkdir` (`tag = 0`) and `jfs_creat` (`tag = 1`): the
checks, followed by `create_entry`. -/
def create_checked (cfg : Config) (st : State) (name : List Nat) (tag : Nat) :
    Status × State :=
  if name.length > cfg.MAX_NAME_LENGTH then (Status.E_MAX_NAME_LENGTH, st)
  else
    match read_block st st.current_dir with
    | none => (Status.minus_one, st)
    | some cur_block =>
      let cur_entries := cur_block.num_entries
      if cur_entries ≥ cfg.MAX_DIR_ENTRIES then (Status.E_MAX_DIR_ENTRIES, st)
      else if name_scan cur_block.entries name cur_entries 0 ≠ -1 then (Status.E_EXISTS, st)
      else create_entry st cur_block name tag

/-- The two states agree on everything but the disk contents and the allocation
status: the session variable, the allocator's strategy and the fault sets. -/
def same_env (st st' : State) : Prop :=
  st'.current_dir = st.current_dir ∧ st'.pick = st.pick ∧ st'.rfail = st.rfail ∧
    st'.wfail = st.wfail ∧ st'.relfail = st.relfail ∧ st'.mfail = st.mfail ∧
    st'.ufail = st.ufail

/-- The current directory block on disk. -/
def cur_dir (st : State) : Block := st.blocks st.current_dir

/-- The mathematical ceiling of `s / BLOCK_SIZE`. -/
def ceil_blocks (cfg : Config) (s : Nat) : Nat :=
  (s + cfg.BLOCK_SIZE - 1) / cfg.BLOCK_SIZE

/-- Byte `k` of the file with inode `inode`: byte `k mod BLOCK_SIZE` of data block
number `data_blocks[k div BLOCK_SIZE]`. -/
def file_byte (cfg : Config) (st : State) (inode : Block) (k : Nat) : Nat :=
  (st.blocks (inode.data_blocks (k / cfg.BLOCK_SIZE))).bytes (k % cfg.BLOCK_SIZE)

/-- The allocation status `u` with every block of `bs` set to `v`. -/
def mark (u : Nat → Bool) (bs : List Nat) (v : Bool) : Nat → Bool :=
  fun b => if b ∈ bs then v else u b

/-- The disk `f` after the blocks `blks` were written to the block numbers `bs`,
in order. -/
def put_blocks : (Nat → Block) → List Nat → List Block → Nat → Block
  | f, b :: bs, blk :: blks => put_blocks (upd f b blk) bs blks
  | f, _, _ => f

/-- The inode after a successful append of `count` bytes for which the allocator
handed out the blocks `new`: the size grows by `count` and `new` is stored behind the
old block list. -/
def append_inode (cfg : Config) (inode : Block) (count : Nat) (new : List Nat) : Block :=
  { inode with
    file_size := inode.file_size + count
    data_blocks := store_block_nums inode.data_blocks
      (ceil_blocks cfg inode.file_size) new }

/-- The disk after a successful `jfs_write` of `count` bytes of `buf` to the file
with inode `inode` in block `t`, the allocator having handed out the blocks `new`:
the room left in the last data block is filled first, the new blocks take the rest of
the payload, and the inode is written back last. -/
def append_disk (cfg : Config) (blocks : Nat → Block) (inode : Block) (t : Nat)
    (buf : List Nat) (count : Nat) (new : List Nat) : Nat → Block :=
  upd
    (put_blocks
      (if inode.file_size < ceil_blocks cfg inode.file_size * cfg.BLOCK_SIZE then
        upd blocks (inode.data_blocks (ceil_blocks cfg inode.file_size - 1))
          { blocks (inode.data_blocks (ceil_blocks cfg inode.file_size - 1)) with
            bytes := memcpy_bytes
              (blocks (inode.data_blocks (ceil_blocks cfg inode.file_size - 1))).bytes
              (cfg.BLOCK_SIZE -
                (ceil_blocks cfg inode.file_size * cfg.BLOCK_SIZE - inode.file_size))
              buf 0
              (min (ceil_blocks cfg inode.file_size * cfg.BLOCK_SIZE - inode.file_size)
                count) }
      else blocks)
      new
      (fill_new_blocks cfg buf
        (ceil_blocks cfg (inode.file_size + count) - ceil_blocks cfg inode.file_size)
        (if inode.file_size < ceil_blocks cfg inode.file_size * cfg.BLOCK_SIZE then
          min (ceil_blocks cfg inode.file_size * cfg.BLOCK_SIZE - inode.file_size) count
        else 0)
        (if inode.file_size < ceil_blocks cfg inode.file_size * cfg.BLOCK_SIZE then
          count -
            min (ceil_blocks cfg inode.file_size * cfg.BLOCK_SIZE - inode.file_size) count
        else count)))
    t (append_inode cfg inode count new)

/-- The file `name` of the current directory is well formed and holds exactly the
bytes `content`: the name resolves to an allocated inode block other than the
current directory block, the inode records the length of `content`, its first
`ceil(length / BLOCK_SIZE)` data block numbers are allocated, pairwise distinct and
differ from the inode block and from the directory block, and byte `r` of data block
`q` is byte `q * BLOCK_SIZE + r` of `content`. -/
def holds_file (cfg : Config) (st : State) (name : List Nat) (content : List Nat) : Prop :=
  ∃ i, resolves (cur_dir st) name i ∧
    st.used st.current_dir = true ∧
    st.used ((cur_dir st).entries i).block_num = true ∧
    ((cur_dir st).entries i).block_num ≠ st.current_dir ∧
    (st.blocks ((cur_dir st).entries i).block_num).is_dir ≠ 0 ∧
    (st.blocks ((cur_dir st).entries i).block_num).file_size = content.length ∧
    (∀ q, q < ceil_blocks cfg content.length →
      st.used ((st.blocks ((cur_dir st).entries i).block_num).data_blocks q) = true ∧
      (st.blocks ((cur_dir st).entries i).block_num).data_blocks q ≠
        ((cur_dir st).entries i).block_num ∧
      (st.blocks ((cur_dir st).entries i).block_num).data_blocks q ≠ st.current_dir) ∧
    (∀ q, q < ceil_blocks cfg content.length → ∀ q', q' < ceil_blocks cfg content.length →
      (st.blocks ((cur_dir st).entries i).block_num).data_blocks q =
        (st.blocks ((cur_dir st).entries i).block_num).data_blocks q' → q = q') ∧
    (∀ q r, r < cfg.BLOCK_SIZE → q * cfg.BLOCK_SIZE + r < content.length →
      (st.blocks ((st.blocks ((cur_dir st).entries i).block_num).data_blocks q)).bytes r =
        content.getD (q * cfg.BLOCK_SIZE + r) 0)

/-- The codes with which `jfs_mkdir` and `jfs_creat` reject a call in their checks. -/
def create_rejections : List Status :=
  [Status.E_MAX_NAME_LENGTH, Status.E_MAX_DIR_ENTRIES, Status.E_EXISTS]

/-- The codes with which the name-based operations reject a call in their checks. -/
def lookup_rejections : List Status :=
  [Status.E_NOT_EXISTS, Status.E_NOT_DIR, Status.E_IS_DIR, Status.E_NOT_EMPTY,
    Status.E_MAX_FILE_SIZE]

/-- A run of `jfs_chdir(name)` calls, successful or not, for the names in order. -/
def chdir_many : State → List (List Nat) → State
  | st, [] => st
  | st, name :: rest => chdir_many (jfs_chdir st (some name)).2 rest

/-- The answers of the next `n` calls of `allocate_block`, in call order. -/
def alloc_answers : Nat → State → List Nat
  | 0, _ => []
  | n + 1, st => (allocate_block st).1 :: alloc_answers n (allocate_block st).2

/-- Data block number `q` of a file of old size `s` once `count` bytes of `buf` are
appended to it, `old` being the block beforehand: byte `j` of the block is file
position `q * BLOCK_SIZE + j`; the positions `s ≤ x < s + count` hold payload byte
`x - s`, every other byte is the one of `old`. -/
def payload_block (cfg : Config) (s count : Nat) (buf : List Nat) (q : Nat) (old : Block) :
    Block :=
  { old with
    bytes := fun j =>
      if j < cfg.BLOCK_SIZE ∧ s ≤ q * cfg.BLOCK_SIZE + j ∧
          q * cfg.BLOCK_SIZE + j < s + count then
        buf.getD (q * cfg.BLOCK_SIZE + j - s) 0
      else old.bytes j }

/-- A run of creations in the current directory: `(true, name)` is
`jfs_mkdir(name)`, `(false, name)` is `jfs_creat(name)`; the codes are returned in
call order. -/
def create_many (cfg : Config) : State → List (Bool × List Nat) → List Status × State
  | st, [] => ([], st)
  | st, (d, name) :: rest =>
    let r := if d then jfs_mkdir cfg st name else jfs_creat cfg st name
    let t := create_many cfg r.2 rest
    (r.1 :: t.1, t.2)

/-- A run of appends `jfs_write(name, chunk, len)` for the chunks in order. -/
def write_many (cfg : Config) (name : List Nat) : State → List (List Nat) → List Status × State
  | st, [] => ([], st)
  | st, chunk :: rest =>
    let r := jfs_write cfg st name chunk chunk.length
    let t := write_many cfg name r.2 rest
    (r.1 :: t.1, t.2)

/-! ## A concrete disk for the scenarios -/

/-- Small constants for the scenarios. -/
def cfg0 : Config where
  BLOCK_SIZE := 4
  MAX_NAME_LENGTH := 3
  MAX_DIR_ENTRIES := 2
  MAX_FILE_SIZE := 12

/-- A first-fit strategy over the blocks `1 .. n`: the smallest free block, `0` if
none is free. -/
def first_fit (n : Nat) (used : Nat → Bool) : Nat :=
  ((List.range n).map (· + 1)).foldr (fun b r => if used b then r else b) 0

/-- A freshly mounted disk of `n` blocks without faults: block `1` is the empty
root directory and the only allocated block. -/
def disk0 (n : Nat) : State where
  current_dir := 1
  blocks := fun _ => zero_block
  used := fun b => decide (b = 1)
  pick := first_fit n
  rfail := fun _ => false
  wfail := fun _ => false
  relfail := fun _ => false
  mfail := false
  ufail := false

/-- The name `a` of the scenarios. -/
def name_a : List Nat := [97]

/-- The name `f` of the scenarios. -/
def name_f : List Nat := [102]

/-- The payload `hello`. -/
def hello : List Nat := [104, 101, 108, 108, 111]

/-- The fresh disk after `mkdir("a")` and `chdir("a")`. -/
def in_dir_a : State :=
  (jfs_chdir (jfs_mkdir cfg0 (disk0 8) name_a).2 (some name_a)).2

/-- The fresh disk after `creat("f")` in the root directory. -/
def with_file (n : Nat) : State := (jfs_creat cfg0 (disk0 n) name_f).2

/-- The fresh disk after `creat("f")` and `write("f", "hello", 5)` in the root. -/
def with_hello : State := (jfs_write cfg0 (with_file 8) name_f hello 5).2

/-- The fresh disk after `mkdir("a")`, `chdir("a")`, `creat("f")`, `chdir(NULL)`:
the root holds the directory `a`, which holds one entry. -/
def a_with_entry : State :=
  (jfs_chdir (jfs_creat cfg0 in_dir_a name_f).2 none).2

/-- Constants with 16-byte blocks for the scenario that crosses a block boundary. -/
def cfg1 : Config where
  BLOCK_SIZE := 16
  MAX_NAME_LENGTH := 3
  MAX_DIR_ENTRIES := 2
  MAX_FILE_SIZE := 64

/-- The fresh disk, with 16-byte blocks, after `creat("f")` and a first write of 16
bytes. -/
def one_block_written : State :=
  (jfs_write cfg1 (jfs_creat cfg1 (disk0 8) name_f).2 name_f (List.range 16) 16).2

/-- The fresh disk after `mkdir("a")` and `creat("f")` in the root: two entries, a
directory and a file. -/
def with_two : State := (jfs_creat cfg0 (jfs_mkdir cfg0 (disk0 8) name_a).2 name_f).2

/-- The state `st` on a storage layer whose writes to block `k`, and only those,
fail. -/
def write_fault (k : Nat) (st : State) : State :=
  { st with wfail := fun b => decide (b = k) }

/-- The state `st` on a storage layer whose release of block `k`, and only that,
fails. -/
def release_fault (k : Nat) (st : State) : State :=
  { st with relfail := fun b => decide (b = k) }

/-- The state `st` on a storage layer whose reads of block `k`, and only those,
fail. -/
def read_fault (k : Nat) (st : State) : State :=
  { st with rfail := fun b => decide (b = k) }

/-! ## Basic facts: arrays, reads and the name scan -/

theorem upd_same {α : Type} (f : Nat → α) (i : Nat) (v : α) : upd f i v i = v := by
  simp [upd]

theorem upd_other {α : Type} (f : Nat → α) (i j : Nat) (v : α) (h : j ≠ i) :
    upd f i v j = f j := by
  simp [upd, h]

theorem read_block_ok (st : State) (b : Nat) (h : st.rfail b = false) :
    read_block st b = some (st.blocks b) := by
  simp [read_block, h]

theorem is_dir_ok (st : State) (b : Nat) (h : st.rfail b = false) :
    is_dir st b = if (st.blocks b).is_dir = 0 then 1 else 0 := by
  simp [is_dir, read_block, h]

theorem is_dir_ne_zero_iff (st : State) (b : Nat) (h : st.rfail b = false) :
    is_dir st b ≠ 0 ↔ (st.blocks b).is_dir = 0 := by
  rw [is_dir_ok st b h]; split <;> simp_all

theorem name_scan_absent (e : Nat → DirEntry) (t : List Nat) (n i : Nat) :
    name_scan e t n i = -1 ↔ ∀ j, i ≤ j → j < i + n → (e j).name ≠ t := by
  induction n generalizing i with
  | zero => simp [name_scan]; intro j h1 h2; omega
  | succ n ih =>
    simp only [name_scan]
    by_cases h : (e i).name = t
    · simp only [h, if_true]
      constructor
      · intro h0; omega
      · intro h0; exact absurd h (h0 i (le_refl _) (by omega))
    · simp only [h, if_false, ih]
      constructor
      · intro h0 j h1 h2
        by_cases hj : j = i
        · subst hj; exact h
        · exact h0 j (by omega) (by omega)
      · intro h0 j h1 h2
        exact h0 j (by omega) (by omega)

theorem name_scan_found (e : Nat → DirEntry) (t : List Nat) (n i k : Nat)
    (h1 : i ≤ k) (h2 : k < i + n) (hk : (e k).name = t)
    (hfirst : ∀ j, i ≤ j → j < k → (e j).name ≠ t) :
    name_scan e t n i = (k : Int) := by
  induction n generalizing i with
  | zero => omega
  | succ n ih =>
    simp only [name_scan]
    by_cases h : (e i).name = t
    · simp only [h, if_true]
      by_cases hik : i = k
      · subst hik; rfl
      · exact absurd h (hfirst i (le_refl _) (by omega))
    · simp only [h, if_false]
      have hik : i ≠ k := by intro hh; subst hh; exact h hk
      exact ih (i + 1) (by omega) (by omega) (fun j hj1 hj2 => hfirst j (by omega) hj2)

theorem name_scan_cases (e : Nat → DirEntry) (t : List Nat) (n i : Nat) :
    name_scan e t n i = -1 ∨
      ∃ k, i ≤ k ∧ k < i + n ∧ (e k).name = t ∧ (∀ j, i ≤ j → j < k → (e j).name ≠ t) ∧
        name_scan e t n i = (k : Int) := by
  induction n generalizing i with
  | zero => left; rfl
  | succ n ih =>
    simp only [name_scan]
    by_cases h : (e i).name = t
    · right
      exact ⟨i, le_refl _, by omega, h, fun j h1 h2 => by omega, by simp [h]⟩
    · simp only [h, if_false]
      rcases ih (i + 1) with h0 | ⟨k, h1, h2, h3, h4, h5⟩
      · left; exact h0
      · right
        refine ⟨k, by omega, by omega, h3, ?_, h5⟩
        intro j hj1 hj2
        by_cases hj : j = i
        · subst hj; exact h
        · exact h4 j (by omega) hj2

theorem scan_absent (blk : Block) (name : List Nat) :
    name_scan blk.entries name blk.num_entries 0 = -1 ↔ absent blk name := by
  rw [name_scan_absent]; unfold absent
  constructor
  · intro h j hj; exact h j (Nat.zero_le _) (by omega)
  · intro h j _ hj; exact h j (by omega)

theorem scan_resolves (blk : Block) (name : List Nat) (i : Nat) (h : resolves blk name i) :
    name_scan blk.entries name blk.num_entries 0 = (i : Int) := by
  obtain ⟨h1, h2, h3⟩ := h
  exact name_scan_found _ _ _ _ _ (Nat.zero_le _) (by omega) h2 (fun j _ hj => h3 j hj)

theorem absent_or_resolves (blk : Block) (name : List Nat) :
    absent blk name ∨ ∃ i, resolves blk name i := by
  rcases name_scan_cases blk.entries name blk.num_entries 0 with h | ⟨k, _, h2, h3, h4, _⟩
  · left; exact (scan_absent blk name).mp h
  · right; exact ⟨k, by omega, h3, fun j hj => h4 j (Nat.zero_le _) hj⟩

theorem resolves_unique (blk : Block) (name : List Nat) (i j : Nat)
    (hi : resolves blk name i) (hj : resolves blk name j) : i = j := by
  obtain ⟨_, a2, a3⟩ := hi
  obtain ⟨_, b2, b3⟩ := hj
  rcases Nat.lt_trichotomy i j with h | h | h
  · exact absurd a2 (b3 i h)
  · exact h
  · exact absurd b2 (a3 j h)

theorem not_absent_of_resolves (blk : Block) (name : List Nat) (i : Nat)
    (hi : resolves blk name i) : ¬ absent blk name := fun h => h i hi.1 hi.2.1

theorem if_exist_ok (st : State) (name : List Nat) (h : st.rfail st.current_dir = false) :
    if_exist st name = name_scan (cur_dir st).entries name (cur_dir st).num_entries 0 := by
  simp [if_exist, read_block, h, cur_dir]

theorem if_exist_absent (st : State) (name : List Nat) (h : st.rfail st.current_dir = false)
    (ha : absent (cur_dir st) name) : if_exist st name = -1 := by
  rw [if_exist_ok st name h]; exact (scan_absent _ _).mpr ha

theorem if_exist_resolves (st : State) (name : List Nat) (i : Nat)
    (h : st.rfail st.current_dir = false) (hi : resolves (cur_dir st) name i) :
    if_exist st name = (i : Int) := by
  rw [if_exist_ok st name h]; exact scan_resolves _ _ _ hi


theorem int_natCast_ne_neg_one (i : Nat) : ((i : Int) = -1) ↔ False := by
  constructor
  · intro h; omega
  · intro h; exact h.elim


theorem is_dir_eq_zero_iff (st : State) (b : Nat) (h : st.rfail b = false) :
    is_dir st b = 0 ↔ ¬ (st.blocks b).is_dir = 0 := by
  rw [is_dir_ok st b h]; split <;> simp_all

theorem read_loop_status (cfg : Config) (st : State) (tb : Block) (fuel idx left bi : Nat)
    (buf : List Nat) :
    (read_loop cfg st tb fuel idx left bi buf).1 = Status.E_SUCCESS ∨
      (read_loop cfg st tb fuel idx left bi buf).1 = Status.minus_one := by
  induction fuel generalizing idx left bi buf with
  | zero => left; rfl
  | succ n ih =>
    simp only [read_loop]
    split
    · split
      · right; rfl
      · split
        · exact ih _ _ _ _
        · exact ih _ _ _ _
    · left; rfl

theorem read_loop_ne (cfg : Config) (st : State) (tb : Block) (fuel idx left bi : Nat)
    (buf : List Nat) (s : Status) (h1 : s ≠ Status.E_SUCCESS) (h2 : s ≠ Status.minus_one) :
    ¬ (read_loop cfg st tb fuel idx left bi buf).1 = s := by
  intro h
  rcases read_loop_status cfg st tb fuel idx left bi buf with h0 | h0
  · rw [h0] at h; exact h1 h.symm
  · rw [h0] at h; exact h2 h.symm

/-- Claim C10: with storage reads succeeding, `jfs_chdir` (non-NULL name), `jfs_rmdir`,
`jfs_remove`, `jfs_write`, `jfs_read` and `jfs_stat` return `E_NOT_EXISTS` iff no entry
among the first `num_entries` entries of the current directory has the name; when the
name resolves to entry `i`, `jfs_chdir` and `jfs_rmdir` return `E_NOT_DIR` iff the entry's
block is an inode (`is_dir` field not `0`), and `jfs_remove`, `jfs_write` and `jfs_read`
return `E_IS_DIR` iff the entry's block is a directory node (`is_dir` field `0`). -/
theorem name_and_kind_checks (cfg : Config) (st : State) (name buf rbuf : List Nat)
    (count rcount : Nat) (sbuf : Stats) (hr : reads_ok st) :
    (((jfs_chdir st (some name)).1 = Status.E_NOT_EXISTS ↔ absent (cur_dir st) name) ∧
     ((jfs_rmdir st name).1 = Status.E_NOT_EXISTS ↔ absent (cur_dir st) name) ∧
     ((jfs_remove cfg st name).1 = Status.E_NOT_EXISTS ↔ absent (cur_dir st) name) ∧
     ((jfs_write cfg st name buf count).1 = Status.E_NOT_EXISTS ↔ absent (cur_dir st) name) ∧
     ((jfs_read cfg st name rbuf rcount).1 = Status.E_NOT_EXISTS ↔ absent (cur_dir st) name) ∧
     ((jfs_stat cfg st name sbuf).1 = Status.E_NOT_EXISTS ↔ absent (cur_dir st) name)) ∧
    (∀ i, resolves (cur_dir st) name i →
      ((jfs_chdir st (some name)).1 = Status.E_NOT_DIR ↔
        (st.blocks ((cur_dir st).entries i).block_num).is_dir ≠ 0) ∧
      ((jfs_rmdir st name).1 = Status.E_NOT_DIR ↔
        (st.blocks ((cur_dir st).entries i).block_num).is_dir ≠ 0) ∧
      ((jfs_remove cfg st name).1 = Status.E_IS_DIR ↔
        (st.blocks ((cur_dir st).entries i).block_num).is_dir = 0) ∧
      ((jfs_write cfg st name buf count).1 = Status.E_IS_DIR ↔
        (st.blocks ((cur_dir st).entries i).block_num).is_dir = 0) ∧
      ((jfs_read cfg st name rbuf rcount).1 = Status.E_IS_DIR ↔
        (st.blocks ((cur_dir st).entries i).block_num).is_dir = 0)) := by
  have hc := hr st.current_dir
  have key : ∀ i, resolves (cur_dir st) name i →
      (¬ (jfs_chdir st (some name)).1 = Status.E_NOT_EXISTS ∧
       ¬ (jfs_rmdir st name).1 = Status.E_NOT_EXISTS ∧
       ¬ (jfs_remove cfg st name).1 = Status.E_NOT_EXISTS ∧
       ¬ (jfs_write cfg st name buf count).1 = Status.E_NOT_EXISTS ∧
       ¬ (jfs_read cfg st name rbuf rcount).1 = Status.E_NOT_EXISTS ∧
       ¬ (jfs_stat cfg st name sbuf).1 = Status.E_NOT_EXISTS) ∧
      ((jfs_chdir st (some name)).1 = Status.E_NOT_DIR ↔
        (st.blocks ((cur_dir st).entries i).block_num).is_dir ≠ 0) ∧
      ((jfs_rmdir st name).1 = Status.E_NOT_DIR ↔
        (st.blocks ((cur_dir st).entries i).block_num).is_dir ≠ 0) ∧
      ((jfs_remove cfg st name).1 = Status.E_IS_DIR ↔
        (st.blocks ((cur_dir st).entries i).block_num).is_dir = 0) ∧
      ((jfs_write cfg st name buf count).1 = Status.E_IS_DIR ↔
        (st.blocks ((cur_dir st).entries i).block_num).is_dir = 0) ∧
      ((jfs_read cfg st name rbuf rcount).1 = Status.E_IS_DIR ↔
        (st.blocks ((cur_dir st).entries i).block_num).is_dir = 0) := by
    intro i hi
    have he := if_exist_resolves st name i hc hi
    have ht := hr ((st.blocks st.current_dir).entries i).block_num
    have hz := is_dir_eq_zero_iff st _ ht
    simp only [jfs_chdir, jfs_rmdir, jfs_remove, jfs_write, jfs_read, jfs_stat, cur_dir,
        read_block_ok st _ hc, he, int_natCast_ne_neg_one, Int.toNat_ofNat,
        read_block_ok st _ ht, hz, ne_eq, not_false_eq_true, if_true, if_false]
    by_cases hd : ((st.blocks ((st.blocks st.current_dir).entries i).block_num).is_dir = 0)
    · simp only [hd, not_true_eq_false, not_false_eq_true, if_true, if_false, iff_true,
        iff_false]
      refine ⟨⟨?_, ?_, ?_, ?_, ?_, ?_⟩, ?_, ?_, ?_, ?_, ?_⟩ <;> (repeat' split) <;>
        simp [read_loop_ne]
    · simp only [hd, not_true_eq_false, not_false_eq_true, if_true, if_false, iff_true,
        iff_false]
      refine ⟨⟨?_, ?_, ?_, ?_, ?_, ?_⟩, ?_, ?_, ?_, ?_, ?_⟩ <;> (repeat' split) <;>
        simp [read_loop_ne]
  constructor
  · rcases absent_or_resolves (cur_dir st) name with ha | ⟨i, hi⟩
    · have he := if_exist_absent st name hc ha
      simp [jfs_chdir, jfs_rmdir, jfs_remove, jfs_write, jfs_read, jfs_stat,
        read_block_ok st _ hc, he, ha]
    · have hna := not_absent_of_resolves _ _ _ hi
      obtain ⟨⟨h1, h2, h3, h4, h5, h6⟩, _⟩ := key i hi
      simp only [h1, h2, h3, h4, h5, h6, hna]
      simp
  · intro i hi
    exact (key i hi).2

/-! ## Creation: `jfs_mkdir` and `jfs_creat` -/

theorem jfs_mkdir_eq (cfg : Config) (st : State) (name : List Nat) :
    jfs_mkdir cfg st name = create_checked cfg st name 0 := rfl

theorem jfs_creat_eq (cfg : Config) (st : State) (name : List Nat) :
    jfs_creat cfg st name = create_checked cfg st name 1 := rfl

theorem write_block_ok (st : State) (b : Nat) (blk : Block) (h : st.wfail b = false) :
    write_block st b blk = (0, { st with blocks := upd st.blocks b blk }) := by
  simp [write_block, h]

theorem u16_succ (n : Nat) (h : n < 65535) : u16 (n + 1) = n + 1 := by
  unfold u16; omega

/-- The current directory block as `jfs_mkdir`/`jfs_creat` write it back. -/
theorem create_entry_ok (st : State) (cur_block : Block) (name : List Nat) (tag : Nat)
    (hw : writes_ok st) (hb : st.pick st.used ≠ 0) :
    create_entry st cur_block name tag =
      (Status.E_SUCCESS,
        { st with
          used := upd st.used (st.pick st.used) true
          blocks := upd (upd (upd st.blocks (st.pick st.used) zero_block) (st.pick st.used)
              { zero_block with is_dir := tag }) st.current_dir
            { cur_block with
              num_entries := u16 (cur_block.num_entries + 1)
              entries := upd cur_block.entries (u16 (cur_block.num_entries + 1) - 1)
                ⟨st.pick st.used, name⟩ } }) := by
  have h1 := hw (st.pick st.used)
  have h2 := hw st.current_dir
  simp [create_entry, allocate_block, hb, write_block, h1, h2]

theorem create_entry_full (st : State) (cur_block : Block) (name : List Nat) (tag : Nat)
    (hb : st.pick st.used = 0) :
    create_entry st cur_block name tag = (Status.E_DISK_FULL, st) := by
  simp [create_entry, allocate_block, hb]

theorem create_checked_eq (cfg : Config) (st : State) (name : List Nat) (tag : Nat)
    (hr : reads_ok st) (hlen : name.length ≤ cfg.MAX_NAME_LENGTH)
    (hroom : (cur_dir st).num_entries < cfg.MAX_DIR_ENTRIES) (habs : absent (cur_dir st) name) :
    create_checked cfg st name tag = create_entry st (cur_dir st) name tag := by
  have hc := hr st.current_dir
  have hs := (scan_absent (cur_dir st) name).mpr habs
  unfold cur_dir at hs hroom
  simp [create_checked, read_block_ok st _ hc, hs, cur_dir, Nat.not_lt.mpr hlen,
    Nat.not_le.mpr hroom]

theorem create_checked_cases (cfg : Config) (st : State) (name : List Nat) (tag : Nat)
    (hr : reads_ok st) :
    (create_checked cfg st name tag = (Status.E_MAX_NAME_LENGTH, st) ∧
        name.length > cfg.MAX_NAME_LENGTH) ∨
    (create_checked cfg st name tag = (Status.E_MAX_DIR_ENTRIES, st) ∧
        name.length ≤ cfg.MAX_NAME_LENGTH ∧ cfg.MAX_DIR_ENTRIES ≤ (cur_dir st).num_entries) ∨
    (create_checked cfg st name tag = (Status.E_EXISTS, st) ∧
        name.length ≤ cfg.MAX_NAME_LENGTH ∧ (cur_dir st).num_entries < cfg.MAX_DIR_ENTRIES ∧
        ¬ absent (cur_dir st) name) ∨
    (create_checked cfg st name tag = create_entry st (cur_dir st) name tag ∧
        name.length ≤ cfg.MAX_NAME_LENGTH ∧ (cur_dir st).num_entries < cfg.MAX_DIR_ENTRIES ∧
        absent (cur_dir st) name) := by
  have hc := hr st.current_dir
  by_cases hlen : name.length > cfg.MAX_NAME_LENGTH
  · left; simp [create_checked, hlen]
  · right
    have hlen2 : name.length ≤ cfg.MAX_NAME_LENGTH := Nat.not_lt.mp hlen
    by_cases hroom : cfg.MAX_DIR_ENTRIES ≤ (cur_dir st).num_entries
    · left
      unfold cur_dir at hroom
      simp [create_checked, hlen, read_block_ok st _ hc, hroom, hlen2, cur_dir]
    · right
      have hroom2 : (cur_dir st).num_entries < cfg.MAX_DIR_ENTRIES := Nat.not_le.mp hroom
      by_cases habs : absent (cur_dir st) name
      · right
        exact ⟨create_checked_eq cfg st name tag hr hlen2 hroom2 habs, hlen2, hroom2, habs⟩
      · left
        have hs : ¬ name_scan (cur_dir st).entries name (cur_dir st).num_entries 0 = -1 :=
          fun h => habs ((scan_absent _ _).mp h)
        unfold cur_dir at hs hroom
        refine ⟨?_, hlen2, hroom2, habs⟩
        simp [create_checked, hlen, read_block_ok st _ hc, hroom, hs]

/-- Claim C4: for `jfs_mkdir` and `jfs_creat`, a name of length exactly
`MAX_NAME_LENGTH` that is absent from a non-full current directory is accepted (success,
when the allocation and the storage calls succeed), and every name longer than
`MAX_NAME_LENGTH` is rejected with `E_MAX_NAME_LENGTH`. -/
theorem name_length_boundary (cfg : Config) (st : State) (name : List Nat) :
    (name.length = cfg.MAX_NAME_LENGTH → reads_ok st → writes_ok st →
      absent (cur_dir st) name → (cur_dir st).num_entries < cfg.MAX_DIR_ENTRIES →
      (allocate_block st).1 ≠ 0 →
      (jfs_mkdir cfg st name).1 = Status.E_SUCCESS ∧
      (jfs_creat cfg st name).1 = Status.E_SUCCESS) ∧
    (name.length > cfg.MAX_NAME_LENGTH →
      (jfs_mkdir cfg st name).1 = Status.E_MAX_NAME_LENGTH ∧
      (jfs_creat cfg st name).1 = Status.E_MAX_NAME_LENGTH) := by
  constructor
  · intro hlen hr hw habs hroom hb
    have hb2 : st.pick st.used ≠ 0 := by
      intro h; apply hb; simp [allocate_block, h]
    simp only [jfs_mkdir_eq, jfs_creat_eq,
      create_checked_eq cfg st name _ hr (le_of_eq hlen) hroom habs,
      create_entry_ok st _ name _ hw hb2, and_self]
  · intro hlen
    simp [jfs_mkdir_eq, jfs_creat_eq, create_checked, hlen]


theorem pick_ne_zero_of_alloc (st : State) (h : (allocate_block st).1 ≠ 0) :
    st.pick st.used ≠ 0 := by
  intro h0; apply h; simp [allocate_block, h0]

theorem alloc_fst (st : State) : (allocate_block st).1 = st.pick st.used := by
  unfold allocate_block
  by_cases h : st.pick st.used = 0 <;> simp [h]

theorem cur_dir_create_entry (st : State) (cur_block : Block) (name : List Nat) (tag : Nat)
    (hw : writes_ok st) (hb : st.pick st.used ≠ 0) :
    cur_dir (create_entry st cur_block name tag).2 =
      { cur_block with
        num_entries := u16 (cur_block.num_entries + 1)
        entries := upd cur_block.entries (u16 (cur_block.num_entries + 1) - 1)
          ⟨st.pick st.used, name⟩ } := by
  rw [create_entry_ok st cur_block name tag hw hb]
  simp [cur_dir, upd]

theorem same_env_refl (st : State) : same_env st st := by
  simp [same_env]

theorem same_env_trans (a b c : State) (h1 : same_env a b) (h2 : same_env b c) :
    same_env a c := by
  obtain ⟨a1, a2, a3, a4, a5, a6, a7⟩ := h1
  obtain ⟨b1, b2, b3, b4, b5, b6, b7⟩ := h2
  exact ⟨b1.trans a1, b2.trans a2, b3.trans a3, b4.trans a4, b5.trans a5, b6.trans a6,
    b7.trans a7⟩

theorem write_block_env (st : State) (b : Nat) (blk : Block) :
    same_env st (write_block st b blk).2 := by
  unfold write_block; split <;> simp [same_env]

theorem write_block_used (st : State) (b : Nat) (blk : Block) :
    (write_block st b blk).2.used = st.used := by
  unfold write_block; split <;> rfl

theorem allocate_block_env (st : State) : same_env st (allocate_block st).2 := by
  unfold allocate_block
  by_cases h : st.pick st.used = 0 <;> simp [h, same_env]

theorem allocate_block_blocks (st : State) : (allocate_block st).2.blocks = st.blocks := by
  unfold allocate_block
  by_cases h : st.pick st.used = 0 <;> simp [h]

theorem release_block_env (st : State) (b : Nat) : same_env st (release_block st b).2 := by
  unfold release_block; split <;> simp [same_env]

theorem release_block_blocks (st : State) (b : Nat) :
    (release_block st b).2.blocks = st.blocks := by
  unfold release_block; split <;> rfl

theorem create_entry_env (st : State) (cur_block : Block) (name : List Nat) (tag : Nat) :
    same_env st (create_entry st cur_block name tag).2 := by
  have e1 := allocate_block_env st
  have e2 := write_block_env (allocate_block st).2 (allocate_block st).1 zero_block
  have e3 := write_block_env (write_block (allocate_block st).2 (allocate_block st).1
    zero_block).2 (allocate_block st).1 { zero_block with is_dir := tag }
  have e13 := same_env_trans _ _ _ (same_env_trans _ _ _ e1 e2) e3
  unfold create_entry
  simp only
  split
  · exact e1
  · split
    · exact e13
    · split
      · exact same_env_trans _ _ _ e13 (write_block_env _ _ _)
      · exact same_env_trans _ _ _ e13 (write_block_env _ _ _)

theorem reads_ok_env (st st' : State) (h : same_env st st') (hr : reads_ok st) :
    reads_ok st' := by
  intro b; rw [h.2.2.1]; exact hr b

theorem writes_ok_env (st st' : State) (h : same_env st st') (hw : writes_ok st) :
    writes_ok st' := by
  intro b; rw [h.2.2.2.1]; exact hw b

theorem releases_ok_env (st st' : State) (h : same_env st st') (hw : releases_ok st) :
    releases_ok st' := by
  intro b; rw [h.2.2.2.2.1]; exact hw b

theorem fresh_alloc_env (st st' : State) (h : same_env st st') (hw : fresh_alloc st) :
    fresh_alloc st' := by
  intro u; rw [h.2.1]; exact hw u

theorem create_many_ok (cfg : Config) (hcfg : cfg.wf) :
    ∀ (ops : List (Bool × List Nat)) (st : State), reads_ok st → writes_ok st →
      (∀ op ∈ ops, op.2.length ≤ cfg.MAX_NAME_LENGTH) → (ops.map Prod.snd).Nodup →
      (∀ op ∈ ops, absent (cur_dir st) op.2) →
      (cur_dir st).num_entries + ops.length ≤ cfg.MAX_DIR_ENTRIES →
      Status.E_DISK_FULL ∉ (create_many cfg st ops).1 →
      (∀ s ∈ (create_many cfg st ops).1, s = Status.E_SUCCESS) ∧
      reads_ok (create_many cfg st ops).2 ∧
      (cur_dir (create_many cfg st ops).2).num_entries =
        (cur_dir st).num_entries + ops.length := by
  intro ops
  induction ops with
  | nil => intro st hr _ _ _ _ _ _; simp [create_many, hr]
  | cons op rest ih =>
    intro st hr hw hlen hnd habs hroom hfull
    obtain ⟨d, name⟩ := op
    have hlen1 : name.length ≤ cfg.MAX_NAME_LENGTH := hlen (d, name) (List.mem_cons_self _ _)
    have habs1 : absent (cur_dir st) name := habs (d, name) (List.mem_cons_self _ _)
    have hroom1 : (cur_dir st).num_entries < cfg.MAX_DIR_ENTRIES := by
      simp only [List.length_cons] at hroom; omega
    have hstep : (if d then jfs_mkdir cfg st name else jfs_creat cfg st name) =
        create_entry st (cur_dir st) name (if d then 0 else 1) := by
      cases d <;>
        simp [jfs_mkdir_eq, jfs_creat_eq, create_checked_eq cfg st name _ hr hlen1 hroom1 habs1]
    simp only [create_many, hstep] at hfull ⊢
    have hb : st.pick st.used ≠ 0 := by
      intro h0
      apply hfull
      rw [create_entry_full st _ name _ h0]
      exact List.mem_cons_self _ _
    have henv := create_entry_env st (cur_dir st) name (if d then 0 else 1)
    have hcd := cur_dir_create_entry st (cur_dir st) name (if d then 0 else 1) hw hb
    have hn : u16 ((cur_dir st).num_entries + 1) = (cur_dir st).num_entries + 1 :=
      u16_succ _ (by have := hcfg.2.1; omega)
    rw [hn] at hcd
    simp only [Nat.add_sub_cancel] at hcd
    have hr1 := reads_ok_env _ _ henv hr
    have hw1 := writes_ok_env _ _ henv hw
    have hnd1 : (rest.map Prod.snd).Nodup := by
      simp only [List.map_cons, List.nodup_cons] at hnd; exact hnd.2
    have hnotin : ∀ op ∈ rest, op.2 ≠ name := by
      intro op hop heq
      simp only [List.map_cons, List.nodup_cons] at hnd
      exact hnd.1 (heq ▸ List.mem_map_of_mem Prod.snd hop)
    have habs2 : ∀ op ∈ rest,
        absent (cur_dir (create_entry st (cur_dir st) name (if d then 0 else 1)).2) op.2 := by
      intro op hop j hj
      rw [hcd] at hj ⊢
      simp only at hj ⊢
      by_cases hjn : j = (cur_dir st).num_entries
      · subst hjn
        simp only [upd_same]
        exact fun h => hnotin op hop h.symm
      · rw [upd_other _ _ _ _ hjn]
        exact habs op (List.mem_cons_of_mem _ hop) j (by omega)
    have hnum : (cur_dir (create_entry st (cur_dir st) name (if d then 0 else 1)).2).num_entries
        = (cur_dir st).num_entries + 1 := by rw [hcd]
    have hroom2 :
        (cur_dir (create_entry st (cur_dir st) name (if d then 0 else 1)).2).num_entries
          + rest.length ≤ cfg.MAX_DIR_ENTRIES := by
      rw [hnum]; simp only [List.length_cons] at hroom; omega
    have hfull2 : Status.E_DISK_FULL ∉
        (create_many cfg (create_entry st (cur_dir st) name (if d then 0 else 1)).2 rest).1 :=
      fun h => hfull (List.mem_cons_of_mem _ h)
    obtain ⟨r1, r2, r3⟩ := ih _ hr1 hw1 (fun op hop => hlen op (List.mem_cons_of_mem _ hop))
      hnd1 habs2 hroom2 hfull2
    refine ⟨?_, r2, ?_⟩
    · intro s hs
      rcases List.mem_cons.mp hs with h | h
      · rw [h, create_entry_ok st _ name _ hw hb]
      · exact r1 s h
    · rw [r3, hnum]; simp only [List.length_cons]; omega

/-- Claim C5: for `jfs_mkdir` and `jfs_creat` with a name of legal length: a current
directory holding `MAX_DIR_ENTRIES` entries makes the call fail with
`E_MAX_DIR_ENTRIES`; with `MAX_DIR_ENTRIES - 1` entries (name absent, allocation and
storage succeeding) the call succeeds and the directory then holds exactly
`MAX_DIR_ENTRIES` entries; and from an empty directory `MAX_DIR_ENTRIES` creations with
distinct legal names, none of which runs out of disk, all succeed and the next creation
fails with `E_MAX_DIR_ENTRIES`. -/
theorem dir_entries_boundary (cfg : Config) (st : State) (name : List Nat)
    (ops : List (Bool × List Nat)) (hr : reads_ok st)
    (hlen : name.length ≤ cfg.MAX_NAME_LENGTH) :
    ((cur_dir st).num_entries = cfg.MAX_DIR_ENTRIES →
      (jfs_mkdir cfg st name).1 = Status.E_MAX_DIR_ENTRIES ∧
      (jfs_creat cfg st name).1 = Status.E_MAX_DIR_ENTRIES) ∧
    (cfg.wf → writes_ok st → (cur_dir st).num_entries + 1 = cfg.MAX_DIR_ENTRIES →
      absent (cur_dir st) name → (allocate_block st).1 ≠ 0 →
      (jfs_mkdir cfg st name).1 = Status.E_SUCCESS ∧
      (cur_dir (jfs_mkdir cfg st name).2).num_entries = cfg.MAX_DIR_ENTRIES ∧
      (jfs_creat cfg st name).1 = Status.E_SUCCESS ∧
      (cur_dir (jfs_creat cfg st name).2).num_entries = cfg.MAX_DIR_ENTRIES) ∧
    (cfg.wf → writes_ok st → (cur_dir st).num_entries = 0 →
      ops.length = cfg.MAX_DIR_ENTRIES → (ops.map Prod.snd).Nodup →
      (∀ op ∈ ops, op.2.length ≤ cfg.MAX_NAME_LENGTH) →
      Status.E_DISK_FULL ∉ (create_many cfg st ops).1 →
      (∀ s ∈ (create_many cfg st ops).1, s = Status.E_SUCCESS) ∧
      (jfs_mkdir cfg (create_many cfg st ops).2 name).1 = Status.E_MAX_DIR_ENTRIES ∧
      (jfs_creat cfg (create_many cfg st ops).2 name).1 = Status.E_MAX_DIR_ENTRIES) := by
  have full : ∀ st1 : State, reads_ok st1 → (cur_dir st1).num_entries = cfg.MAX_DIR_ENTRIES →
      (jfs_mkdir cfg st1 name).1 = Status.E_MAX_DIR_ENTRIES ∧
      (jfs_creat cfg st1 name).1 = Status.E_MAX_DIR_ENTRIES := by
    intro st1 hr1 hn
    have hc := hr1 st1.current_dir
    unfold cur_dir at hn
    simp [jfs_mkdir_eq, jfs_creat_eq, create_checked, Nat.not_lt.mpr hlen, read_block_ok st1 _ hc, hn]
  refine ⟨full st hr, ?_, ?_⟩
  · intro hcfg hw hn habs hb
    have hb2 := pick_ne_zero_of_alloc st hb
    have hroom : (cur_dir st).num_entries < cfg.MAX_DIR_ENTRIES := by omega
    have hn2 : u16 ((cur_dir st).num_entries + 1) = (cur_dir st).num_entries + 1 :=
      u16_succ _ (by have := hcfg.2.1; omega)
    simp only [jfs_mkdir_eq, jfs_creat_eq, create_checked_eq cfg st name _ hr hlen hroom habs,
      cur_dir_create_entry st _ name _ hw hb2, hn2]
    simp [create_entry_ok st _ name _ hw hb2, hn]
  · intro hcfg hw hn hlenops hnd hlens hfull
    have habs : ∀ op ∈ ops, absent (cur_dir st) op.2 := by
      intro op _ j hj; omega
    obtain ⟨r1, r2, r3⟩ := create_many_ok cfg hcfg ops st hr hw hlens hnd habs (by omega) hfull
    refine ⟨r1, ?_⟩
    exact full _ r2 (by rw [r3]; omega)

theorem pick_ne_cur (st : State) (hfresh : fresh_alloc st)
    (hused : st.used st.current_dir = true) (hb : st.pick st.used ≠ 0) :
    st.pick st.used ≠ st.current_dir := by
  intro h
  have := hfresh st.used hb
  rw [h, hused] at this
  exact Bool.noConfusion this

/-- Claim C8: effect of `jfs_mkdir` / `jfs_creat` for a legal, absent name in a
non-full current directory (storage calls succeeding, the allocator handing out only
free blocks, the current directory being allocated): if `allocate_block` returns
`b ≠ 0` the call succeeds, block `b` on disk is the empty directory node (`is_dir = 0`,
`num_entries = 0`) resp. the empty inode (`is_dir = 1`, `file_size = 0`), and the current
directory is the old one with `(name, b)` stored at index old `num_entries` and
`num_entries` raised by one; if `allocate_block` returns `0` the call returns
`E_DISK_FULL` and the whole state is unchanged. -/
theorem mkdir_creat_effect (cfg : Config) (st : State) (name : List Nat) (hcfg : cfg.wf)
    (hr : reads_ok st) (hw : writes_ok st) (hfresh : fresh_alloc st)
    (hused : st.used st.current_dir = true)
    (hlen : name.length ≤ cfg.MAX_NAME_LENGTH) (habs : absent (cur_dir st) name)
    (hroom : (cur_dir st).num_entries < cfg.MAX_DIR_ENTRIES) :
    ((allocate_block st).1 ≠ 0 →
      ((jfs_mkdir cfg st name).1 = Status.E_SUCCESS ∧
        (jfs_mkdir cfg st name).2.blocks (allocate_block st).1 = zero_block ∧
        cur_dir (jfs_mkdir cfg st name).2 =
          { cur_dir st with
            num_entries := (cur_dir st).num_entries + 1
            entries := upd (cur_dir st).entries (cur_dir st).num_entries
              ⟨(allocate_block st).1, name⟩ }) ∧
      ((jfs_creat cfg st name).1 = Status.E_SUCCESS ∧
        (jfs_creat cfg st name).2.blocks (allocate_block st).1 =
          { zero_block with is_dir := 1 } ∧
        cur_dir (jfs_creat cfg st name).2 =
          { cur_dir st with
            num_entries := (cur_dir st).num_entries + 1
            entries := upd (cur_dir st).entries (cur_dir st).num_entries
              ⟨(allocate_block st).1, name⟩ })) ∧
    ((allocate_block st).1 = 0 →
      jfs_mkdir cfg st name = (Status.E_DISK_FULL, st) ∧
      jfs_creat cfg st name = (Status.E_DISK_FULL, st)) := by
  constructor
  · intro hb
    have hb2 := pick_ne_zero_of_alloc st hb
    have hne := pick_ne_cur st hfresh hused hb2
    have hn2 : u16 ((cur_dir st).num_entries + 1) = (cur_dir st).num_entries + 1 :=
      u16_succ _ (by have := hcfg.2.1; omega)
    simp only [jfs_mkdir_eq, jfs_creat_eq, create_checked_eq cfg st name _ hr hlen hroom habs,
      cur_dir_create_entry st _ name _ hw hb2, hn2, alloc_fst, Nat.add_sub_cancel]
    simp only [create_entry_ok st _ name _ hw hb2, upd_other _ _ _ _ hne, upd_same, and_self,
      true_and, and_true]
    rfl
  · intro hb
    rw [alloc_fst] at hb
    simp only [jfs_mkdir_eq, jfs_creat_eq, create_checked_eq cfg st name _ hr hlen hroom habs,
      create_entry_full st _ name _ hb, and_self]

/-! ## Removal: `jfs_rmdir` and `jfs_remove` -/

theorem release_block_ok (st : State) (b : Nat) (h : st.relfail b = false) :
    release_block st b = (0, { st with used := upd st.used b false }) := by
  simp [release_block, h]

theorem u16_dec_pos (n : Nat) (h1 : 0 < n) (h2 : n ≤ 65536) : u16_dec n = n - 1 := by
  unfold u16_dec u16; omega

/-- The directory node after entry `i` was taken out by `remove_directory_entry`. -/
theorem remove_directory_entry_ok (st : State) (cur_block : Block) (i : Nat)
    (hrel : st.relfail (cur_block.entries i).block_num = false) (hw : writes_ok st) :
    remove_directory_entry st cur_block (i : Int) =
      ((cur_block.entries i).block_num,
        { cur_block with
          num_entries := u16_dec cur_block.num_entries
          entries := if i + 1 = cur_block.num_entries then cur_block.entries
            else upd cur_block.entries i (cur_block.entries (cur_block.num_entries - 1)) },
        { st with
          used := upd st.used (cur_block.entries i).block_num false
          blocks := upd (upd st.blocks (cur_block.entries i).block_num zero_block)
            st.current_dir
            { cur_block with
              num_entries := u16_dec cur_block.num_entries
              entries := if i + 1 = cur_block.num_entries then cur_block.entries
                else upd cur_block.entries i
                  (cur_block.entries (cur_block.num_entries - 1)) } }) := by
  have h1 := hw (cur_block.entries i).block_num
  have h2 := hw st.current_dir
  have hcast : ((i : Int) + 1 = (cur_block.num_entries : Int)) ↔ i + 1 = cur_block.num_entries := by
    omega
  by_cases hlast : i + 1 = cur_block.num_entries
  · simp [remove_directory_entry, release_block, hrel, write_block, h1, h2, hcast, hlast]
  · simp [remove_directory_entry, release_block, hrel, write_block, h1, h2, hcast, hlast]

theorem remove_directory_entry_env (st : State) (cur_block : Block) (idx : Int) :
    same_env st (remove_directory_entry st cur_block idx).2.2 := by
  have e1 := release_block_env st (cur_block.entries idx.toNat).block_num
  have e2 := same_env_trans _ _ _ e1 (write_block_env
      (release_block st (cur_block.entries idx.toNat).block_num).2
      (cur_block.entries idx.toNat).block_num zero_block)
  unfold remove_directory_entry
  simp only
  (repeat' split) <;>
    first
    | exact e1
    | exact same_env_trans _ _ _ e2 (write_block_env _ _ _)

/-- Taking entry `i` out by swap-with-last keeps the directory invariant. -/
theorem dir_inv_removed (cfg : Config) (blk : Block) (i : Nat) (hcfg : cfg.wf)
    (hinv : dir_inv cfg blk) (hi : i < blk.num_entries) :
    dir_inv cfg
      { blk with
        num_entries := u16_dec blk.num_entries
        entries := if i + 1 = blk.num_entries then blk.entries
          else upd blk.entries i (blk.entries (blk.num_entries - 1)) } := by
  obtain ⟨hle, hd⟩ := hinv
  have hn : u16_dec blk.num_entries = blk.num_entries - 1 :=
    u16_dec_pos _ (by omega) (by have := hcfg.2.1; omega)
  refine ⟨by simp only [hn]; omega, ?_⟩
  intro a ha b hb hab
  simp only [hn] at ha hb
  by_cases hlast : i + 1 = blk.num_entries
  · simp only [hlast, if_true] at hab
    exact hd a (by omega) b (by omega) hab
  · simp only [hlast, if_false] at hab
    by_cases hai : a = i
    · by_cases hbi : b = i
      · omega
      · rw [hai, upd_same, upd_other _ _ _ _ hbi] at hab
        have := hd (blk.num_entries - 1) (by omega) b (by omega) hab
        omega
    · by_cases hbi : b = i
      · rw [hbi, upd_same, upd_other _ _ _ _ hai] at hab
        have := hd a (by omega) (blk.num_entries - 1) (by omega) hab
        omega
      · rw [upd_other _ _ _ _ hai, upd_other _ _ _ _ hbi] at hab
        exact hd a (by omega) b (by omega) hab

/-- With distinct names, the removed name is gone after the swap-with-last. -/
theorem absent_removed (blk : Block) (name : List Nat) (i : Nat) (hd : names_distinct blk)
    (hn : blk.num_entries ≤ 65536) (hi : resolves blk name i) :
    absent
      { blk with
        num_entries := u16_dec blk.num_entries
        entries := if i + 1 = blk.num_entries then blk.entries
          else upd blk.entries i (blk.entries (blk.num_entries - 1)) } name := by
  obtain ⟨h1, h2, _⟩ := hi
  have hn : u16_dec blk.num_entries = blk.num_entries - 1 := u16_dec_pos _ (by omega) hn
  intro j hj
  simp only [hn] at hj
  simp only
  intro hname
  by_cases hlast : i + 1 = blk.num_entries
  · simp only [hlast, if_true] at hname
    have := hd j (by omega) i h1 (hname.trans h2.symm)
    omega
  · simp only [hlast, if_false] at hname
    by_cases hji : j = i
    · rw [hji, upd_same] at hname
      have := hd (blk.num_entries - 1) (by omega) i h1 (hname.trans h2.symm)
      omega
    · rw [upd_other _ _ _ _ hji] at hname
      exact hji (hd j (by omega) i h1 (hname.trans h2.symm))

/-- The loop of `release_data_blocks` when no release fails. -/
theorem release_data_loop_ok (inode : Block) (n : Nat) :
    ∀ (i : Nat) (st : State), releases_ok st →
      (release_data_loop inode n i st).1 = 0 ∧
      same_env st (release_data_loop inode n i st).2 ∧
      (release_data_loop inode n i st).2.blocks = st.blocks ∧
      (∀ j, j < n → (release_data_loop inode n i st).2.used (inode.data_blocks (i + j)) = false) ∧
      (∀ b, (∀ j, j < n → b ≠ inode.data_blocks (i + j)) →
        (release_data_loop inode n i st).2.used b = st.used b) := by
  induction n with
  | zero =>
    intro i st _
    simp [release_data_loop, same_env_refl]
  | succ n ih =>
    intro i st hrel
    have h0 := hrel (inode.data_blocks i)
    have henv := release_block_env st (inode.data_blocks i)
    obtain ⟨r1, r2, r3, r4, r5⟩ := ih (i + 1) (release_block st (inode.data_blocks i)).2
      (releases_ok_env _ _ henv hrel)
    simp only [release_data_loop]
    rw [release_block_ok st _ h0] at r1 r2 r3 r4 r5 henv ⊢
    simp only [show ¬ ((0 : Int) = -1) by omega, if_false]
    refine ⟨r1, same_env_trans _ _ _ henv r2, r3, ?_, ?_⟩
    · intro j hj
      by_cases hex : ∃ k, k < n ∧ inode.data_blocks (i + 1 + k) = inode.data_blocks (i + j)
      · obtain ⟨k, hk, hk2⟩ := hex
        rw [← hk2]; exact r4 k hk
      · rw [r5 _ (fun k hk h => hex ⟨k, hk, h.symm⟩)]
        cases j with
        | zero => simp [upd]
        | succ j =>
          exact absurd ⟨j, by omega, by rw [show i + 1 + j = i + (j + 1) by omega]⟩ hex
    · intro b hb
      rw [r5 b (fun j hj => by
        have := hb (j + 1) (by omega)
        rwa [show i + (j + 1) = i + 1 + j by omega] at this)]
      have := hb 0 (by omega)
      simp only [Nat.add_zero] at this
      simp [upd, this]


theorem jfs_rmdir_absent (st : State) (name : List Nat) (hr : reads_ok st)
    (ha : absent (cur_dir st) name) : jfs_rmdir st name = (Status.E_NOT_EXISTS, st) := by
  have hc := hr st.current_dir
  simp [jfs_rmdir, read_block_ok st _ hc, if_exist_absent st name hc ha]

theorem jfs_rmdir_resolved (st : State) (name : List Nat) (i : Nat)
    (hc : st.rfail st.current_dir = false)
    (ht : st.rfail ((st.blocks st.current_dir).entries i).block_num = false)
    (hi : resolves (cur_dir st) name i) :
    jfs_rmdir st name =
      if (st.blocks ((cur_dir st).entries i).block_num).is_dir = 0 then
        if (st.blocks ((cur_dir st).entries i).block_num).num_entries > 0 then
          (Status.E_NOT_EMPTY, st)
        else if (remove_directory_entry st (cur_dir st) (i : Int)).1 = 0 then
          (Status.E_UNKNOWN, (remove_directory_entry st (cur_dir st) (i : Int)).2.2)
        else (Status.E_SUCCESS, (remove_directory_entry st (cur_dir st) (i : Int)).2.2)
      else (Status.E_NOT_DIR, st) := by
  have he := if_exist_resolves st name i hc hi
  have hz := is_dir_eq_zero_iff st _ ht
  simp only [jfs_rmdir, cur_dir, read_block_ok st _ hc, he, int_natCast_ne_neg_one,
    Int.toNat_ofNat, read_block_ok st _ ht, hz, ne_eq, if_false, not_not]

theorem jfs_remove_absent (cfg : Config) (st : State) (name : List Nat) (hr : reads_ok st)
    (ha : absent (cur_dir st) name) : jfs_remove cfg st name = (Status.E_NOT_EXISTS, st) := by
  have hc := hr st.current_dir
  simp [jfs_remove, read_block_ok st _ hc, if_exist_absent st name hc ha]

theorem jfs_remove_resolved (cfg : Config) (st : State) (name : List Nat) (i : Nat)
    (hc : st.rfail st.current_dir = false)
    (ht : st.rfail ((st.blocks st.current_dir).entries i).block_num = false)
    (hi : resolves (cur_dir st) name i) :
    jfs_remove cfg st name =
      if (st.blocks ((cur_dir st).entries i).block_num).is_dir = 0 then (Status.E_IS_DIR, st)
      else
        if (if (st.blocks ((cur_dir st).entries i).block_num).file_size ≠ 0 then
              release_data_blocks cfg st (st.blocks ((cur_dir st).entries i).block_num)
            else (0, st)).1 ≠ 0 then
          (Status.minus_one,
            (if (st.blocks ((cur_dir st).entries i).block_num).file_size ≠ 0 then
              release_data_blocks cfg st (st.blocks ((cur_dir st).entries i).block_num)
            else (0, st)).2)
        else if (remove_directory_entry
            (if (st.blocks ((cur_dir st).entries i).block_num).file_size ≠ 0 then
              release_data_blocks cfg st (st.blocks ((cur_dir st).entries i).block_num)
            else (0, st)).2 (cur_dir st) (i : Int)).1 = 0 then
          (Status.E_UNKNOWN, (remove_directory_entry
            (if (st.blocks ((cur_dir st).entries i).block_num).file_size ≠ 0 then
              release_data_blocks cfg st (st.blocks ((cur_dir st).entries i).block_num)
            else (0, st)).2 (cur_dir st) (i : Int)).2.2)
        else (Status.E_SUCCESS, (remove_directory_entry
            (if (st.blocks ((cur_dir st).entries i).block_num).file_size ≠ 0 then
              release_data_blocks cfg st (st.blocks ((cur_dir st).entries i).block_num)
            else (0, st)).2 (cur_dir st) (i : Int)).2.2) := by
  have he := if_exist_resolves st name i hc hi
  have hz := is_dir_eq_zero_iff st _ ht
  simp only [jfs_remove, cur_dir, read_block_ok st _ hc, he, int_natCast_ne_neg_one,
    Int.toNat_ofNat, read_block_ok st _ ht, hz, ne_eq, if_false, not_not]

/-- The state in which `jfs_remove` calls `remove_directory_entry`, when no release
fails: only the allocation status differs from the state before the call. -/
theorem release_phase_ok (cfg : Config) (st : State) (inode : Block) (hrel : releases_ok st) :
    (if inode.file_size ≠ 0 then release_data_blocks cfg st inode else (0, st)).1 = 0 ∧
    same_env st (if inode.file_size ≠ 0 then release_data_blocks cfg st inode else (0, st)).2 ∧
    (if inode.file_size ≠ 0 then release_data_blocks cfg st inode else (0, st)).2.blocks
      = st.blocks := by
  by_cases h : inode.file_size = 0
  · simp [h, same_env_refl]
  · obtain ⟨r1, r2, r3, _, _⟩ :=
      release_data_loop_ok inode (ceil_div cfg inode.file_size) 0 st hrel
    simp only [ne_eq, h, not_false_eq_true, if_true, release_data_blocks]
    exact ⟨r1, r2, r3⟩

theorem cur_dir_remove_entry (st : State) (cur_block : Block) (i : Nat)
    (hrel : releases_ok st) (hw : writes_ok st) :
    cur_dir (remove_directory_entry st cur_block (i : Int)).2.2 =
      { cur_block with
        num_entries := u16_dec cur_block.num_entries
        entries := if i + 1 = cur_block.num_entries then cur_block.entries
          else upd cur_block.entries i (cur_block.entries (cur_block.num_entries - 1)) } := by
  rw [remove_directory_entry_ok st cur_block i (hrel _) hw]
  simp [cur_dir, upd]

theorem create_checked_inv (cfg : Config) (st : State) (name : List Nat) (tag : Nat)
    (hcfg : cfg.wf) (hr : reads_ok st) (hw : writes_ok st) (hinv : dir_inv cfg (cur_dir st)) :
    dir_inv cfg (cur_dir (create_checked cfg st name tag).2) ∧
    ((create_checked cfg st name tag).1 = Status.E_SUCCESS →
      (cur_dir (create_checked cfg st name tag).2).num_entries =
        (cur_dir st).num_entries + 1) := by
  rcases create_checked_cases cfg st name tag hr with ⟨h, _⟩ | ⟨h, _⟩ | ⟨h, _⟩ | ⟨h, _, hroom, habs⟩
  · rw [h]; exact ⟨hinv, fun h0 => by simp at h0⟩
  · rw [h]; exact ⟨hinv, fun h0 => by simp at h0⟩
  · rw [h]; exact ⟨hinv, fun h0 => by simp at h0⟩
  · rw [h]
    by_cases hb : st.pick st.used = 0
    · rw [create_entry_full st _ name tag hb]; exact ⟨hinv, fun h0 => by simp at h0⟩
    · have hn2 : u16 ((cur_dir st).num_entries + 1) = (cur_dir st).num_entries + 1 :=
        u16_succ _ (by have := hcfg.2.1; omega)
      rw [cur_dir_create_entry st _ name tag hw hb, hn2]
      simp only [Nat.add_sub_cancel, implies_true, and_true]
      refine ⟨by simp only; omega, ?_⟩
      intro a ha b hb2 hab
      simp only at ha hb2 hab
      by_cases han : a = (cur_dir st).num_entries
      · by_cases hbn : b = (cur_dir st).num_entries
        · omega
        · rw [han, upd_same, upd_other _ _ _ _ hbn] at hab
          exact absurd hab.symm (habs b (by omega))
      · by_cases hbn : b = (cur_dir st).num_entries
        · rw [hbn, upd_same, upd_other _ _ _ _ han] at hab
          exact absurd hab (habs a (by omega))
        · rw [upd_other _ _ _ _ han, upd_other _ _ _ _ hbn] at hab
          exact hinv.2 a (by omega) b (by omega) hab

/-- Claim C6: directory invariant.  If the current directory block has
`num_entries ≤ MAX_DIR_ENTRIES` and pairwise distinct names among its first `num_entries`
entries, then after `jfs_mkdir`, `jfs_creat`, `jfs_rmdir` or `jfs_remove` (successful or
not, storage calls succeeding) the on-disk current directory block has the same two
properties; a successful `jfs_mkdir`/`jfs_creat` raises `num_entries` by exactly one and
a successful `jfs_rmdir`/`jfs_remove` lowers it by exactly one. -/
theorem directory_invariant (cfg : Config) (st : State) (name : List Nat) (hcfg : cfg.wf)
    (hr : reads_ok st) (hw : writes_ok st) (hrel : releases_ok st)
    (hinv : dir_inv cfg (cur_dir st)) :
    (dir_inv cfg (cur_dir (jfs_mkdir cfg st name).2) ∧
      ((jfs_mkdir cfg st name).1 = Status.E_SUCCESS →
        (cur_dir (jfs_mkdir cfg st name).2).num_entries = (cur_dir st).num_entries + 1)) ∧
    (dir_inv cfg (cur_dir (jfs_creat cfg st name).2) ∧
      ((jfs_creat cfg st name).1 = Status.E_SUCCESS →
        (cur_dir (jfs_creat cfg st name).2).num_entries = (cur_dir st).num_entries + 1)) ∧
    (dir_inv cfg (cur_dir (jfs_rmdir st name).2) ∧
      ((jfs_rmdir st name).1 = Status.E_SUCCESS →
        (cur_dir (jfs_rmdir st name).2).num_entries + 1 = (cur_dir st).num_entries)) ∧
    (dir_inv cfg (cur_dir (jfs_remove cfg st name).2) ∧
      ((jfs_remove cfg st name).1 = Status.E_SUCCESS →
        (cur_dir (jfs_remove cfg st name).2).num_entries + 1 = (cur_dir st).num_entries)) := by
  refine ⟨create_checked_inv cfg st name 0 hcfg hr hw hinv,
    create_checked_inv cfg st name 1 hcfg hr hw hinv, ?_, ?_⟩
  · rcases absent_or_resolves (cur_dir st) name with ha | ⟨i, hi⟩
    · rw [jfs_rmdir_absent st name hr ha]; exact ⟨hinv, fun h0 => by simp at h0⟩
    · have hn : u16_dec (cur_dir st).num_entries = (cur_dir st).num_entries - 1 :=
        u16_dec_pos _ (by have := hi.1; omega) (by have := hcfg.2.1; have := hinv.1; omega)
      have hrem := dir_inv_removed cfg (cur_dir st) i hcfg hinv hi.1
      have hcd := cur_dir_remove_entry st (cur_dir st) i hrel hw
      rw [jfs_rmdir_resolved st name i (hr _) (hr _) hi]
      (repeat' split) <;> first
        | exact ⟨hinv, fun h0 => by simp at h0⟩
        | (simp only [hcd]
           refine ⟨hrem, fun _ => ?_⟩
           simp only [hn]
           have := hi.1
           omega)
  · rcases absent_or_resolves (cur_dir st) name with ha | ⟨i, hi⟩
    · rw [jfs_remove_absent cfg st name hr ha]; exact ⟨hinv, fun h0 => by simp at h0⟩
    · have hn : u16_dec (cur_dir st).num_entries = (cur_dir st).num_entries - 1 :=
        u16_dec_pos _ (by have := hi.1; omega) (by have := hcfg.2.1; have := hinv.1; omega)
      have hrem := dir_inv_removed cfg (cur_dir st) i hcfg hinv hi.1
      obtain ⟨p1, p2, p3⟩ := release_phase_ok cfg st
        (st.blocks ((cur_dir st).entries i).block_num) hrel
      rw [jfs_remove_resolved cfg st name i (hr _) (hr _) hi]
      generalize (if (st.blocks ((cur_dir st).entries i).block_num).file_size ≠ 0 then
          release_data_blocks cfg st (st.blocks ((cur_dir st).entries i).block_num)
        else (0, st)) = rp at p1 p2 p3 ⊢
      have hcd := cur_dir_remove_entry rp.2 (cur_dir st) i (releases_ok_env _ _ p2 hrel)
        (writes_ok_env _ _ p2 hw)
      by_cases hd : (st.blocks ((cur_dir st).entries i).block_num).is_dir = 0
      · simp only [hd, if_true]; exact ⟨hinv, fun h0 => by simp at h0⟩
      · simp only [hd, if_false, p1, ne_eq, not_true_eq_false]
        split
        · simp only [hcd]
          exact ⟨hrem, fun h0 => by simp at h0⟩
        · simp only [hcd]
          refine ⟨hrem, fun _ => ?_⟩
          simp only [hn]
          have := hi.1
          omega

/-! ## Deletion releases the blocks; `jfs_rmdir` needs an empty directory -/

theorem ceil_div_eq (cfg : Config) (s : Nat) (h : s + cfg.BLOCK_SIZE ≤ 4294967296)
    (_hb : 0 < cfg.BLOCK_SIZE) : ceil_div cfg s = ceil_blocks cfg s := by
  unfold ceil_div ceil_blocks u32
  rw [Nat.mod_eq_of_lt (by omega)]

theorem ceil_div_wf (cfg : Config) (s : Nat) (hcfg : cfg.wf) (hs : s ≤ cfg.MAX_FILE_SIZE) :
    ceil_div cfg s = ceil_blocks cfg s :=
  ceil_div_eq cfg s (by have := hcfg.2.2; omega) hcfg.1

/-- The loop of `release_data_blocks`, whenever it reports success. -/
theorem release_data_loop_success (inode : Block) (n : Nat) :
    ∀ (i : Nat) (st : State), (release_data_loop inode n i st).1 = 0 →
      (∀ j, j < n → (release_data_loop inode n i st).2.used (inode.data_blocks (i + j)) = false) ∧
      (∀ b, (∀ j, j < n → b ≠ inode.data_blocks (i + j)) →
        (release_data_loop inode n i st).2.used b = st.used b) := by
  induction n with
  | zero =>
    intro i st _
    simp [release_data_loop]
  | succ n ih =>
    intro i st hs
    simp only [release_data_loop] at hs ⊢
    by_cases h0 : st.relfail (inode.data_blocks i) = true
    · simp [release_block, h0] at hs
    · have h0 : st.relfail (inode.data_blocks i) = false := by simpa using h0
      rw [release_block_ok st _ h0] at hs ⊢
      simp only [show ¬ ((0 : Int) = -1) by omega, if_false] at hs ⊢
      obtain ⟨r4, r5⟩ := ih (i + 1) _ hs
      refine ⟨?_, ?_⟩
      · intro j hj
        by_cases hex : ∃ k, k < n ∧ inode.data_blocks (i + 1 + k) = inode.data_blocks (i + j)
        · obtain ⟨k, hk, hk2⟩ := hex
          rw [← hk2]; exact r4 k hk
        · rw [r5 _ (fun k hk h => hex ⟨k, hk, h.symm⟩)]
          cases j with
          | zero => simp [upd]
          | succ j =>
            exact absurd ⟨j, by omega, by rw [show i + 1 + j = i + (j + 1) by omega]⟩ hex
      · intro b hb
        rw [r5 b (fun j hj => by
          have := hb (j + 1) (by omega)
          rwa [show i + (j + 1) = i + 1 + j by omega] at this)]
        have := hb 0 (by omega)
        simp only [Nat.add_zero] at this
        simp [upd, this]

/-- A call of `remove_directory_entry` that does not return `0` has released the
entry's block and nothing else. -/
theorem remove_directory_entry_used (st : State) (cur_block : Block) (idx : Int)
    (h : (remove_directory_entry st cur_block idx).1 ≠ 0) :
    (remove_directory_entry st cur_block idx).2.2.used =
      upd st.used (cur_block.entries idx.toNat).block_num false := by
  by_cases h0 : st.relfail (cur_block.entries idx.toNat).block_num = true
  · simp [remove_directory_entry, release_block, h0] at h
  · have h0 : st.relfail (cur_block.entries idx.toNat).block_num = false := by simpa using h0
    unfold remove_directory_entry
    simp only [release_block_ok st _ h0, show ¬ ((0 : Int) = -1) by omega, if_false]
    (repeat' split) <;> simp only [write_block_used]

theorem read_block_fail (st : State) (b : Nat) (h : st.rfail b = true) :
    read_block st b = none := by
  simp [read_block, h]

theorem is_dir_fail (st : State) (b : Nat) (h : st.rfail b = true) : is_dir st b = -1 := by
  simp [is_dir, read_block, h]

theorem jfs_remove_success (cfg : Config) (st : State) (name : List Nat) (i : Nat)
    (hi : resolves (cur_dir st) name i)
    (hs : (jfs_remove cfg st name).1 = Status.E_SUCCESS) :
    (st.blocks ((cur_dir st).entries i).block_num).is_dir ≠ 0 ∧
    (if (st.blocks ((cur_dir st).entries i).block_num).file_size ≠ 0 then
        release_data_blocks cfg st (st.blocks ((cur_dir st).entries i).block_num)
      else (0, st)).1 = 0 ∧
    (remove_directory_entry
      (if (st.blocks ((cur_dir st).entries i).block_num).file_size ≠ 0 then
        release_data_blocks cfg st (st.blocks ((cur_dir st).entries i).block_num)
      else (0, st)).2 (cur_dir st) (i : Int)).1 ≠ 0 ∧
    (jfs_remove cfg st name).2 = (remove_directory_entry
      (if (st.blocks ((cur_dir st).entries i).block_num).file_size ≠ 0 then
        release_data_blocks cfg st (st.blocks ((cur_dir st).entries i).block_num)
      else (0, st)).2 (cur_dir st) (i : Int)).2.2 := by
  by_cases hc : st.rfail st.current_dir = true
  · simp [jfs_remove, read_block, hc] at hs
  · have hc : st.rfail st.current_dir = false := by simpa using hc
    have he := if_exist_resolves st name i hc hi
    by_cases ht : st.rfail ((st.blocks st.current_dir).entries i).block_num = true
    · simp only [jfs_remove, read_block_ok st _ hc, he, Int.toNat_ofNat, is_dir_fail st _ ht,
        int_natCast_ne_neg_one, if_false] at hs
      simp at hs
    · have ht : st.rfail ((st.blocks st.current_dir).entries i).block_num = false := by
        simpa using ht
      rw [jfs_remove_resolved cfg st name i hc ht hi] at hs ⊢
      generalize (if (st.blocks ((cur_dir st).entries i).block_num).file_size ≠ 0 then
          release_data_blocks cfg st (st.blocks ((cur_dir st).entries i).block_num)
        else (0, st)) = rp at hs ⊢
      by_cases hd : (st.blocks ((cur_dir st).entries i).block_num).is_dir = 0
      · simp [hd] at hs
      · simp only [hd, if_false] at hs ⊢
        by_cases hrp : rp.1 = 0
        · simp only [hrp, ne_eq, not_true_eq_false, if_false] at hs ⊢
          by_cases hrd : (remove_directory_entry rp.2 (cur_dir st) (i : Int)).1 = 0
          · simp [hrd] at hs
          · simp [hrd, hd]
        · simp [hrp] at hs

theorem jfs_rmdir_success (st : State) (name : List Nat) (i : Nat)
    (hi : resolves (cur_dir st) name i)
    (hs : (jfs_rmdir st name).1 = Status.E_SUCCESS) :
    (remove_directory_entry st (cur_dir st) (i : Int)).1 ≠ 0 ∧
    (jfs_rmdir st name).2 = (remove_directory_entry st (cur_dir st) (i : Int)).2.2 := by
  by_cases hc : st.rfail st.current_dir = true
  · simp [jfs_rmdir, read_block, hc] at hs
  · have hc : st.rfail st.current_dir = false := by simpa using hc
    have he := if_exist_resolves st name i hc hi
    by_cases ht : st.rfail ((st.blocks st.current_dir).entries i).block_num = true
    · simp only [jfs_rmdir, read_block_ok st _ hc, he, Int.toNat_ofNat, is_dir_fail st _ ht,
        int_natCast_ne_neg_one, if_false, read_block_fail st _ ht] at hs
      simp at hs
    · have ht : st.rfail ((st.blocks st.current_dir).entries i).block_num = false := by
        simpa using ht
      rw [jfs_rmdir_resolved st name i hc ht hi] at hs ⊢
      by_cases hd : (st.blocks ((cur_dir st).entries i).block_num).is_dir = 0
      · simp only [hd, if_true] at hs ⊢
        by_cases hne : (st.blocks ((cur_dir st).entries i).block_num).num_entries > 0
        · simp [hne] at hs
        · simp only [hne, if_false] at hs ⊢
          by_cases hrd : (remove_directory_entry st (cur_dir st) (i : Int)).1 = 0
          · simp [hrd] at hs
          · simp [hrd]
      · simp [hd] at hs

/-- Claim C7: no leak on deletion.  After a successful `jfs_remove` of the file
that the name resolves to, of size `s ≤ MAX_FILE_SIZE`, the inode block and each of the
`ceil(s / BLOCK_SIZE)` data blocks are free and no other block changed its allocation
status; after a successful `jfs_rmdir` the removed directory's block is free and no
other block changed its allocation status. -/
theorem no_leak_on_deletion (cfg : Config) (st : State) (name : List Nat) (i : Nat)
    (hi : resolves (cur_dir st) name i) :
    (cfg.wf → (st.blocks ((cur_dir st).entries i).block_num).file_size ≤ cfg.MAX_FILE_SIZE →
      (jfs_remove cfg st name).1 = Status.E_SUCCESS →
      (jfs_remove cfg st name).2.used ((cur_dir st).entries i).block_num = false ∧
      (∀ j, j < ceil_blocks cfg (st.blocks ((cur_dir st).entries i).block_num).file_size →
        (jfs_remove cfg st name).2.used
          ((st.blocks ((cur_dir st).entries i).block_num).data_blocks j) = false) ∧
      (∀ b, b ≠ ((cur_dir st).entries i).block_num →
        (∀ j, j < ceil_blocks cfg (st.blocks ((cur_dir st).entries i).block_num).file_size →
          b ≠ (st.blocks ((cur_dir st).entries i).block_num).data_blocks j) →
        (jfs_remove cfg st name).2.used b = st.used b)) ∧
    ((jfs_rmdir st name).1 = Status.E_SUCCESS →
      (jfs_rmdir st name).2.used ((cur_dir st).entries i).block_num = false ∧
      (∀ b, b ≠ ((cur_dir st).entries i).block_num →
        (jfs_rmdir st name).2.used b = st.used b)) := by
  constructor
  · intro hcfg hsz hs
    obtain ⟨_, h2, h3, h4⟩ := jfs_remove_success cfg st name i hi hs
    have hu := remove_directory_entry_used _ _ _ h3
    rw [h4, hu]
    simp only [Int.toNat_ofNat]
    have hrel : (∀ j, j < ceil_blocks cfg (st.blocks ((cur_dir st).entries i).block_num).file_size →
          (if (st.blocks ((cur_dir st).entries i).block_num).file_size ≠ 0 then
            release_data_blocks cfg st (st.blocks ((cur_dir st).entries i).block_num)
          else (0, st)).2.used
            ((st.blocks ((cur_dir st).entries i).block_num).data_blocks j) = false) ∧
        (∀ b, (∀ j, j < ceil_blocks cfg (st.blocks ((cur_dir st).entries i).block_num).file_size →
            b ≠ (st.blocks ((cur_dir st).entries i).block_num).data_blocks j) →
          (if (st.blocks ((cur_dir st).entries i).block_num).file_size ≠ 0 then
            release_data_blocks cfg st (st.blocks ((cur_dir st).entries i).block_num)
          else (0, st)).2.used b = st.used b) := by
      by_cases hz : (st.blocks ((cur_dir st).entries i).block_num).file_size = 0
      · have hc0 : ceil_blocks cfg 0 = 0 := by
          unfold ceil_blocks
          have := hcfg.1
          exact Nat.div_eq_of_lt (by omega)
        simp only [hz, ne_eq, not_true_eq_false, if_false, hc0]
        refine ⟨fun j hj => by omega, ?_⟩
        intros
        first | rfl | trivial
      · simp only [ne_eq, hz, not_false_eq_true, if_true, release_data_blocks] at h2 ⊢
        rw [ceil_div_wf cfg _ hcfg hsz] at h2 ⊢
        have := release_data_loop_success _ _ 0 st h2
        simpa using this
    generalize (if (st.blocks ((cur_dir st).entries i).block_num).file_size ≠ 0 then
          release_data_blocks cfg st (st.blocks ((cur_dir st).entries i).block_num)
        else (0, st)) = rp at hrel ⊢
    refine ⟨upd_same _ _ _, ?_, ?_⟩
    · intro j hj
      by_cases hjt : (st.blocks ((cur_dir st).entries i).block_num).data_blocks j =
          ((cur_dir st).entries i).block_num
      · rw [hjt]; exact upd_same _ _ _
      · rw [upd_other _ _ _ _ hjt]; exact hrel.1 j hj
    · intro b hb1 hb2
      rw [upd_other _ _ _ _ hb1]; exact hrel.2 b hb2
  · intro hs
    obtain ⟨h3, h4⟩ := jfs_rmdir_success st name i hi hs
    have hu := remove_directory_entry_used _ _ _ h3
    rw [h4, hu]
    simp only [Int.toNat_ofNat]
    exact ⟨upd_same _ _ _, fun b hb => upd_other _ _ _ _ hb⟩


/-- Claim C9: `jfs_rmdir(name)` with storage calls succeeding returns `E_NOT_EMPTY`
iff the name resolves to a directory node whose `num_entries > 0`, and then leaves the
state as it was; it returns success iff the name resolves to a directory node with
`num_entries = 0` (entries carrying valid, non-zero block numbers); and after a success
in a directory satisfying the directory invariant the name no longer resolves in the
current directory. -/
theorem rmdir_only_when_empty (cfg : Config) (st : State) (name : List Nat)
    (hr : reads_ok st) (hw : writes_ok st) (hrel : releases_ok st) :
    ((jfs_rmdir st name).1 = Status.E_NOT_EMPTY ↔
      ∃ i, resolves (cur_dir st) name i ∧
        (st.blocks ((cur_dir st).entries i).block_num).is_dir = 0 ∧
        0 < (st.blocks ((cur_dir st).entries i).block_num).num_entries) ∧
    ((jfs_rmdir st name).1 = Status.E_NOT_EMPTY → (jfs_rmdir st name).2 = st) ∧
    ((∀ j, j < (cur_dir st).num_entries → ((cur_dir st).entries j).block_num ≠ 0) →
      ((jfs_rmdir st name).1 = Status.E_SUCCESS ↔
        ∃ i, resolves (cur_dir st) name i ∧
          (st.blocks ((cur_dir st).entries i).block_num).is_dir = 0 ∧
          (st.blocks ((cur_dir st).entries i).block_num).num_entries = 0)) ∧
    (cfg.wf → dir_inv cfg (cur_dir st) → (jfs_rmdir st name).1 = Status.E_SUCCESS →
      absent (cur_dir (jfs_rmdir st name).2) name) := by
  rcases absent_or_resolves (cur_dir st) name with ha | ⟨i, hi⟩
  · rw [jfs_rmdir_absent st name hr ha]
    have hno : ∀ (P : Nat → Prop), ¬ ∃ i, resolves (cur_dir st) name i ∧ P i :=
      fun P ⟨i, h, _⟩ => not_absent_of_resolves _ _ _ h ha
    refine ⟨?_, ?_, ?_, ?_⟩
    · simp only [hno, iff_false]; simp
    · intro h; simp at h
    · intro _; simp only [hno, iff_false]; simp
    · intro _ _ h; simp at h
  · have huniq : ∀ (P : Nat → Prop), (∃ k, resolves (cur_dir st) name k ∧ P k) ↔ P i := by
      intro P
      constructor
      · rintro ⟨k, hk, hp⟩
        rwa [resolves_unique _ _ _ _ hk hi] at hp
      · intro hp; exact ⟨i, hi, hp⟩
    have hok := remove_directory_entry_ok st (cur_dir st) i (hrel _) hw
    have hcd := cur_dir_remove_entry st (cur_dir st) i hrel hw
    rw [jfs_rmdir_resolved st name i (hr _) (hr _) hi]
    rw [huniq (fun k => (st.blocks ((cur_dir st).entries k).block_num).is_dir = 0 ∧
        0 < (st.blocks ((cur_dir st).entries k).block_num).num_entries),
      huniq (fun k => (st.blocks ((cur_dir st).entries k).block_num).is_dir = 0 ∧
        (st.blocks ((cur_dir st).entries k).block_num).num_entries = 0)]
    by_cases hd : (st.blocks ((cur_dir st).entries i).block_num).is_dir = 0
    · by_cases hne : 0 < (st.blocks ((cur_dir st).entries i).block_num).num_entries
      · have hne2 : ¬ (st.blocks ((cur_dir st).entries i).block_num).num_entries = 0 := by omega
        simp [hd, hne, hne2]
      · have hne2 : (st.blocks ((cur_dir st).entries i).block_num).num_entries = 0 := by omega
        simp only [hd, hne, gt_iff_lt, if_true, if_false, true_and, iff_false]
        refine ⟨?_, ?_, ?_, ?_⟩
        · split <;> simp
        · intro h; split at h <;> simp at h
        · intro hvalid
          have hz := hvalid i hi.1
          simp [hok, hz, hne2]
        · intro hcfg hinv hs
          have hrd : ¬ (remove_directory_entry st (cur_dir st) (i : Int)).1 = 0 := by
            intro h0; simp [h0] at hs
          simp only [hrd, if_false, hcd]
          exact absent_removed (cur_dir st) name i hinv.2
            (by have := hcfg.2.1; have := hinv.1; omega) hi
    · simp [hd]

/-! ## Appending: the allocation loop and `write_data_blocks` -/

theorem state_ext (a b : State) (h1 : same_env a b) (h2 : b.blocks = a.blocks)
    (h3 : b.used = a.used) : b = a := by
  obtain ⟨e1, e2, e3, e4, e5, e6, e7⟩ := h1
  cases a; cases b
  simp only at e1 e2 e3 e4 e5 e6 e7 h2 h3
  simp [e1, e2, e3, e4, e5, e6, e7, h2, h3]

theorem mark_nil (u : Nat → Bool) (v : Bool) : mark u [] v = u := by
  funext b; simp [mark]

theorem upd_mark (u : Nat → Bool) (bs : List Nat) (b : Nat) (v : Bool) :
    upd (mark u bs v) b v = mark u (bs ++ [b]) v := by
  funext x
  simp only [upd, mark, List.mem_append, List.mem_singleton]
  by_cases h1 : x = b <;> by_cases h2 : x ∈ bs <;> simp [h1, h2]

theorem mark_upd (u : Nat → Bool) (bs : List Nat) (b : Nat) (v : Bool) :
    mark (upd u b v) bs v = mark u (b :: bs) v := by
  funext x
  simp only [upd, mark, List.mem_cons]
  by_cases h1 : x = b <;> by_cases h2 : x ∈ bs <;> simp [h1, h2]

theorem mark_mark_free (u : Nat → Bool) (bs : List Nat)
    (h : ∀ b ∈ bs, u b = false) : mark (mark u bs true) bs false = u := by
  funext x
  simp only [mark]
  by_cases h2 : x ∈ bs
  · simp [h2, h x h2]
  · simp [h2]

/-- The helper `release_all` when no release fails. -/
theorem release_all_ok : ∀ (bs : List Nat) (st : State), releases_ok st →
    same_env st (release_all st bs).2 ∧ (release_all st bs).2.blocks = st.blocks ∧
    (release_all st bs).2.used = mark st.used bs false := by
  intro bs
  induction bs with
  | nil => intro st _; simp [release_all, same_env_refl, mark_nil]
  | cons b rest ih =>
    intro st hrel
    have henv := release_block_env st b
    obtain ⟨r1, r2, r3⟩ := ih (release_block st b).2 (releases_ok_env _ _ henv hrel)
    simp only [release_all]
    refine ⟨same_env_trans _ _ _ henv r1, ?_, ?_⟩
    · rw [r2, release_block_blocks]
    · rw [r3, release_block_ok st b (hrel b)]
      exact mark_upd _ _ _ _

theorem release_all_env : ∀ (bs : List Nat) (st : State),
    same_env st (release_all st bs).2 ∧ (release_all st bs).2.blocks = st.blocks := by
  intro bs
  induction bs with
  | nil => intro st; simp [release_all, same_env_refl]
  | cons b rest ih =>
    intro st
    have henv := release_block_env st b
    obtain ⟨r1, r2⟩ := ih (release_block st b).2
    simp only [release_all]
    exact ⟨same_env_trans _ _ _ henv r1, by rw [r2, release_block_blocks]⟩

theorem alloc_loop_env : ∀ (n : Nat) (st : State) (acc : List Nat),
    same_env st (alloc_loop n st acc).2 ∧ (alloc_loop n st acc).2.blocks = st.blocks := by
  intro n
  induction n with
  | zero => intro st acc; simp [alloc_loop, same_env_refl]
  | succ n ih =>
    intro st acc
    have e1 := allocate_block_env st
    have b1 := allocate_block_blocks st
    simp only [alloc_loop]
    split
    · obtain ⟨r1, r2⟩ := release_all_env acc (allocate_block st).2
      exact ⟨same_env_trans _ _ _ e1 r1, by rw [r2, b1]⟩
    · obtain ⟨r1, r2⟩ := ih (allocate_block st).2 (acc ++ [(allocate_block st).1])
      exact ⟨same_env_trans _ _ _ e1 r1, by rw [r2, b1]⟩

/-- When the allocation loop of `write_data_blocks` gives up, the allocation
status is the one from before the loop. -/
theorem alloc_loop_none (u0 : Nat → Bool) : ∀ (n : Nat) (st : State) (acc : List Nat),
    fresh_alloc st → releases_ok st → st.used = mark u0 acc true →
    (∀ b ∈ acc, u0 b = false) → (alloc_loop n st acc).1 = none →
    (alloc_loop n st acc).2.used = u0 := by
  intro n
  induction n with
  | zero => intro st acc _ _ _ _ h; simp [alloc_loop] at h
  | succ n ih =>
    intro st acc hfresh hrel hused hfree hnone
    simp only [alloc_loop] at hnone ⊢
    by_cases hb : st.pick st.used = 0
    · have ha : allocate_block st = (0, st) := by simp [allocate_block, hb]
      simp only [ha, if_true]
      rw [(release_all_ok acc st hrel).2.2, hused]
      exact mark_mark_free u0 acc hfree
    · have ha : allocate_block st = (st.pick st.used,
          { st with used := upd st.used (st.pick st.used) true }) := by
        simp [allocate_block, hb]
      have henv := allocate_block_env st
      rw [ha] at henv hnone ⊢
      simp only [hb, if_false] at hnone ⊢
      refine ih _ _ (fresh_alloc_env _ _ henv hfresh) (releases_ok_env _ _ henv hrel) ?_ ?_ hnone
      · simp only [hused]; exact upd_mark _ _ _ _
      · intro b hbm
        rcases List.mem_append.mp hbm with h | h
        · exact hfree b h
        · rw [List.mem_singleton] at h
          have hf := hfresh st.used hb
          rw [hused] at hf
          simp only [mark] at hf
          by_cases hin : st.pick (mark u0 acc true) ∈ acc
          · rw [hused] at h; rw [h]; exact hfree _ hin
          · rw [hused] at h
            simp only [hin, if_false] at hf
            rw [h]; exact hf

/-- The list of block numbers the allocation loop returns on success. -/
theorem alloc_loop_some : ∀ (n : Nat) (st : State) (acc l : List Nat),
    (alloc_loop n st acc).1 = some l →
    ∃ new, l = acc ++ new ∧ new.length = n ∧
      (alloc_loop n st acc).2.used = mark st.used new true ∧
      (fresh_alloc st → new.Nodup ∧ ∀ b ∈ new, st.used b = false ∧ b ≠ 0) := by
  intro n
  induction n with
  | zero =>
    intro st acc l h
    simp only [alloc_loop, Option.some.injEq] at h
    exact ⟨[], by simp [h], rfl, by simp [alloc_loop, mark_nil], fun _ => by simp⟩
  | succ n ih =>
    intro st acc l h
    simp only [alloc_loop] at h ⊢
    by_cases hb : st.pick st.used = 0
    · have ha : allocate_block st = (0, st) := by simp [allocate_block, hb]
      simp [ha] at h
    · have ha : allocate_block st = (st.pick st.used,
          { st with used := upd st.used (st.pick st.used) true }) := by
        simp [allocate_block, hb]
      have henv := allocate_block_env st
      rw [ha] at henv h ⊢
      simp only [hb, if_false] at h ⊢
      obtain ⟨new, h1, h2, h3, h4⟩ := ih _ _ l h
      refine ⟨st.pick st.used :: new, by simp [h1], by simp [h2], ?_, ?_⟩
      · rw [h3]; exact mark_upd _ _ _ _
      · intro hfresh
        obtain ⟨k1, k2⟩ := h4 (fresh_alloc_env _ _ henv hfresh)
        have hf := hfresh st.used hb
        refine ⟨List.nodup_cons.mpr ⟨?_, k1⟩, ?_⟩
        · intro hin
          have := (k2 _ hin).1
          simp [upd] at this
        · intro b hbm
          rcases List.mem_cons.mp hbm with h | h
          · rw [h]; exact ⟨hf, hb⟩
          · have := k2 b h
            refine ⟨?_, this.2⟩
            have h5 := this.1
            simp only [upd] at h5
            by_cases hbp : b = st.pick st.used
            · rw [hbp]; exact hf
            · simpa [hbp] using h5


/-! ### Arithmetic of the ceiling division -/

theorem ceil_blocks_bounds (cfg : Config) (s : Nat) (hb : 0 < cfg.BLOCK_SIZE) :
    s ≤ ceil_blocks cfg s * cfg.BLOCK_SIZE ∧
      ceil_blocks cfg s * cfg.BLOCK_SIZE < s + cfg.BLOCK_SIZE := by
  unfold ceil_blocks
  have h1 := Nat.div_add_mod (s + cfg.BLOCK_SIZE - 1) cfg.BLOCK_SIZE
  have h2 := Nat.mod_lt (s + cfg.BLOCK_SIZE - 1) hb
  rw [Nat.mul_comm] at h1
  constructor <;> omega

theorem ceil_blocks_mono (cfg : Config) (s s' : Nat) (h : s ≤ s') :
    ceil_blocks cfg s ≤ ceil_blocks cfg s' := by
  unfold ceil_blocks
  exact Nat.div_le_div_right (by omega)

theorem ceil_blocks_zero (cfg : Config) (hb : 0 < cfg.BLOCK_SIZE) : ceil_blocks cfg 0 = 0 := by
  unfold ceil_blocks
  exact Nat.div_eq_of_lt (by omega)

/-- Block `q` lies below the block count iff its first byte lies below the size. -/
theorem lt_ceil_blocks_iff (cfg : Config) (s q : Nat) (hb : 0 < cfg.BLOCK_SIZE) :
    q < ceil_blocks cfg s ↔ q * cfg.BLOCK_SIZE < s := by
  obtain ⟨h1, h2⟩ := ceil_blocks_bounds cfg s hb
  constructor
  · intro h
    have : (q + 1) * cfg.BLOCK_SIZE ≤ ceil_blocks cfg s * cfg.BLOCK_SIZE :=
      Nat.mul_le_mul_right _ h
    rw [Nat.add_mul, Nat.one_mul] at this
    omega
  · intro h
    by_contra hq
    have : ceil_blocks cfg s * cfg.BLOCK_SIZE ≤ q * cfg.BLOCK_SIZE :=
      Nat.mul_le_mul_right _ (Nat.not_lt.mp hq)
    omega

/-! ### The loops of `write_data_blocks` -/

theorem put_blocks_notin : ∀ (bs : List Nat) (blks : List Block) (f : Nat → Block) (b : Nat),
    b ∉ bs → put_blocks f bs blks b = f b := by
  intro bs
  induction bs with
  | nil => intro blks f b _; simp [put_blocks]
  | cons x rest ih =>
    intro blks f b hb
    cases blks with
    | nil => simp [put_blocks]
    | cons blk blks =>
      simp only [put_blocks]
      rw [ih blks _ b (fun h => hb (List.mem_cons_of_mem _ h))]
      exact upd_other _ _ _ _ (fun h => hb (h ▸ List.mem_cons_self _ _))

theorem put_blocks_get : ∀ (bs : List Nat) (blks : List Block) (f : Nat → Block) (k : Nat),
    bs.Nodup → k < bs.length → k < blks.length →
    put_blocks f bs blks (bs.getD k 0) = blks.getD k zero_block := by
  intro bs
  induction bs with
  | nil => intro blks f k _ hk _; simp at hk
  | cons x rest ih =>
    intro blks f k hnd hk1 hk2
    cases blks with
    | nil => simp at hk2
    | cons blk blks =>
      simp only [put_blocks]
      have hnd' := List.nodup_cons.mp hnd
      cases k with
      | zero =>
        simp only [List.getD_cons_zero]
        rw [put_blocks_notin rest blks _ x hnd'.1]
        exact upd_same _ _ _
      | succ k =>
        simp only [List.getD_cons_succ]
        exact ih blks _ k hnd'.2 (by simpa using hk1) (by simpa using hk2)

theorem write_new_blocks_ok (all : List Nat) : ∀ (bs : List Nat) (blks : List Block)
    (st : State), writes_ok st →
    write_new_blocks all bs blks st =
      (0, { st with blocks := put_blocks st.blocks bs blks }) := by
  intro bs
  induction bs with
  | nil => intro blks st _; simp [write_new_blocks, put_blocks]
  | cons b rest ih =>
    intro blks st hw
    cases blks with
    | nil => simp [write_new_blocks, put_blocks]
    | cons blk blks =>
      simp only [write_new_blocks, put_blocks]
      rw [write_block_ok st b blk (hw b)]
      simp only [show ¬ ((0 : Int) = -1) by omega, if_false]
      exact ih blks _ (fun x => hw x)

theorem fill_new_blocks_length (cfg : Config) (buf : List Nat) : ∀ (n copied count : Nat),
    (fill_new_blocks cfg buf n copied count).length = n := by
  intro n
  induction n with
  | zero => intro _ _; rfl
  | succ n ih =>
    intro copied count
    simp only [fill_new_blocks]
    split <;> simp [ih]

theorem fill_new_blocks_bytes (cfg : Config) (buf : List Nat) : ∀ (n copied count k j : Nat),
    k < n → j < cfg.BLOCK_SIZE → k * cfg.BLOCK_SIZE + j < count →
    ((fill_new_blocks cfg buf n copied count).getD k zero_block).bytes j =
      buf.getD (copied + (k * cfg.BLOCK_SIZE + j)) 0 := by
  intro n
  induction n with
  | zero => intro _ _ k _ hk; omega
  | succ n ih =>
    intro copied count k j hk hj hlt
    simp only [fill_new_blocks]
    cases k with
    | zero =>
      simp only [Nat.zero_mul, Nat.zero_add] at hlt ⊢
      split
      · simp [memcpy_bytes, hlt]
      · simp [memcpy_bytes, hj]
    | succ k =>
      have hmul : (k + 1) * cfg.BLOCK_SIZE = k * cfg.BLOCK_SIZE + cfg.BLOCK_SIZE := by
        rw [Nat.add_mul, Nat.one_mul]
      rw [hmul] at hlt ⊢
      split
      · omega
      · simp only [List.getD_cons_succ]
        rw [ih (copied + cfg.BLOCK_SIZE) (count - cfg.BLOCK_SIZE) k j (by omega) hj (by omega)]
        congr 1
        omega

theorem store_block_nums_eq : ∀ (l : List Nat) (db : Nat → Nat) (idx m : Nat),
    store_block_nums db idx l m =
      if idx ≤ m ∧ m < idx + l.length then l.getD (m - idx) 0 else db m := by
  intro l
  induction l with
  | nil =>
    intro db idx m
    have : ¬ (idx ≤ m ∧ m < idx) := by omega
    simp [store_block_nums, this]
  | cons b rest ih =>
    intro db idx m
    simp only [store_block_nums, ih, List.length_cons]
    by_cases h1 : m = idx
    · subst h1
      simp [upd]
    · by_cases h2 : idx + 1 ≤ m ∧ m < idx + 1 + rest.length
      · have h3 : idx ≤ m ∧ m < idx + (rest.length + 1) := by omega
        simp only [h2, h3, and_self, if_true]
        have : m - idx = (m - (idx + 1)) + 1 := by omega
        rw [this, List.getD_cons_succ]
      · have h3 : ¬ (idx ≤ m ∧ m < idx + (rest.length + 1)) := by omega
        simp only [h2, h3, if_false]
        exact upd_other _ _ _ _ h1


theorem u32_small (n : Nat) (h : n < 4294967296) : u32 n = n := by
  unfold u32; exact Nat.mod_eq_of_lt h

/-- The helper `write_data_blocks` when the sizes stay in range, no read or write
fails and the allocation loop obtains the blocks `new`. -/
theorem write_data_blocks_ok (cfg : Config) (st : State) (inode : Block) (buf : List Nat)
    (count : Nat) (new : List Nat) (hcfg : cfg.wf)
    (hs : inode.file_size + count ≤ cfg.MAX_FILE_SIZE) (hr : reads_ok st) (hw : writes_ok st)
    (hal : (alloc_loop (ceil_blocks cfg (inode.file_size + count) -
      ceil_blocks cfg inode.file_size) st []).1 = some new) :
    write_data_blocks cfg st inode buf count =
      (0,
        { inode with
          file_size := inode.file_size + count
          data_blocks := store_block_nums inode.data_blocks
            (ceil_blocks cfg inode.file_size) new },
        { (alloc_loop (ceil_blocks cfg (inode.file_size + count) -
            ceil_blocks cfg inode.file_size) st []).2 with
          blocks := put_blocks
            (if inode.file_size < ceil_blocks cfg inode.file_size * cfg.BLOCK_SIZE then
              upd st.blocks (inode.data_blocks (ceil_blocks cfg inode.file_size - 1))
                { st.blocks (inode.data_blocks (ceil_blocks cfg inode.file_size - 1)) with
                  bytes := memcpy_bytes
                    (st.blocks (inode.data_blocks (ceil_blocks cfg inode.file_size - 1))).bytes
                    (cfg.BLOCK_SIZE -
                      (ceil_blocks cfg inode.file_size * cfg.BLOCK_SIZE - inode.file_size))
                    buf 0
                    (min (ceil_blocks cfg inode.file_size * cfg.BLOCK_SIZE - inode.file_size)
                      count) }
            else st.blocks)
            new
            (fill_new_blocks cfg buf
              (ceil_blocks cfg (inode.file_size + count) - ceil_blocks cfg inode.file_size)
              (if inode.file_size < ceil_blocks cfg inode.file_size * cfg.BLOCK_SIZE then
                min (ceil_blocks cfg inode.file_size * cfg.BLOCK_SIZE - inode.file_size) count
              else 0)
              (if inode.file_size < ceil_blocks cfg inode.file_size * cfg.BLOCK_SIZE then
                count -
                  min (ceil_blocks cfg inode.file_size * cfg.BLOCK_SIZE - inode.file_size) count
              else count)) }) := by
  obtain ⟨hb, _, hmax⟩ := hcfg
  have hcfg : cfg.wf := ⟨hb, by assumption, hmax⟩
  have hA := ceil_div_wf cfg inode.file_size hcfg (by omega)
  have hsum : u32 (inode.file_size + count) = inode.file_size + count := u32_small _ (by omega)
  have hN := ceil_div_wf cfg (inode.file_size + count) hcfg hs
  obtain ⟨hA1, hA2⟩ := ceil_blocks_bounds cfg inode.file_size hb
  have hvol : u32 (ceil_blocks cfg inode.file_size * cfg.BLOCK_SIZE) =
      ceil_blocks cfg inode.file_size * cfg.BLOCK_SIZE := u32_small _ (by omega)
  obtain ⟨henv, hblk⟩ := alloc_loop_env (ceil_blocks cfg (inode.file_size + count) -
      ceil_blocks cfg inode.file_size) st []
  have hpair : alloc_loop (ceil_blocks cfg (inode.file_size + count) -
      ceil_blocks cfg inode.file_size) st [] = (some new,
        (alloc_loop (ceil_blocks cfg (inode.file_size + count) -
          ceil_blocks cfg inode.file_size) st []).2) := by
    rw [← hal]
  have hr1 := reads_ok_env _ _ henv hr
  have hw1 := writes_ok_env _ _ henv hw
  generalize (alloc_loop (ceil_blocks cfg (inode.file_size + count) -
      ceil_blocks cfg inode.file_size) st []).2 = st1 at henv hblk hpair hr1 hw1 ⊢
  unfold write_data_blocks
  simp only [hA, hsum, hN, hvol, hpair]
  by_cases hroom : inode.file_size < ceil_blocks cfg inode.file_size * cfg.BLOCK_SIZE
  · simp only [hroom, decide_True, if_true, read_block_ok st1 _ (hr1 _), hblk]
    by_cases hgt : ceil_blocks cfg inode.file_size * cfg.BLOCK_SIZE - inode.file_size > count
    · have hmin : min (ceil_blocks cfg inode.file_size * cfg.BLOCK_SIZE - inode.file_size)
          count = count := by omega
      simp only [hgt, if_true, hmin, Nat.sub_self, write_block_ok st1 _ _ (hw1 _),
        show ¬ ((0 : Int) = -1) by omega, if_false]
      rw [write_new_blocks_ok]
      · simp only [hblk]
      · exact fun x => hw1 x
    · have hmin : min (ceil_blocks cfg inode.file_size * cfg.BLOCK_SIZE - inode.file_size)
          count = ceil_blocks cfg inode.file_size * cfg.BLOCK_SIZE - inode.file_size := by
        omega
      simp only [hgt, if_false, hmin, write_block_ok st1 _ _ (hw1 _),
        show ¬ ((0 : Int) = -1) by omega]
      rw [write_new_blocks_ok]
      · simp only [hblk]
      · exact fun x => hw1 x
  · simp only [hroom, decide_False, if_false, Bool.false_eq_true,
      show ¬ ((0 : Int) = -1) by omega]
    rw [write_new_blocks_ok]
    · simp only [hblk]
    · exact fun x => hw1 x

/-! ## `jfs_write`: disk full and the size limit -/

theorem write_new_blocks_status (all : List Nat) : ∀ (bs : List Nat) (blks : List Block)
    (st : State), (write_new_blocks all bs blks st).1 = 0 ∨
      (write_new_blocks all bs blks st).1 = -1 := by
  intro bs
  induction bs with
  | nil => intro blks st; left; simp [write_new_blocks]
  | cons b rest ih =>
    intro blks st
    cases blks with
    | nil => left; simp [write_new_blocks]
    | cons blk blks =>
      simp only [write_new_blocks]
      split
      · right; rfl
      · exact ih _ _

/-- The three ways `write_data_blocks` returns: `-2` exactly when the allocation
loop gave up (and then with the caller's inode untouched), else `0` or `-1`. -/
theorem write_data_blocks_cases (cfg : Config) (st : State) (inode : Block) (buf : List Nat)
    (count : Nat) :
    ((alloc_loop (ceil_div cfg (u32 (inode.file_size + count)) -
        ceil_div cfg inode.file_size) st []).1 = none ∧
      write_data_blocks cfg st inode buf count =
        (-2, inode, (alloc_loop (ceil_div cfg (u32 (inode.file_size + count)) -
          ceil_div cfg inode.file_size) st []).2)) ∨
    ((alloc_loop (ceil_div cfg (u32 (inode.file_size + count)) -
        ceil_div cfg inode.file_size) st []).1 ≠ none ∧
      ((write_data_blocks cfg st inode buf count).1 = 0 ∨
        (write_data_blocks cfg st inode buf count).1 = -1)) := by
  unfold write_data_blocks
  simp only
  generalize alloc_loop (ceil_div cfg (u32 (inode.file_size + count)) -
        ceil_div cfg inode.file_size) st [] = al
  obtain ⟨l, st1⟩ := al
  cases l with
  | none => left; simp
  | some new =>
    right
    refine ⟨by simp, ?_⟩
    simp only
    (repeat' split) <;>
      first
      | (right; rfl)
      | exact write_new_blocks_status _ _ _ _

theorem jfs_write_resolved (cfg : Config) (st : State) (name : List Nat) (i : Nat)
    (buf : List Nat) (count : Nat)
    (hc : st.rfail st.current_dir = false)
    (ht : st.rfail ((st.blocks st.current_dir).entries i).block_num = false)
    (hi : resolves (cur_dir st) name i)
    (hd : (st.blocks ((cur_dir st).entries i).block_num).is_dir ≠ 0) :
    jfs_write cfg st name buf count =
      if u32 ((st.blocks ((cur_dir st).entries i).block_num).file_size + count) >
          cfg.MAX_FILE_SIZE then (Status.E_MAX_FILE_SIZE, st)
      else if (write_data_blocks cfg st (st.blocks ((cur_dir st).entries i).block_num)
          buf count).1 ≠ 0 then
        if (write_data_blocks cfg st (st.blocks ((cur_dir st).entries i).block_num)
            buf count).1 = -2 then
          (Status.E_DISK_FULL, (write_data_blocks cfg st
            (st.blocks ((cur_dir st).entries i).block_num) buf count).2.2)
        else (Status.E_UNKNOWN, (write_data_blocks cfg st
            (st.blocks ((cur_dir st).entries i).block_num) buf count).2.2)
      else if (write_block (write_data_blocks cfg st
            (st.blocks ((cur_dir st).entries i).block_num) buf count).2.2
          ((cur_dir st).entries i).block_num
          (write_data_blocks cfg st (st.blocks ((cur_dir st).entries i).block_num)
            buf count).2.1).1 = -1 then
        (Status.E_UNKNOWN, (write_block (write_data_blocks cfg st
            (st.blocks ((cur_dir st).entries i).block_num) buf count).2.2
          ((cur_dir st).entries i).block_num
          (write_data_blocks cfg st (st.blocks ((cur_dir st).entries i).block_num)
            buf count).2.1).2)
      else (Status.E_SUCCESS, (write_block (write_data_blocks cfg st
            (st.blocks ((cur_dir st).entries i).block_num) buf count).2.2
          ((cur_dir st).entries i).block_num
          (write_data_blocks cfg st (st.blocks ((cur_dir st).entries i).block_num)
            buf count).2.1).2) := by
  have he := if_exist_resolves st name i hc hi
  have hz := is_dir_eq_zero_iff st _ ht
  unfold cur_dir at hd ⊢
  simp only [jfs_write, read_block_ok st _ hc, he, int_natCast_ne_neg_one,
    Int.toNat_ofNat, read_block_ok st _ ht, hz, ne_eq, if_false, not_not, hd]

/-- An `E_DISK_FULL` from `jfs_write` comes from an allocation loop that gave up, and
the state after the call is the state in which that loop ended. -/
theorem jfs_write_disk_full (cfg : Config) (st : State) (name buf : List Nat) (count : Nat)
    (h : (jfs_write cfg st name buf count).1 = Status.E_DISK_FULL) :
    ∃ n, (alloc_loop n st []).1 = none ∧
      (jfs_write cfg st name buf count).2 = (alloc_loop n st []).2 := by
  unfold jfs_write at h ⊢
  cases hrd : read_block st st.current_dir with
  | none => simp [hrd] at h
  | some cur =>
    simp only [hrd] at h ⊢
    by_cases he : if_exist st name = -1
    · simp [he] at h
    · simp only [he, if_false] at h ⊢
      by_cases hdir : is_dir st (cur.entries (if_exist st name).toNat).block_num ≠ 0
      · simp [hdir] at h
      · simp only [hdir, if_false] at h ⊢
        cases hrt : read_block st (cur.entries (if_exist st name).toNat).block_num with
        | none => simp [hrt] at h
        | some tb =>
          simp only [hrt] at h ⊢
          by_cases hsz : u32 (tb.file_size + count) > cfg.MAX_FILE_SIZE
          · simp [hsz] at h
          · simp only [hsz, if_false] at h ⊢
            rcases write_data_blocks_cases cfg st tb buf count with ⟨h1, h2⟩ | ⟨_, h2 | h2⟩
            · refine ⟨_, h1, ?_⟩
              simp [h2]
            · simp [h2] at h
              split at h <;> simp at h
            · simp [h2] at h

/-- Claim C2: when the allocator hands out only free blocks and releases succeed,
a `jfs_write` that returns `E_DISK_FULL` leaves the whole state as it was before the
call: every block allocated in the call is released again, so the allocation status
is the old one, and no disk block (inode or data) was written.  And whenever the
name resolves to a file, the size check passes and the allocation loop meets a `0`
from `allocate_block` before it has all the blocks, `jfs_write` does return
`E_DISK_FULL`. -/
theorem disk_full_rolls_back (cfg : Config) (st : State) (name buf : List Nat) (count : Nat)
    (hfresh : fresh_alloc st) (hrel : releases_ok st) :
    ((jfs_write cfg st name buf count).1 = Status.E_DISK_FULL →
      (jfs_write cfg st name buf count).2 = st) ∧
    (∀ i, reads_ok st → resolves (cur_dir st) name i →
      (st.blocks ((cur_dir st).entries i).block_num).is_dir ≠ 0 →
      u32 ((st.blocks ((cur_dir st).entries i).block_num).file_size + count) ≤
        cfg.MAX_FILE_SIZE →
      (alloc_loop
        (ceil_div cfg (u32 ((st.blocks ((cur_dir st).entries i).block_num).file_size + count)) -
          ceil_div cfg (st.blocks ((cur_dir st).entries i).block_num).file_size) st []).1
        = none →
      (jfs_write cfg st name buf count).1 = Status.E_DISK_FULL) := by
  constructor
  · intro h
    obtain ⟨n, h1, h2⟩ := jfs_write_disk_full cfg st name buf count h
    rw [h2]
    obtain ⟨e1, e2⟩ := alloc_loop_env n st []
    have hu := alloc_loop_none st.used n st [] hfresh hrel (by rw [mark_nil])
      (by intro b hb; simp at hb) h1
    exact state_ext st _ e1 e2 hu
  · intro i hr hi hd hsz hal
    rw [jfs_write_resolved cfg st name i buf count (hr _) (hr _) hi hd]
    rcases write_data_blocks_cases cfg st (st.blocks ((cur_dir st).entries i).block_num)
      buf count with ⟨_, h2⟩ | ⟨h1, _⟩
    · simp [Nat.not_lt.mpr hsz, h2]
    · exact absurd hal h1


/-- Claim C3: for an existing file of size `s ≤ MAX_FILE_SIZE` and a count `c`
(an `unsigned short`), with reads succeeding: if `s + c > MAX_FILE_SIZE` then
`jfs_write` returns `E_MAX_FILE_SIZE`; if `s + c = MAX_FILE_SIZE`, writes succeed and
the disk does not run full, `jfs_write` succeeds and the file's size on disk is exactly
`MAX_FILE_SIZE`; and in general, with storage succeeding and the disk not running full,
the write succeeds iff `s + c ≤ MAX_FILE_SIZE`. -/
theorem write_size_boundary (cfg : Config) (st : State) (name buf : List Nat) (count i : Nat)
    (hcfg : cfg.wf) (hr : reads_ok st) (hi : resolves (cur_dir st) name i)
    (hfile : (st.blocks ((cur_dir st).entries i).block_num).is_dir ≠ 0)
    (hs : (st.blocks ((cur_dir st).entries i).block_num).file_size ≤ cfg.MAX_FILE_SIZE)
    (hcount : count < 65536) :
    ((st.blocks ((cur_dir st).entries i).block_num).file_size + count > cfg.MAX_FILE_SIZE →
      (jfs_write cfg st name buf count).1 = Status.E_MAX_FILE_SIZE) ∧
    (writes_ok st → (jfs_write cfg st name buf count).1 ≠ Status.E_DISK_FULL →
      (st.blocks ((cur_dir st).entries i).block_num).file_size + count = cfg.MAX_FILE_SIZE →
      (jfs_write cfg st name buf count).1 = Status.E_SUCCESS ∧
      ((jfs_write cfg st name buf count).2.blocks ((cur_dir st).entries i).block_num).file_size
        = cfg.MAX_FILE_SIZE) ∧
    (writes_ok st → (jfs_write cfg st name buf count).1 ≠ Status.E_DISK_FULL →
      ((jfs_write cfg st name buf count).1 = Status.E_SUCCESS ↔
        (st.blocks ((cur_dir st).entries i).block_num).file_size + count ≤
          cfg.MAX_FILE_SIZE)) := by
  have hsum : u32 ((st.blocks ((cur_dir st).entries i).block_num).file_size + count) =
      (st.blocks ((cur_dir st).entries i).block_num).file_size + count :=
    u32_small _ (by have := hcfg.2.2; omega)
  have hres := jfs_write_resolved cfg st name i buf count (hr _) (hr _) hi hfile
  have big : (st.blocks ((cur_dir st).entries i).block_num).file_size + count >
      cfg.MAX_FILE_SIZE → (jfs_write cfg st name buf count).1 = Status.E_MAX_FILE_SIZE := by
    intro h
    rw [hres, hsum]
    simp [h]
  have small : writes_ok st → (jfs_write cfg st name buf count).1 ≠ Status.E_DISK_FULL →
      (st.blocks ((cur_dir st).entries i).block_num).file_size + count ≤ cfg.MAX_FILE_SIZE →
      (jfs_write cfg st name buf count).1 = Status.E_SUCCESS ∧
      ((jfs_write cfg st name buf count).2.blocks
        ((cur_dir st).entries i).block_num).file_size =
        (st.blocks ((cur_dir st).entries i).block_num).file_size + count := by
    intro hw hfull hle
    rw [hres, hsum] at hfull ⊢
    simp only [gt_iff_lt, Nat.not_lt.mpr hle, if_false] at hfull ⊢
    have hA := ceil_div_wf cfg _ hcfg hs
    have hN := ceil_div_wf cfg _ hcfg hle
    rcases write_data_blocks_cases cfg st (st.blocks ((cur_dir st).entries i).block_num)
      buf count with ⟨_, h2⟩ | ⟨h1, _⟩
    · simp [h2] at hfull
    · rw [hsum, hA, hN] at h1
      obtain ⟨new, hnew⟩ := Option.ne_none_iff_exists'.mp h1
      have hok := write_data_blocks_ok cfg st _ buf count new hcfg hle hr hw hnew
      obtain ⟨henv, _⟩ := alloc_loop_env
        (ceil_blocks cfg ((st.blocks ((cur_dir st).entries i).block_num).file_size + count) -
          ceil_blocks cfg (st.blocks ((cur_dir st).entries i).block_num).file_size) st []
      have hw1 := writes_ok_env _ _ henv hw
      rw [hok]
      simp only [ne_eq, not_true_eq_false, if_false]
      rw [write_block_ok]
      · simp [upd]
      · exact hw1 _
  refine ⟨big, ?_, ?_⟩
  · intro hw hfull heq
    have := small hw hfull (le_of_eq heq)
    rw [heq] at this
    exact this
  · intro hw hfull
    constructor
    · intro hsucc
      by_contra hgt
      rw [big (by omega)] at hsucc
      exact Status.noConfusion hsucc
    · intro hle
      exact (small hw hfull hle).1

/-! ## `jfs_read`: the copy loop -/

theorem div_mod_range (B p q : Nat) (h1 : q * B ≤ p) (h2 : p < q * B + B) :
    p / B = q ∧ p % B = p - q * B := by
  have hB : 0 < B := by omega
  have hq : p / B = q := by
    apply Nat.div_eq_of_lt_le h1
    rw [Nat.succ_mul]; exact h2
  have := Nat.div_add_mod p B
  rw [hq, Nat.mul_comm] at this
  exact ⟨hq, by omega⟩

theorem memcpy_buf_length (dst : List Nat) (off : Nat) (src : Nat → Nat) (n : Nat) :
    (memcpy_buf dst off src n).length = dst.length := by
  simp [memcpy_buf]

theorem memcpy_buf_getD (dst : List Nat) (off : Nat) (src : Nat → Nat) (n p : Nat)
    (hp : p < dst.length) :
    (memcpy_buf dst off src n).getD p 0 =
      if off ≤ p ∧ p < off + n then src (p - off) else dst.getD p 0 := by
  unfold memcpy_buf
  rw [List.getD_eq_getElem _ _ (by simpa using hp)]
  simp

theorem list_ext_getD (l1 l2 : List Nat) (hlen : l1.length = l2.length)
    (h : ∀ p, p < l1.length → l1.getD p 0 = l2.getD p 0) : l1 = l2 := by
  apply List.ext_getElem hlen
  intro p h1 h2
  have := h p h1
  rwa [List.getD_eq_getElem _ _ h1, List.getD_eq_getElem _ _ h2] at this

theorem read_loop_zero (cfg : Config) (st : State) (tb : Block) (fuel idx bi : Nat)
    (buf : List Nat) : read_loop cfg st tb fuel idx 0 bi buf = (Status.E_SUCCESS, buf) := by
  cases fuel <;> simp [read_loop]

/-- The copy loop of `jfs_read` when no read fails: it copies the first `left`
bytes that follow position `idx * BLOCK_SIZE` of the file. -/
theorem read_loop_ok (cfg : Config) (st : State) (tb : Block) (hr : reads_ok st)
    (hb : 0 < cfg.BLOCK_SIZE) : ∀ (fuel idx left : Nat) (buf : List Nat),
    left ≤ fuel * cfg.BLOCK_SIZE →
    (read_loop cfg st tb fuel idx left (idx * cfg.BLOCK_SIZE) buf).1 = Status.E_SUCCESS ∧
    (read_loop cfg st tb fuel idx left (idx * cfg.BLOCK_SIZE) buf).2.length = buf.length ∧
    ∀ p, p < buf.length →
      (read_loop cfg st tb fuel idx left (idx * cfg.BLOCK_SIZE) buf).2.getD p 0 =
        if idx * cfg.BLOCK_SIZE ≤ p ∧ p < idx * cfg.BLOCK_SIZE + left then
          file_byte cfg st tb p
        else buf.getD p 0 := by
  intro fuel
  induction fuel with
  | zero =>
    intro idx left buf hle
    have : left = 0 := by omega
    subst this
    refine ⟨rfl, rfl, ?_⟩
    intro p _
    have : ¬ (idx * cfg.BLOCK_SIZE ≤ p ∧ p < idx * cfg.BLOCK_SIZE + 0) := by omega
    simp only [this, if_false]
    rfl
  | succ n ih =>
    intro idx left buf hle
    rw [Nat.succ_mul] at hle
    simp only [read_loop]
    by_cases hpos : left > 0
    · simp only [hpos, if_true, read_block_ok st _ (hr _)]
      by_cases hge : left ≥ cfg.BLOCK_SIZE
      · simp only [hge, if_true]
        have hmul : idx * cfg.BLOCK_SIZE + cfg.BLOCK_SIZE = (idx + 1) * cfg.BLOCK_SIZE := by
          rw [Nat.add_mul, Nat.one_mul]
        rw [hmul]
        obtain ⟨r1, r2, r3⟩ := ih (idx + 1) (left - cfg.BLOCK_SIZE)
          (memcpy_buf buf (idx * cfg.BLOCK_SIZE)
            (st.blocks (tb.data_blocks idx)).bytes cfg.BLOCK_SIZE) (by omega)
        rw [memcpy_buf_length] at r2 r3
        refine ⟨r1, r2, ?_⟩
        intro p hp
        rw [r3 p hp, memcpy_buf_getD _ _ _ _ _ hp, ← hmul]
        by_cases hA : idx * cfg.BLOCK_SIZE + cfg.BLOCK_SIZE ≤ p ∧
            p < idx * cfg.BLOCK_SIZE + cfg.BLOCK_SIZE + (left - cfg.BLOCK_SIZE)
        · have : idx * cfg.BLOCK_SIZE ≤ p ∧ p < idx * cfg.BLOCK_SIZE + left := by omega
          simp only [hA, this, and_self, if_true]
        · simp only [hA, if_false]
          by_cases hB : idx * cfg.BLOCK_SIZE ≤ p ∧ p < idx * cfg.BLOCK_SIZE + cfg.BLOCK_SIZE
          · have : idx * cfg.BLOCK_SIZE ≤ p ∧ p < idx * cfg.BLOCK_SIZE + left := by omega
            simp only [hB, this, and_self, if_true]
            obtain ⟨d1, d2⟩ := div_mod_range cfg.BLOCK_SIZE p idx hB.1 hB.2
            simp only [file_byte, d1, d2]
          · have : ¬ (idx * cfg.BLOCK_SIZE ≤ p ∧ p < idx * cfg.BLOCK_SIZE + left) := by omega
            simp only [hB, this, if_false]
      · simp only [hge, if_false, read_loop_zero, Nat.add_zero, memcpy_buf_length, true_and]
        intro p hp
        rw [memcpy_buf_getD _ _ _ _ _ hp]
        by_cases hB : idx * cfg.BLOCK_SIZE ≤ p ∧ p < idx * cfg.BLOCK_SIZE + left
        · simp only [hB, and_self, if_true]
          obtain ⟨d1, d2⟩ := div_mod_range cfg.BLOCK_SIZE p idx hB.1 (by omega)
          simp only [file_byte, d1, d2]
        · simp only [hB, if_false]
    · have : left = 0 := by omega
      subst this
      simp only [hpos, if_false, true_and]
      intro p _
      have : ¬ (idx * cfg.BLOCK_SIZE ≤ p ∧ p < idx * cfg.BLOCK_SIZE + 0) := by omega
      simp only [this, if_false]

theorem jfs_read_resolved (cfg : Config) (st : State) (name : List Nat) (i : Nat)
    (buf : List Nat) (count : Nat)
    (hc : st.rfail st.current_dir = false)
    (ht : st.rfail ((st.blocks st.current_dir).entries i).block_num = false)
    (hi : resolves (cur_dir st) name i)
    (hd : (st.blocks ((cur_dir st).entries i).block_num).is_dir ≠ 0) :
    jfs_read cfg st name buf count =
      ((read_loop cfg st (st.blocks ((cur_dir st).entries i).block_num)
          (ceil_div cfg (st.blocks ((cur_dir st).entries i).block_num).file_size) 0
          (if count > (st.blocks ((cur_dir st).entries i).block_num).file_size then
            (st.blocks ((cur_dir st).entries i).block_num).file_size else count) 0 buf).1,
        (read_loop cfg st (st.blocks ((cur_dir st).entries i).block_num)
          (ceil_div cfg (st.blocks ((cur_dir st).entries i).block_num).file_size) 0
          (if count > (st.blocks ((cur_dir st).entries i).block_num).file_size then
            (st.blocks ((cur_dir st).entries i).block_num).file_size else count) 0 buf).2,
        if count > (st.blocks ((cur_dir st).entries i).block_num).file_size then
            (st.blocks ((cur_dir st).entries i).block_num).file_size else count) := by
  have he := if_exist_resolves st name i hc hi
  have hz := is_dir_eq_zero_iff st _ ht
  unfold cur_dir at hd ⊢
  simp only [jfs_read, read_block_ok st _ hc, he, int_natCast_ne_neg_one,
    Int.toNat_ofNat, read_block_ok st _ ht, hz, ne_eq, if_false, not_not, hd]

/-- Reading back a well-formed file with a large enough buffer returns its bytes. -/
theorem jfs_read_holds (cfg : Config) (st : State) (name content buf : List Nat) (count : Nat)
    (hcfg : cfg.wf) (hr : reads_ok st) (hsize : content.length ≤ cfg.MAX_FILE_SIZE)
    (hf : holds_file cfg st name content) (hcount : content.length ≤ count)
    (hbuf : count ≤ buf.length) :
    jfs_read cfg st name buf count =
      (Status.E_SUCCESS, content ++ buf.drop content.length, content.length) := by
  obtain ⟨i, hi, _, _, _, hd, hfs, _, _, hbytes⟩ := hf
  have hb := hcfg.1
  rw [jfs_read_resolved cfg st name i buf count (hr _) (hr _) hi hd]
  generalize st.blocks ((cur_dir st).entries i).block_num = tb at hd hfs hbytes ⊢
  have hcnt : (if count > tb.file_size then tb.file_size else count) = content.length := by
    rw [hfs]; split <;> omega
  rw [hcnt, hfs, ceil_div_wf cfg _ hcfg hsize]
  obtain ⟨r1, r2, r3⟩ := read_loop_ok cfg st tb hr hb (ceil_blocks cfg content.length) 0
    content.length buf (ceil_blocks_bounds cfg _ hb).1
  simp only [Nat.zero_mul, Nat.zero_add, Nat.zero_le, true_and] at r1 r2 r3
  have hlist : (read_loop cfg st tb (ceil_blocks cfg content.length) 0 content.length 0 buf).2
      = content ++ buf.drop content.length := by
    apply list_ext_getD
    · rw [r2]; simp; omega
    · intro p hp
      rw [r2] at hp
      rw [r3 p hp]
      by_cases hlt : p < content.length
      · simp only [hlt, if_true]
        rw [List.getD_append _ _ _ _ hlt]
        have h1 := Nat.div_add_mod p cfg.BLOCK_SIZE
        have h2 := Nat.mod_lt p hb
        rw [Nat.mul_comm] at h1
        have := hbytes (p / cfg.BLOCK_SIZE) (p % cfg.BLOCK_SIZE) h2 (by omega)
        rw [h1] at this
        exact this
      · simp only [hlt, if_false]
        rw [List.getD_append_right _ _ _ _ (by omega)]
        rw [List.getD_eq_getElem?_getD, List.getD_eq_getElem?_getD, List.getElem?_drop]
        congr 2
        omega
  rw [r1, hlist]

/-! ## The round trip: `jfs_creat`, `jfs_write`, `jfs_read` -/

/-- The state after a successful `jfs_write`, in closed form. -/
theorem jfs_write_success_state (cfg : Config) (st : State) (name buf : List Nat)
    (count i : Nat) (hcfg : cfg.wf) (hr : reads_ok st) (hw : writes_ok st)
    (hi : resolves (cur_dir st) name i)
    (hd : (st.blocks ((cur_dir st).entries i).block_num).is_dir ≠ 0)
    (hle : (st.blocks ((cur_dir st).entries i).block_num).file_size + count ≤
      cfg.MAX_FILE_SIZE)
    (hsucc : (jfs_write cfg st name buf count).1 = Status.E_SUCCESS) :
    ∃ new,
      (alloc_loop
        (ceil_blocks cfg ((st.blocks ((cur_dir st).entries i).block_num).file_size + count) -
          ceil_blocks cfg (st.blocks ((cur_dir st).entries i).block_num).file_size)
        st []).1 = some new ∧
      (jfs_write cfg st name buf count).2 =
        { (alloc_loop
            (ceil_blocks cfg
                ((st.blocks ((cur_dir st).entries i).block_num).file_size + count) -
              ceil_blocks cfg (st.blocks ((cur_dir st).entries i).block_num).file_size)
            st []).2 with
          blocks := append_disk cfg st.blocks (st.blocks ((cur_dir st).entries i).block_num)
            ((cur_dir st).entries i).block_num buf count new } := by
  have hsum : u32 ((st.blocks ((cur_dir st).entries i).block_num).file_size + count) =
      (st.blocks ((cur_dir st).entries i).block_num).file_size + count :=
    u32_small _ (by have := hcfg.2.2; omega)
  have hres := jfs_write_resolved cfg st name i buf count (hr _) (hr _) hi hd
  rw [hres, hsum] at hsucc
  rw [hres, hsum]
  simp only [gt_iff_lt, Nat.not_lt.mpr hle, if_false] at hsucc ⊢
  have hA := ceil_div_wf cfg (st.blocks ((cur_dir st).entries i).block_num).file_size hcfg
    (by omega)
  have hN := ceil_div_wf cfg _ hcfg hle
  rcases write_data_blocks_cases cfg st (st.blocks ((cur_dir st).entries i).block_num)
      buf count with ⟨_, h2⟩ | ⟨h1, _⟩
  · simp [h2] at hsucc
  · rw [hsum, hA, hN] at h1
    obtain ⟨new, hnew⟩ := Option.ne_none_iff_exists'.mp h1
    refine ⟨new, hnew, ?_⟩
    have hok := write_data_blocks_ok cfg st _ buf count new hcfg hle hr hw hnew
    obtain ⟨henv, _⟩ := alloc_loop_env
        (ceil_blocks cfg ((st.blocks ((cur_dir st).entries i).block_num).file_size + count) -
          ceil_blocks cfg (st.blocks ((cur_dir st).entries i).block_num).file_size) st []
    have hw1 := writes_ok_env _ _ henv hw
    rw [hok]
    simp only [ne_eq, not_true_eq_false, if_false]
    rw [write_block_ok]
    · simp only [show ¬ ((0 : Int) = -1) by omega, if_false]
      rfl
    · exact hw1 _

theorem getD_mem_of_lt (l : List Nat) (k : Nat) (h : k < l.length) : l.getD k 0 ∈ l := by
  rw [List.getD_eq_getElem _ _ h]
  exact List.getElem_mem h

theorem nodup_getD_inj (l : List Nat) (hnd : l.Nodup) (a b : Nat) (ha : a < l.length)
    (hb : b < l.length) (h : l.getD a 0 = l.getD b 0) : a = b := by
  rw [List.getD_eq_getElem _ _ ha, List.getD_eq_getElem _ _ hb] at h
  exact (List.Nodup.getElem_inj_iff hnd).mp h

/-- Blocks that the append does not touch. -/
theorem append_disk_other (cfg : Config) (blocks : Nat → Block) (inode : Block) (t : Nat)
    (buf : List Nat) (count : Nat) (new : List Nat) (b : Nat) (h1 : b ≠ t) (h2 : b ∉ new)
    (h3 : ¬ inode.file_size < ceil_blocks cfg inode.file_size * cfg.BLOCK_SIZE ∨
      b ≠ inode.data_blocks (ceil_blocks cfg inode.file_size - 1)) :
    append_disk cfg blocks inode t buf count new b = blocks b := by
  unfold append_disk
  rw [upd_other _ _ _ _ h1, put_blocks_notin _ _ _ _ h2]
  rcases h3 with h3 | h3
  · simp only [h3, if_false]
  · split
    · exact upd_other _ _ _ _ h3
    · rfl

theorem append_disk_inode (cfg : Config) (blocks : Nat → Block) (inode : Block) (t : Nat)
    (buf : List Nat) (count : Nat) (new : List Nat) :
    append_disk cfg blocks inode t buf count new t = append_inode cfg inode count new := by
  unfold append_disk
  exact upd_same _ _ _


/-- The bytes of the file after an append: the old content followed by the payload. -/
theorem append_disk_bytes (cfg : Config) (blocks : Nat → Block) (inode : Block) (t : Nat)
    (buf : List Nat) (count : Nat) (new content : List Nat) (hb : 0 < cfg.BLOCK_SIZE)
    (hfs : inode.file_size = content.length)
    (hlen : new.length =
      ceil_blocks cfg (content.length + count) - ceil_blocks cfg content.length)
    (hnd : new.Nodup) (hnt : t ∉ new)
    (hdbn : ∀ q, q < ceil_blocks cfg content.length → inode.data_blocks q ∉ new)
    (hdbt : ∀ q, q < ceil_blocks cfg content.length → inode.data_blocks q ≠ t)
    (hinj : ∀ q, q < ceil_blocks cfg content.length → ∀ q', q' < ceil_blocks cfg content.length →
      inode.data_blocks q = inode.data_blocks q' → q = q')
    (hbytes : ∀ q r, r < cfg.BLOCK_SIZE → q * cfg.BLOCK_SIZE + r < content.length →
      (blocks (inode.data_blocks q)).bytes r = content.getD (q * cfg.BLOCK_SIZE + r) 0) :
    ∀ q r, r < cfg.BLOCK_SIZE → q * cfg.BLOCK_SIZE + r < content.length + count →
      (append_disk cfg blocks inode t buf count new
        ((append_inode cfg inode count new).data_blocks q)).bytes r =
        (content ++ buf).getD (q * cfg.BLOCK_SIZE + r) 0 := by
  intro q r hr hlt
  obtain ⟨hA1, hA2⟩ := ceil_blocks_bounds cfg content.length hb
  have hmono := ceil_blocks_mono cfg content.length (content.length + count) (by omega)
  simp only [append_inode, store_block_nums_eq, hfs]
  unfold append_disk
  simp only [hfs, append_inode]
  generalize hAdef : ceil_blocks cfg content.length = A at *
  generalize hNdef : ceil_blocks cfg (content.length + count) = N at *
  by_cases hq : q < A
  · have hcond : ¬ (A ≤ q ∧ q < A + new.length) := by omega
    simp only [hcond, if_false]
    rw [upd_other _ _ _ _ (hdbt q hq), put_blocks_notin _ _ _ _ (hdbn q hq)]
    have hqB : q * cfg.BLOCK_SIZE + cfg.BLOCK_SIZE ≤ A * cfg.BLOCK_SIZE := by
      have := Nat.mul_le_mul_right cfg.BLOCK_SIZE (show q + 1 ≤ A by omega)
      rwa [Nat.add_mul, Nat.one_mul] at this
    by_cases hroom : content.length < A * cfg.BLOCK_SIZE
    · simp only [hroom, if_true]
      by_cases hlast : inode.data_blocks q = inode.data_blocks (A - 1)
      · have hqA : q = A - 1 := hinj q hq (A - 1) (by omega) hlast
        have hAq : A * cfg.BLOCK_SIZE = q * cfg.BLOCK_SIZE + cfg.BLOCK_SIZE := by
          have h1 : A = q + 1 := by omega
          rw [h1, Nat.add_mul, Nat.one_mul]
        rw [hlast, upd_same]
        simp only [memcpy_bytes]
        by_cases hold : q * cfg.BLOCK_SIZE + r < content.length
        · rw [if_neg (by omega), ← hlast, hbytes q r hr hold,
            List.getD_append _ _ _ _ hold]
        · rw [if_pos (by omega), List.getD_append_right _ _ _ _ (by omega)]
          congr 1
          omega
      · rw [upd_other _ _ _ _ hlast]
        have hq2 : q * cfg.BLOCK_SIZE + cfg.BLOCK_SIZE + cfg.BLOCK_SIZE ≤
            A * cfg.BLOCK_SIZE := by
          have hne : q ≠ A - 1 := fun h => hlast (by rw [h])
          have := Nat.mul_le_mul_right cfg.BLOCK_SIZE (show q + 2 ≤ A by omega)
          rw [Nat.add_mul] at this
          omega
        have hold : q * cfg.BLOCK_SIZE + r < content.length := by omega
        rw [hbytes q r hr hold, List.getD_append _ _ _ _ hold]
    · simp only [hroom, if_false]
      have hold : q * cfg.BLOCK_SIZE + r < content.length := by omega
      rw [hbytes q r hr hold, List.getD_append _ _ _ _ hold]
  · have hqN : q < N := by
      rw [← hNdef]
      exact (lt_ceil_blocks_iff cfg _ q hb).mpr (by omega)
    have hcond : A ≤ q ∧ q < A + new.length := by omega
    simp only [hcond, and_self, if_true]
    have hk : q - A < new.length := by omega
    have hmem := getD_mem_of_lt new (q - A) hk
    have hne : new.getD (q - A) 0 ≠ t := fun h => hnt (h ▸ hmem)
    rw [upd_other _ _ _ _ hne,
      put_blocks_get _ _ _ _ hnd hk (by rw [fill_new_blocks_length]; omega)]
    have hAB : A * cfg.BLOCK_SIZE ≤ q * cfg.BLOCK_SIZE :=
      Nat.mul_le_mul_right _ (by omega)
    have hkB : (q - A) * cfg.BLOCK_SIZE = q * cfg.BLOCK_SIZE - A * cfg.BLOCK_SIZE :=
      Nat.sub_mul _ _ _
    by_cases hroom : content.length < A * cfg.BLOCK_SIZE
    · simp only [hroom, if_true]
      rw [fill_new_blocks_bytes cfg buf _ _ _ (q - A) r (by omega) hr (by omega),
        List.getD_append_right _ _ _ _ (by omega)]
      congr 1
      omega
    · simp only [hroom, if_false]
      rw [fill_new_blocks_bytes cfg buf _ _ _ (q - A) r (by omega) hr (by omega),
        List.getD_append_right _ _ _ _ (by omega)]
      congr 1
      omega

theorem mark_true_of_used (u : Nat → Bool) (bs : List Nat) (b : Nat) (h : u b = true) :
    mark u bs true b = true := by
  simp only [mark]; split <;> simp [h]

theorem mark_true_of_mem (u : Nat → Bool) (bs : List Nat) (b : Nat) (h : b ∈ bs) :
    mark u bs true b = true := by
  simp [mark, h]

/-- A successful `jfs_write` appends the chunk to a well-formed file and keeps it
well formed. -/
theorem jfs_write_holds (cfg : Config) (st : State) (name content chunk : List Nat)
    (hcfg : cfg.wf) (hr : reads_ok st) (hw : writes_ok st) (hfresh : fresh_alloc st)
    (hsize : content.length + chunk.length ≤ cfg.MAX_FILE_SIZE)
    (hf : holds_file cfg st name content)
    (hsucc : (jfs_write cfg st name chunk chunk.length).1 = Status.E_SUCCESS) :
    holds_file cfg (jfs_write cfg st name chunk chunk.length).2 name (content ++ chunk) ∧
      same_env st (jfs_write cfg st name chunk chunk.length).2 := by
  obtain ⟨i, hi, hucur, hut, htc, hd, hfs, hdb, hinj, hbytes⟩ := hf
  have hb := hcfg.1
  obtain ⟨new, hal, hst⟩ := jfs_write_success_state cfg st name chunk chunk.length i hcfg hr hw
    hi hd (by rw [hfs]; exact hsize) hsucc
  rw [hfs] at hal hst
  obtain ⟨new', hl, hlen, hused, hfr⟩ := alloc_loop_some _ st [] new hal
  simp only [List.nil_append] at hl
  subst hl
  obtain ⟨hnd, hfree⟩ := hfr hfresh
  obtain ⟨henv, _⟩ := alloc_loop_env
    (ceil_blocks cfg (content.length + chunk.length) - ceil_blocks cfg content.length) st []
  generalize (alloc_loop
    (ceil_blocks cfg (content.length + chunk.length) - ceil_blocks cfg content.length)
    st []).2 = st1 at hst hused henv
  generalize (jfs_write cfg st name chunk chunk.length).2 = st' at hst ⊢
  subst hst
  obtain ⟨hA1, hA2⟩ := ceil_blocks_bounds cfg content.length hb
  have hmono := ceil_blocks_mono cfg content.length (content.length + chunk.length) (by omega)
  have hnotin : ∀ b, st.used b = true → b ∉ new := by
    intro b hu hmem
    have := (hfree b hmem).1
    rw [hu] at this
    exact Bool.noConfusion this
  have hApos : content.length < ceil_blocks cfg content.length * cfg.BLOCK_SIZE →
      ceil_blocks cfg content.length - 1 < ceil_blocks cfg content.length := by
    intro h
    have : ceil_blocks cfg content.length ≠ 0 := by
      intro h0; rw [h0] at h; omega
    omega
  have hcurblk : append_disk cfg st.blocks (st.blocks ((cur_dir st).entries i).block_num)
      ((cur_dir st).entries i).block_num chunk chunk.length new st.current_dir =
      st.blocks st.current_dir := by
    apply append_disk_other _ _ _ _ _ _ _ _ (Ne.symm htc) (hnotin _ hucur)
    by_cases hroom : (st.blocks ((cur_dir st).entries i).block_num).file_size <
        ceil_blocks cfg (st.blocks ((cur_dir st).entries i).block_num).file_size *
          cfg.BLOCK_SIZE
    · right
      rw [hfs] at hroom ⊢
      exact Ne.symm (hdb _ (hApos hroom)).2.2
    · left; exact hroom
  have hcd : cur_dir
      { st1 with blocks := (append_disk cfg st.blocks
          (st.blocks ((cur_dir st).entries i).block_num)
          ((cur_dir st).entries i).block_num chunk chunk.length new) } = cur_dir st := by
    simp only [cur_dir, henv.1]
    exact hcurblk
  refine ⟨⟨i, ?_, ?_, ?_, ?_, ?_, ?_, ?_, ?_, ?_⟩, ?_⟩
  · rw [hcd]; exact hi
  · simp only [henv.1, hused]
    exact mark_true_of_used _ _ _ hucur
  · rw [hcd]; simp only [hused]
    exact mark_true_of_used _ _ _ hut
  · rw [hcd]; simp only [henv.1]; exact htc
  · rw [hcd]; simp only [append_disk_inode, append_inode]; exact hd
  · rw [hcd]; simp only [append_disk_inode, append_inode, hfs, List.length_append]
  · rw [hcd]
    simp only [append_disk_inode, append_inode, hfs, List.length_append, henv.1, hused,
      store_block_nums_eq]
    intro q hq
    by_cases hqA : q < ceil_blocks cfg content.length
    · have hcond : ¬ (ceil_blocks cfg content.length ≤ q ∧
          q < ceil_blocks cfg content.length + new.length) := by omega
      simp only [hcond, if_false]
      obtain ⟨d1, d2, d3⟩ := hdb q hqA
      exact ⟨mark_true_of_used _ _ _ d1, d2, d3⟩
    · have hcond : ceil_blocks cfg content.length ≤ q ∧
          q < ceil_blocks cfg content.length + new.length := by omega
      simp only [hcond, and_self, if_true]
      have hmem := getD_mem_of_lt new (q - ceil_blocks cfg content.length) (by omega)
      refine ⟨mark_true_of_mem _ _ _ hmem, ?_, ?_⟩
      · intro h; exact hnotin _ hut (h ▸ hmem)
      · intro h; exact hnotin _ hucur (h ▸ hmem)
  · rw [hcd]
    simp only [append_disk_inode, append_inode, hfs, List.length_append,
      store_block_nums_eq]
    intro q hq q' hq' heq
    by_cases hqA : q < ceil_blocks cfg content.length
    · have hcond : ¬ (ceil_blocks cfg content.length ≤ q ∧
          q < ceil_blocks cfg content.length + new.length) := by omega
      simp only [hcond, if_false] at heq
      by_cases hqA' : q' < ceil_blocks cfg content.length
      · have hcond' : ¬ (ceil_blocks cfg content.length ≤ q' ∧
            q' < ceil_blocks cfg content.length + new.length) := by omega
        simp only [hcond', if_false] at heq
        exact hinj q hqA q' hqA' heq
      · have hcond' : ceil_blocks cfg content.length ≤ q' ∧
            q' < ceil_blocks cfg content.length + new.length := by omega
        simp only [hcond', and_self, if_true] at heq
        have hmem := getD_mem_of_lt new (q' - ceil_blocks cfg content.length) (by omega)
        exact absurd (heq ▸ hmem) (hnotin _ (hdb q hqA).1)
    · have hcond : ceil_blocks cfg content.length ≤ q ∧
          q < ceil_blocks cfg content.length + new.length := by omega
      simp only [hcond, and_self, if_true] at heq
      have hmem := getD_mem_of_lt new (q - ceil_blocks cfg content.length) (by omega)
      by_cases hqA' : q' < ceil_blocks cfg content.length
      · have hcond' : ¬ (ceil_blocks cfg content.length ≤ q' ∧
            q' < ceil_blocks cfg content.length + new.length) := by omega
        simp only [hcond', if_false] at heq
        exact absurd (heq ▸ hmem) (hnotin _ (hdb q' hqA').1)
      · have hcond' : ceil_blocks cfg content.length ≤ q' ∧
            q' < ceil_blocks cfg content.length + new.length := by omega
        simp only [hcond', and_self, if_true] at heq
        have := nodup_getD_inj new hnd _ _ (by omega) (by omega) heq
        omega
  · rw [hcd]
    simp only [List.length_append]
    intro q r hr' hlt
    have := append_disk_bytes cfg st.blocks (st.blocks ((cur_dir st).entries i).block_num)
      ((cur_dir st).entries i).block_num chunk chunk.length new content hb hfs hlen hnd
      (hnotin _ hut) (fun q hq => hnotin _ (hdb q hq).1) (fun q hq => (hdb q hq).2.1)
      hinj hbytes q r hr' hlt
    simp only [append_disk_inode]
    exact this
  · obtain ⟨e1, e2, e3, e4, e5, e6, e7⟩ := henv
    exact ⟨e1, e2, e3, e4, e5, e6, e7⟩


/-- A successful `jfs_creat` leaves a well-formed empty file behind. -/
theorem jfs_creat_holds (cfg : Config) (st : State) (name : List Nat) (hcfg : cfg.wf)
    (hr : reads_ok st) (hw : writes_ok st) (hfresh : fresh_alloc st)
    (hused : st.used st.current_dir = true)
    (hsucc : (jfs_creat cfg st name).1 = Status.E_SUCCESS) :
    holds_file cfg (jfs_creat cfg st name).2 name [] ∧
      same_env st (jfs_creat cfg st name).2 := by
  rw [jfs_creat_eq] at hsucc ⊢
  rcases create_checked_cases cfg st name 1 hr with ⟨h, _⟩ | ⟨h, _⟩ | ⟨h, _⟩ |
    ⟨h, _, hroom, habs⟩
  · rw [h] at hsucc; exact Status.noConfusion hsucc
  · rw [h] at hsucc; exact Status.noConfusion hsucc
  · rw [h] at hsucc; exact Status.noConfusion hsucc
  · rw [h] at hsucc ⊢
    have hb : st.pick st.used ≠ 0 := by
      intro h0
      rw [create_entry_full st _ name 1 h0] at hsucc
      exact Status.noConfusion hsucc
    have hne := pick_ne_cur st hfresh hused hb
    have hn2 : u16 ((cur_dir st).num_entries + 1) = (cur_dir st).num_entries + 1 :=
      u16_succ _ (by have := hcfg.2.1; omega)
    have hcd := cur_dir_create_entry st (cur_dir st) name 1 hw hb
    rw [hn2] at hcd
    simp only [Nat.add_sub_cancel] at hcd
    refine ⟨?_, create_entry_env st _ name 1⟩
    have hzero := ceil_blocks_zero cfg hcfg.1
    refine ⟨(cur_dir st).num_entries, ?_, ?_, ?_, ?_, ?_, ?_, ?_, ?_, ?_⟩
    · rw [hcd]
      refine ⟨by simp, by simp [upd], ?_⟩
      intro j hj
      simp only
      rw [upd_other _ _ _ _ (by omega)]
      exact habs j hj
    · rw [create_entry_ok st _ name 1 hw hb]
      simp only [upd]
      split <;> simp [hused]
    · rw [hcd]
      rw [create_entry_ok st _ name 1 hw hb]
      simp [upd]
    · rw [hcd]
      rw [create_entry_ok st _ name 1 hw hb]
      simpa [upd] using hne
    · rw [hcd]
      rw [create_entry_ok st _ name 1 hw hb]
      simp [upd, hne, zero_block]
    · rw [hcd]
      rw [create_entry_ok st _ name 1 hw hb]
      simp [upd, hne, zero_block]
    · simp only [List.length_nil, hzero]
      intro q hq; omega
    · simp only [List.length_nil, hzero]
      intro q hq; omega
    · simp only [List.length_nil]
      intro q r _ h0; omega

/-- With reads and writes succeeding, an append within the size limit to a file
fails only when the disk runs full. -/
theorem jfs_write_accepts (cfg : Config) (st : State) (name buf : List Nat) (count i : Nat)
    (hcfg : cfg.wf) (hr : reads_ok st) (hw : writes_ok st)
    (hi : resolves (cur_dir st) name i)
    (hd : (st.blocks ((cur_dir st).entries i).block_num).is_dir ≠ 0)
    (hle : (st.blocks ((cur_dir st).entries i).block_num).file_size + count ≤
      cfg.MAX_FILE_SIZE)
    (hfull : (jfs_write cfg st name buf count).1 ≠ Status.E_DISK_FULL) :
    (jfs_write cfg st name buf count).1 = Status.E_SUCCESS := by
  have hsum : u32 ((st.blocks ((cur_dir st).entries i).block_num).file_size + count) =
      (st.blocks ((cur_dir st).entries i).block_num).file_size + count :=
    u32_small _ (by have := hcfg.2.2; omega)
  have hres := jfs_write_resolved cfg st name i buf count (hr _) (hr _) hi hd
  rw [hres, hsum] at hfull ⊢
  simp only [gt_iff_lt, Nat.not_lt.mpr hle, if_false] at hfull ⊢
  have hA := ceil_div_wf cfg (st.blocks ((cur_dir st).entries i).block_num).file_size hcfg
    (by omega)
  have hN := ceil_div_wf cfg _ hcfg hle
  rcases write_data_blocks_cases cfg st (st.blocks ((cur_dir st).entries i).block_num)
      buf count with ⟨_, h2⟩ | ⟨h1, _⟩
  · simp [h2] at hfull
  · rw [hsum, hA, hN] at h1
    obtain ⟨new, hnew⟩ := Option.ne_none_iff_exists'.mp h1
    have hok := write_data_blocks_ok cfg st _ buf count new hcfg hle hr hw hnew
    obtain ⟨henv, _⟩ := alloc_loop_env
        (ceil_blocks cfg ((st.blocks ((cur_dir st).entries i).block_num).file_size + count) -
          ceil_blocks cfg (st.blocks ((cur_dir st).entries i).block_num).file_size) st []
    have hw1 := writes_ok_env _ _ henv hw
    rw [hok]
    simp only [ne_eq, not_true_eq_false, if_false]
    rw [write_block_ok]
    · simp
    · exact hw1 _

/-- A run of appends to a well-formed file, none of which runs out of disk: every
append succeeds and the file holds the chunks in order behind its old content. -/
theorem write_many_holds (cfg : Config) (name : List Nat) (hcfg : cfg.wf) :
    ∀ (chunks : List (List Nat)) (st : State) (content : List Nat),
      reads_ok st → writes_ok st → fresh_alloc st →
      content.length + chunks.flatten.length ≤ cfg.MAX_FILE_SIZE →
      holds_file cfg st name content →
      Status.E_DISK_FULL ∉ (write_many cfg name st chunks).1 →
      (∀ s ∈ (write_many cfg name st chunks).1, s = Status.E_SUCCESS) ∧
      holds_file cfg (write_many cfg name st chunks).2 name (content ++ chunks.flatten) ∧
        same_env st (write_many cfg name st chunks).2 := by
  intro chunks
  induction chunks with
  | nil =>
    intro st content _ _ _ _ hf _
    simp only [write_many, List.flatten_nil, List.append_nil]
    exact ⟨by simp, hf, same_env_refl st⟩
  | cons chunk rest ih =>
    intro st content hr hw hfresh hsize hf hall
    simp only [List.flatten_cons, List.length_append] at hsize
    simp only [write_many] at hall ⊢
    have h1 : (jfs_write cfg st name chunk chunk.length).1 = Status.E_SUCCESS := by
      obtain ⟨i, hi, _, _, _, hd, hfs, _⟩ := hf
      exact jfs_write_accepts cfg st name chunk chunk.length i hcfg hr hw hi hd
        (by rw [hfs]; omega) (fun h => hall (h ▸ List.mem_cons_self _ _))
    obtain ⟨k1, k2⟩ := jfs_write_holds cfg st name content chunk hcfg hr hw hfresh
      (by omega) hf h1
    obtain ⟨r0, r1, r2⟩ := ih (jfs_write cfg st name chunk chunk.length).2 (content ++ chunk)
      (reads_ok_env _ _ k2 hr) (writes_ok_env _ _ k2 hw) (fresh_alloc_env _ _ k2 hfresh)
      (by simp only [List.length_append]; omega) k1
      (fun hs => hall (List.mem_cons_of_mem _ hs))
    refine ⟨?_, ?_, same_env_trans _ _ _ k2 r2⟩
    · intro s hs
      rcases List.mem_cons.mp hs with h | h
      · rw [h]; exact h1
      · exact r0 s h
    · simp only [List.flatten_cons]
      rw [← List.append_assoc]
      exact r1

/-- Claim C1: round trip.  In a state where reads and writes succeed, the
allocator hands out only blocks that are not in use and the current directory block is
allocated: if `jfs_creat(name)` succeeds and the chunks, of total length at most
`MAX_FILE_SIZE`, are then appended one by one with `jfs_write(name, chunk, len)`
without the disk running full, then every append succeeds and a following
`jfs_read(name, buf, &count)` with `count` at least the total length (and a buffer of
at least `count` bytes) returns success, sets `count` to the total length and leaves
in `buf` exactly the concatenation of the chunks in the order written (followed by
the untouched rest of the buffer). -/
theorem round_trip (cfg : Config) (st : State) (name : List Nat) (chunks : List (List Nat))
    (buf : List Nat) (count : Nat) (hcfg : cfg.wf) (hr : reads_ok st) (hw : writes_ok st)
    (hfresh : fresh_alloc st) (hused : st.used st.current_dir = true)
    (hsize : chunks.flatten.length ≤ cfg.MAX_FILE_SIZE)
    (hcreat : (jfs_creat cfg st name).1 = Status.E_SUCCESS)
    (hfull : Status.E_DISK_FULL ∉ (write_many cfg name (jfs_creat cfg st name).2 chunks).1)
    (hcount : chunks.flatten.length ≤ count) (hbuf : count ≤ buf.length) :
    (∀ s ∈ (write_many cfg name (jfs_creat cfg st name).2 chunks).1,
      s = Status.E_SUCCESS) ∧
    jfs_read cfg (write_many cfg name (jfs_creat cfg st name).2 chunks).2 name buf count =
      (Status.E_SUCCESS, chunks.flatten ++ buf.drop chunks.flatten.length,
        chunks.flatten.length) := by
  obtain ⟨c1, c2⟩ := jfs_creat_holds cfg st name hcfg hr hw hfresh hused hcreat
  obtain ⟨w0, w1, w2⟩ := write_many_holds cfg name hcfg chunks (jfs_creat cfg st name).2 []
    (reads_ok_env _ _ c2 hr) (writes_ok_env _ _ c2 hw) (fresh_alloc_env _ _ c2 hfresh)
    (by simpa using hsize) c1 hfull
  simp only [List.nil_append] at w1
  exact ⟨w0, jfs_read_holds cfg _ name chunks.flatten buf count hcfg
    (reads_ok_env _ _ (same_env_trans _ _ _ c2 w2) hr) hsize w1 hcount hbuf⟩

/-! ## Frame properties: rejected calls and the session variable -/

theorem create_checked_env (cfg : Config) (st : State) (name : List Nat) (tag : Nat) :
    same_env st (create_checked cfg st name tag).2 := by
  unfold create_checked
  (repeat' first | split | dsimp only) <;>
    first
    | exact same_env_refl st
    | exact create_entry_env st _ name tag

theorem release_data_loop_env (inode : Block) (n : Nat) : ∀ (i : Nat) (st : State),
    same_env st (release_data_loop inode n i st).2 ∧
      (release_data_loop inode n i st).2.blocks = st.blocks := by
  induction n with
  | zero => intro i st; simp [release_data_loop, same_env_refl]
  | succ n ih =>
    intro i st
    have e1 := release_block_env st (inode.data_blocks i)
    have b1 := release_block_blocks st (inode.data_blocks i)
    simp only [release_data_loop]
    split
    · exact ⟨e1, b1⟩
    · obtain ⟨r1, r2⟩ := ih (i + 1) (release_block st (inode.data_blocks i)).2
      exact ⟨same_env_trans _ _ _ e1 r1, by rw [r2, b1]⟩

theorem jfs_rmdir_env (st : State) (name : List Nat) : same_env st (jfs_rmdir st name).2 := by
  unfold jfs_rmdir
  (repeat' first | split | dsimp only) <;>
    first
    | exact same_env_refl st
    | exact remove_directory_entry_env st _ _

theorem jfs_remove_env (cfg : Config) (st : State) (name : List Nat) :
    same_env st (jfs_remove cfg st name).2 := by
  unfold jfs_remove release_data_blocks
  (repeat' first | split | dsimp only) <;>
    first
    | exact same_env_refl st
    | exact (release_data_loop_env _ _ 0 st).1
    | exact remove_directory_entry_env _ _ _
    | exact same_env_trans _ _ _ (release_data_loop_env _ _ 0 st).1
        (remove_directory_entry_env _ _ _)

theorem write_new_blocks_env (all : List Nat) : ∀ (bs : List Nat) (blks : List Block)
    (st : State), same_env st (write_new_blocks all bs blks st).2 := by
  intro bs
  induction bs with
  | nil => intro blks st; simp [write_new_blocks, same_env_refl]
  | cons b rest ih =>
    intro blks st
    cases blks with
    | nil => simp [write_new_blocks, same_env_refl]
    | cons blk blks =>
      simp only [write_new_blocks]
      have e1 := write_block_env st b blk
      split
      · exact same_env_trans _ _ _ e1 (release_all_env all _).1
      · exact same_env_trans _ _ _ e1 (ih _ _)

theorem write_data_blocks_env (cfg : Config) (st : State) (inode : Block) (buf : List Nat)
    (count : Nat) : same_env st (write_data_blocks cfg st inode buf count).2.2 := by
  unfold write_data_blocks
  simp only
  have hal := alloc_loop_env (ceil_div cfg (u32 (inode.file_size + count)) -
        ceil_div cfg inode.file_size) st []
  generalize alloc_loop (ceil_div cfg (u32 (inode.file_size + count)) -
        ceil_div cfg inode.file_size) st [] = al at hal
  obtain ⟨l, st1⟩ := al
  have e1 : same_env st st1 := hal.1
  cases l with
  | none => exact e1
  | some new =>
    simp only
    (repeat' split) <;>
      first
      | exact e1
      | exact same_env_trans _ _ _ e1 (write_new_blocks_env _ _ _ _)
      | exact same_env_trans _ _ _ e1 (release_all_env _ _).1
      | exact same_env_trans _ _ _ (same_env_trans _ _ _ e1 (write_block_env _ _ _))
          (release_all_env _ _).1
      | exact same_env_trans _ _ _ (same_env_trans _ _ _ e1 (write_block_env _ _ _))
          (write_new_blocks_env _ _ _ _)

theorem jfs_write_env (cfg : Config) (st : State) (name buf : List Nat) (count : Nat) :
    same_env st (jfs_write cfg st name buf count).2 := by
  unfold jfs_write
  (repeat' first | split | dsimp only) <;>
    first
    | exact same_env_refl st
    | exact write_data_blocks_env cfg st _ buf count
    | exact same_env_trans _ _ _ (write_data_blocks_env cfg st _ buf count)
        (write_block_env _ _ _)


/-! ### Rejected calls leave everything as it was -/

theorem create_checked_acts (cfg : Config) (st : State) (name : List Nat) (tag : Nat) :
    (create_checked cfg st name tag).2 = st ∨
      (create_checked cfg st name tag).1 ∈
        [Status.E_SUCCESS, Status.E_UNKNOWN, Status.E_DISK_FULL, Status.minus_one] := by
  unfold create_checked create_entry
  (repeat' first | split | dsimp only) <;>
    first
    | (left; rfl)
    | (right; simp)

theorem jfs_chdir_acts (st : State) (dn : Option (List Nat)) :
    (jfs_chdir st dn).2 = st ∨ (jfs_chdir st dn).1 = Status.E_SUCCESS := by
  unfold jfs_chdir
  (repeat' first | split | dsimp only) <;>
    first
    | (left; rfl)
    | (right; rfl)

theorem jfs_rmdir_acts (st : State) (name : List Nat) :
    (jfs_rmdir st name).2 = st ∨
      (jfs_rmdir st name).1 ∈
        [Status.E_SUCCESS, Status.E_UNKNOWN, Status.E_DISK_FULL, Status.minus_one] := by
  unfold jfs_rmdir
  (repeat' first | split | dsimp only) <;>
    first
    | (left; rfl)
    | (right; simp)

theorem jfs_remove_acts (cfg : Config) (st : State) (name : List Nat) :
    (jfs_remove cfg st name).2 = st ∨
      (jfs_remove cfg st name).1 ∈
        [Status.E_SUCCESS, Status.E_UNKNOWN, Status.E_DISK_FULL, Status.minus_one] := by
  unfold jfs_remove
  (repeat' first | split | dsimp only) <;>
    first
    | (left; rfl)
    | (right; simp)

theorem jfs_write_acts (cfg : Config) (st : State) (name buf : List Nat) (count : Nat) :
    (jfs_write cfg st name buf count).2 = st ∨
      (jfs_write cfg st name buf count).1 ∈
        [Status.E_SUCCESS, Status.E_UNKNOWN, Status.E_DISK_FULL, Status.minus_one] := by
  unfold jfs_write
  (repeat' first | split | dsimp only) <;>
    first
    | (left; rfl)
    | (right; simp)

theorem read_loop_mem (cfg : Config) (st : State) (tb : Block) (fuel idx left bi : Nat)
    (buf : List Nat) :
    (read_loop cfg st tb fuel idx left bi buf).1 ∈
      [Status.E_SUCCESS, Status.E_UNKNOWN, Status.E_DISK_FULL, Status.minus_one] := by
  rcases read_loop_status cfg st tb fuel idx left bi buf with h | h <;> simp [h]

theorem jfs_read_acts (cfg : Config) (st : State) (name buf : List Nat) (count : Nat) :
    (jfs_read cfg st name buf count).2 = (buf, count) ∨
      (jfs_read cfg st name buf count).1 ∈
        [Status.E_SUCCESS, Status.E_UNKNOWN, Status.E_DISK_FULL, Status.minus_one] := by
  unfold jfs_read
  (repeat' first | split | dsimp only) <;>
    first
    | (left; rfl)
    | (right; exact read_loop_mem _ _ _ _ _ _ _ _)

theorem jfs_stat_acts (cfg : Config) (st : State) (name : List Nat) (sbuf : Stats) :
    (jfs_stat cfg st name sbuf).2 = sbuf ∨
      (jfs_stat cfg st name sbuf).1 ∈
        [Status.E_SUCCESS, Status.E_UNKNOWN, Status.E_DISK_FULL, Status.minus_one] := by
  unfold jfs_stat
  (repeat' first | split | dsimp only) <;>
    first
    | (left; rfl)
    | (right; simp)

theorem rejected_of_acts {α : Type} (s : Status) (x y : α) (l : List Status)
    (hl : s ∈ l) (hdisj : ∀ c ∈ l, c ∉
      [Status.E_SUCCESS, Status.E_UNKNOWN, Status.E_DISK_FULL, Status.minus_one])
    (h : x = y ∨ s ∈
      [Status.E_SUCCESS, Status.E_UNKNOWN, Status.E_DISK_FULL, Status.minus_one]) :
    x = y := by
  rcases h with h | h
  · exact h
  · exact absurd h (hdisj s hl)

/-- Claim C11: validation failures have no side effects.  Whenever `jfs_mkdir` or
`jfs_creat` returns `E_MAX_NAME_LENGTH`, `E_MAX_DIR_ENTRIES` or `E_EXISTS`, or
`jfs_chdir`, `jfs_rmdir`, `jfs_remove` or `jfs_write` returns `E_NOT_EXISTS`,
`E_NOT_DIR`, `E_IS_DIR`, `E_NOT_EMPTY` or `E_MAX_FILE_SIZE`, the state after the call
(every disk block, the allocation status, `current_dir`) is the state before it; and
when `jfs_read` or `jfs_stat`, which only read the storage, return one of these codes,
the caller's buffer and count are as they were. -/
theorem rejections_have_no_effect (cfg : Config) (st : State) (name buf : List Nat)
    (count : Nat) (sbuf : Stats) :
    ((jfs_mkdir cfg st name).1 ∈ create_rejections → (jfs_mkdir cfg st name).2 = st) ∧
    ((jfs_creat cfg st name).1 ∈ create_rejections → (jfs_creat cfg st name).2 = st) ∧
    ((jfs_chdir st (some name)).1 ∈ lookup_rejections →
      (jfs_chdir st (some name)).2 = st) ∧
    ((jfs_rmdir st name).1 ∈ lookup_rejections → (jfs_rmdir st name).2 = st) ∧
    ((jfs_remove cfg st name).1 ∈ lookup_rejections → (jfs_remove cfg st name).2 = st) ∧
    ((jfs_write cfg st name buf count).1 ∈ lookup_rejections →
      (jfs_write cfg st name buf count).2 = st) ∧
    ((jfs_read cfg st name buf count).1 ∈ lookup_rejections →
      (jfs_read cfg st name buf count).2 = (buf, count)) ∧
    ((jfs_stat cfg st name sbuf).1 ∈ lookup_rejections →
      (jfs_stat cfg st name sbuf).2 = sbuf) := by
  have d1 : ∀ c ∈ create_rejections, c ∉
      [Status.E_SUCCESS, Status.E_UNKNOWN, Status.E_DISK_FULL, Status.minus_one] := by
    decide
  have d2 : ∀ c ∈ lookup_rejections, c ∉
      [Status.E_SUCCESS, Status.E_UNKNOWN, Status.E_DISK_FULL, Status.minus_one] := by
    decide
  refine ⟨?_, ?_, ?_, ?_, ?_, ?_, ?_, ?_⟩
  · intro h
    rw [jfs_mkdir_eq] at h ⊢
    exact rejected_of_acts _ _ _ _ h d1 (create_checked_acts cfg st name 0)
  · intro h
    rw [jfs_creat_eq] at h ⊢
    exact rejected_of_acts _ _ _ _ h d1 (create_checked_acts cfg st name 1)
  · intro h
    rcases jfs_chdir_acts st (some name) with h1 | h1
    · exact h1
    · rw [h1] at h; exact absurd h (by decide)
  · intro h; exact rejected_of_acts _ _ _ _ h d2 (jfs_rmdir_acts st name)
  · intro h; exact rejected_of_acts _ _ _ _ h d2 (jfs_remove_acts cfg st name)
  · intro h; exact rejected_of_acts _ _ _ _ h d2 (jfs_write_acts cfg st name buf count)
  · intro h; exact rejected_of_acts _ _ _ _ h d2 (jfs_read_acts cfg st name buf count)
  · intro h; exact rejected_of_acts _ _ _ _ h d2 (jfs_stat_acts cfg st name sbuf)


/-! ### The session variable -/

theorem jfs_chdir_only_cur (st : State) (dn : Option (List Nat)) :
    ∃ c, (jfs_chdir st dn).2 = { st with current_dir := c } := by
  unfold jfs_chdir
  (repeat' first | split | dsimp only) <;>
    exact ⟨_, rfl⟩

theorem chdir_many_only_cur : ∀ (names : List (List Nat)) (st : State),
    ∃ c, chdir_many st names = { st with current_dir := c } := by
  intro names
  induction names with
  | nil => intro st; exact ⟨st.current_dir, rfl⟩
  | cons n rest ih =>
    intro st
    obtain ⟨c1, h1⟩ := jfs_chdir_only_cur st (some n)
    obtain ⟨c2, h2⟩ := ih (jfs_chdir st (some n)).2
    simp only [chdir_many]
    rw [h2, h1]
    exact ⟨c2, rfl⟩

/-- Claim C15: `jfs_chdir(NULL)` returns success from every state, also one in which
every storage call would fail, and changes nothing but `current_dir`, which becomes
block `1`; applying it twice gives the same result as applying it once, and the
result is the same after any run of `jfs_chdir(name)` calls. -/
theorem chdir_null_to_root (st : State) (names : List (List Nat)) :
    jfs_chdir st none = (Status.E_SUCCESS, { st with current_dir := 1 }) ∧
    jfs_chdir (jfs_chdir st none).2 none = jfs_chdir st none ∧
    jfs_chdir (chdir_many st names) none = jfs_chdir st none := by
  refine ⟨rfl, rfl, ?_⟩
  obtain ⟨c, h⟩ := chdir_many_only_cur names st
  rw [h]
  rfl

theorem jfs_chdir_success (st : State) (name : List Nat)
    (h : (jfs_chdir st (some name)).1 = Status.E_SUCCESS) :
    ∃ i, resolves (cur_dir st) name i ∧
      (jfs_chdir st (some name)).2.current_dir = ((cur_dir st).entries i).block_num := by
  by_cases hc : st.rfail st.current_dir = true
  · simp [jfs_chdir, read_block_fail st _ hc] at h
  · have hc : st.rfail st.current_dir = false := by simpa using hc
    rcases absent_or_resolves (cur_dir st) name with ha | ⟨i, hi⟩
    · simp [jfs_chdir, read_block_ok st _ hc, if_exist_absent st name hc ha] at h
    · refine ⟨i, hi, ?_⟩
      have he := if_exist_resolves st name i hc hi
      simp only [jfs_chdir, read_block_ok st _ hc, he, int_natCast_ne_neg_one,
        Int.toNat_ofNat, ne_eq, not_false_eq_true, if_true] at h ⊢
      split at h
      · rename_i hd
        simp [hd, cur_dir]
      · exact Status.noConfusion h

/-- Claim C16: session state frame.  `jfs_mount` sets `current_dir` to `1`; a
successful `jfs_chdir(name)` sets it to the block number of the entry the name
resolves to in the old current directory; a failing `jfs_chdir` leaves the whole
state as it was; and `jfs_mkdir`, `jfs_creat`, `jfs_rmdir`, `jfs_remove`, `jfs_write`
and `jfs_unmount` leave `current_dir` equal to its value before the call (`jfs_ls`,
`jfs_stat` and `jfs_read` only read the storage and return no state). -/
theorem current_dir_frame (cfg : Config) (st : State) (name buf filename : List Nat)
    (count : Nat) (dn : Option (List Nat)) :
    (jfs_mount st filename).2.current_dir = 1 ∧
    ((jfs_chdir st (some name)).1 = Status.E_SUCCESS →
      ∃ i, resolves (cur_dir st) name i ∧
        (jfs_chdir st (some name)).2.current_dir = ((cur_dir st).entries i).block_num) ∧
    ((jfs_chdir st dn).1 ≠ Status.E_SUCCESS → (jfs_chdir st dn).2 = st) ∧
    (jfs_mkdir cfg st name).2.current_dir = st.current_dir ∧
    (jfs_creat cfg st name).2.current_dir = st.current_dir ∧
    (jfs_rmdir st name).2.current_dir = st.current_dir ∧
    (jfs_remove cfg st name).2.current_dir = st.current_dir ∧
    (jfs_write cfg st name buf count).2.current_dir = st.current_dir ∧
    (jfs_unmount st).2.current_dir = st.current_dir := by
  refine ⟨rfl, jfs_chdir_success st name, ?_, ?_, ?_, ?_, ?_, ?_, rfl⟩
  · intro h
    rcases jfs_chdir_acts st dn with h1 | h1
    · exact h1
    · exact absurd h1 h
  · rw [jfs_mkdir_eq]; exact (create_checked_env cfg st name 0).1
  · rw [jfs_creat_eq]; exact (create_checked_env cfg st name 1).1
  · exact (jfs_rmdir_env st name).1
  · exact (jfs_remove_env cfg st name).1
  · exact (jfs_write_env cfg st name buf count).1

/-! ## `jfs_stat`, `jfs_ls` and `jfs_read` in closed form -/

theorem jfs_stat_resolved (cfg : Config) (st : State) (name : List Nat) (i : Nat)
    (sbuf : Stats) (hc : st.rfail st.current_dir = false)
    (ht : st.rfail ((st.blocks st.current_dir).entries i).block_num = false)
    (hi : resolves (cur_dir st) name i) :
    jfs_stat cfg st name sbuf =
      if (st.blocks ((cur_dir st).entries i).block_num).is_dir ≠ 0 then
        (Status.E_SUCCESS,
          { is_dir := (st.blocks ((cur_dir st).entries i).block_num).is_dir
            name := ((cur_dir st).entries i).name
            block_num := ((cur_dir st).entries i).block_num
            num_data_blocks :=
              ceil_div cfg (st.blocks ((cur_dir st).entries i).block_num).file_size
            file_size := (st.blocks ((cur_dir st).entries i).block_num).file_size })
      else
        (Status.E_SUCCESS,
          { is_dir := (st.blocks ((cur_dir st).entries i).block_num).is_dir
            name := ((cur_dir st).entries i).name
            block_num := ((cur_dir st).entries i).block_num
            num_data_blocks := 0
            file_size := 0 }) := by
  have he := if_exist_resolves st name i hc hi
  unfold cur_dir
  simp only [jfs_stat, read_block_ok st _ hc, he, int_natCast_ne_neg_one,
    Int.toNat_ofNat, read_block_ok st _ ht, ne_eq, if_false]

/-- Claim C13: `jfs_stat(name, buf)` on a name that resolves to entry `i` of the
current directory, reads succeeding, returns success with `buf.name` and
`buf.block_num` those of the entry and `buf.is_dir` the discriminant of the target
block; if the target is an inode of size `s` then `buf.file_size = s` and (sizes in
range) `buf.num_data_blocks = ceil(s / BLOCK_SIZE)`; if it is a directory node then
`buf.file_size = 0` and `buf.num_data_blocks = 0`.  `jfs_stat` only reads the storage
and returns no state. -/
theorem stat_reports (cfg : Config) (st : State) (name : List Nat) (i : Nat) (sbuf : Stats)
    (hr : reads_ok st) (hi : resolves (cur_dir st) name i) :
    (jfs_stat cfg st name sbuf).1 = Status.E_SUCCESS ∧
    (jfs_stat cfg st name sbuf).2.name = ((cur_dir st).entries i).name ∧
    (jfs_stat cfg st name sbuf).2.block_num = ((cur_dir st).entries i).block_num ∧
    (jfs_stat cfg st name sbuf).2.is_dir =
      (st.blocks ((cur_dir st).entries i).block_num).is_dir ∧
    ((st.blocks ((cur_dir st).entries i).block_num).is_dir ≠ 0 →
      (jfs_stat cfg st name sbuf).2.file_size =
        (st.blocks ((cur_dir st).entries i).block_num).file_size ∧
      (cfg.wf →
        (st.blocks ((cur_dir st).entries i).block_num).file_size ≤ cfg.MAX_FILE_SIZE →
        (jfs_stat cfg st name sbuf).2.num_data_blocks =
          ceil_blocks cfg (st.blocks ((cur_dir st).entries i).block_num).file_size)) ∧
    ((st.blocks ((cur_dir st).entries i).block_num).is_dir = 0 →
      (jfs_stat cfg st name sbuf).2.file_size = 0 ∧
      (jfs_stat cfg st name sbuf).2.num_data_blocks = 0) := by
  rw [jfs_stat_resolved cfg st name i sbuf (hr _) (hr _) hi]
  by_cases hd : (st.blocks ((cur_dir st).entries i).block_num).is_dir = 0
  · simp [hd]
  · rw [if_pos hd]
    exact ⟨rfl, rfl, rfl, rfl, fun _ => ⟨rfl, fun hcfg hs => ceil_div_wf cfg _ hcfg hs⟩,
      fun h => absurd h hd⟩

theorem getD_map_range (f : Nat → Nat) (n p : Nat) (h : p < n) :
    ((List.range n).map f).getD p 0 = f p := by
  rw [List.getD_eq_getElem _ _ (by simpa using h)]
  simp

/-- The result of `jfs_read` on a file, in closed form. -/
theorem jfs_read_file (cfg : Config) (st : State) (name buf : List Nat) (c i : Nat)
    (hcfg : cfg.wf) (hr : reads_ok st) (hi : resolves (cur_dir st) name i)
    (hd : (st.blocks ((cur_dir st).entries i).block_num).is_dir ≠ 0)
    (hs : (st.blocks ((cur_dir st).entries i).block_num).file_size ≤ cfg.MAX_FILE_SIZE)
    (hbuf : c ≤ buf.length) :
    jfs_read cfg st name buf c =
      (Status.E_SUCCESS,
        (List.range (min c (st.blocks ((cur_dir st).entries i).block_num).file_size)).map
            (file_byte cfg st (st.blocks ((cur_dir st).entries i).block_num)) ++
          buf.drop (min c (st.blocks ((cur_dir st).entries i).block_num).file_size),
        min c (st.blocks ((cur_dir st).entries i).block_num).file_size) := by
  have hb := hcfg.1
  rw [jfs_read_resolved cfg st name i buf c (hr _) (hr _) hi hd]
  generalize st.blocks ((cur_dir st).entries i).block_num = tb at hd hs ⊢
  have hcnt : (if c > tb.file_size then tb.file_size else c) = min c tb.file_size := by
    split <;> omega
  rw [hcnt, ceil_div_wf cfg _ hcfg hs]
  have hle : min c tb.file_size ≤ ceil_blocks cfg tb.file_size * cfg.BLOCK_SIZE := by
    have := (ceil_blocks_bounds cfg tb.file_size hb).1
    omega
  obtain ⟨r1, r2, r3⟩ := read_loop_ok cfg st tb hr hb (ceil_blocks cfg tb.file_size) 0
    (min c tb.file_size) buf hle
  simp only [Nat.zero_mul, Nat.zero_add, Nat.zero_le, true_and] at r1 r2 r3
  have hlist : (read_loop cfg st tb (ceil_blocks cfg tb.file_size) 0 (min c tb.file_size)
      0 buf).2 = (List.range (min c tb.file_size)).map (file_byte cfg st tb) ++
        buf.drop (min c tb.file_size) := by
    apply list_ext_getD
    · rw [r2]; simp; omega
    · intro p hp
      rw [r2] at hp
      rw [r3 p hp]
      by_cases hlt : p < min c tb.file_size
      · simp only [hlt, if_true]
        rw [List.getD_append _ _ _ _ (by simpa using hlt), getD_map_range _ _ _ hlt]
      · simp only [hlt, if_false]
        rw [List.getD_append_right _ _ _ _ (by simp; omega)]
        rw [List.getD_eq_getElem?_getD, List.getD_eq_getElem?_getD, List.getElem?_drop]
        congr 2
        simp
        omega
  rw [r1, hlist]

/-- Claim C12: `jfs_read(name, buf, &count)` on a file of size `s ≤ MAX_FILE_SIZE`
with requested count `c` (reads succeeding, the buffer holding at least `c` bytes)
returns success, sets `count` to `min(c, s)`, makes the first `min(c, s)` bytes of
`buf` the first `min(c, s)` bytes of the file, file byte `k` being byte
`k mod BLOCK_SIZE` of data block number `data_blocks[k div BLOCK_SIZE]`, and leaves
`buf` beyond `min(c, s)` untouched; a second read into the returned buffer with the
returned count gives the same result, and a read into any other buffer returns the
same bytes.  `jfs_read` only reads the storage and returns no state. -/
theorem read_returns_file_start (cfg : Config) (st : State) (name buf buf2 : List Nat)
    (c i : Nat) (hcfg : cfg.wf) (hr : reads_ok st) (hi : resolves (cur_dir st) name i)
    (hd : (st.blocks ((cur_dir st).entries i).block_num).is_dir ≠ 0)
    (hs : (st.blocks ((cur_dir st).entries i).block_num).file_size ≤ cfg.MAX_FILE_SIZE)
    (hbuf : c ≤ buf.length) (hbuf2 : c ≤ buf2.length) :
    jfs_read cfg st name buf c =
      (Status.E_SUCCESS,
        (List.range (min c (st.blocks ((cur_dir st).entries i).block_num).file_size)).map
            (file_byte cfg st (st.blocks ((cur_dir st).entries i).block_num)) ++
          buf.drop (min c (st.blocks ((cur_dir st).entries i).block_num).file_size),
        min c (st.blocks ((cur_dir st).entries i).block_num).file_size) ∧
    jfs_read cfg st name (jfs_read cfg st name buf c).2.1 (jfs_read cfg st name buf c).2.2 =
      jfs_read cfg st name buf c ∧
    (jfs_read cfg st name buf2 c).2.1.take
        (min c (st.blocks ((cur_dir st).entries i).block_num).file_size) =
      (jfs_read cfg st name buf c).2.1.take
        (min c (st.blocks ((cur_dir st).entries i).block_num).file_size) := by
  have h1 := jfs_read_file cfg st name buf c i hcfg hr hi hd hs hbuf
  have h2 := jfs_read_file cfg st name buf2 c i hcfg hr hi hd hs hbuf2
  refine ⟨h1, ?_, ?_⟩
  · rw [h1]
    simp only
    generalize hm : min c (st.blocks ((cur_dir st).entries i).block_num).file_size = m
    have hlenA : ((List.range m).map
        (file_byte cfg st (st.blocks ((cur_dir st).entries i).block_num))).length = m := by
      simp
    have h3 := jfs_read_file cfg st name
      ((List.range m).map (file_byte cfg st (st.blocks ((cur_dir st).entries i).block_num))
        ++ buf.drop m) m i hcfg hr hi hd hs (by simp)
    have hmm : min m (st.blocks ((cur_dir st).entries i).block_num).file_size = m := by
      omega
    rw [h3, hmm]
    congr 2
    rw [List.drop_append_of_le_length (by simp), List.drop_of_length_le (by simp)]
    simp
  · rw [h1, h2]
    simp only
    rw [List.take_append_of_le_length (by simp), List.take_append_of_le_length (by simp)]

/-! ## `remove_directory_entry`: swap with the last entry -/

theorem map_range_upd (e : Nat → DirEntry) (m i : Nat) (x : DirEntry) (_hi : i < m) :
    (List.range m).map (upd e i x) = ((List.range m).map e).set i x := by
  apply List.ext_getElem
  · simp
  · intro p h1 h2
    simp only [List.getElem_map, List.getElem_range, List.getElem_set]
    by_cases hp : i = p
    · subst hp; simp [upd]
    · have : p ≠ i := fun h => hp h.symm
      simp [upd, hp, this]

theorem perm_set_swap : ∀ (l : List DirEntry) (i : Nat) (x : DirEntry) (h : i < l.length),
    List.Perm (l.get ⟨i, h⟩ :: l.set i x) (x :: l) := by
  intro l
  induction l with
  | nil => intro i x h; simp at h
  | cons a t ih =>
    intro i x h
    cases i with
    | zero => simp only [List.set_cons_zero, List.get_cons_zero]; exact List.Perm.swap _ _ _
    | succ i =>
      simp only [List.set_cons_succ, List.get_cons_succ]
      have h' : i < t.length := by simpa using h
      have := ih i x h'
      exact ((List.Perm.swap a _ _).trans (this.cons a)).trans (List.Perm.swap _ _ _)

/-- The live entries after a swap-with-last removal of entry `i`, together with
the removed entry, are the old live entries up to order. -/
theorem perm_removed (e : Nat → DirEntry) (n i : Nat) (hi : i < n) :
    List.Perm
      (e i :: (List.range (n - 1)).map
        (if i + 1 = n then e else upd e i (e (n - 1))))
      ((List.range n).map e) := by
  obtain ⟨m, rfl⟩ : ∃ m, n = m + 1 := ⟨n - 1, by omega⟩
  simp only [Nat.add_sub_cancel, List.range_succ, List.map_append, List.map_cons,
    List.map_nil]
  by_cases hlast : i + 1 = m + 1
  · have him : i = m := by omega
    subst him
    simp only [if_true]
    exact (List.perm_append_singleton _ _).symm
  · have him : i < m := by omega
    simp only [hlast, if_false]
    rw [map_range_upd e m i _ him]
    have hlen : i < ((List.range m).map e).length := by simpa using him
    have hget : ((List.range m).map e).get ⟨i, hlen⟩ = e i := by simp
    have := perm_set_swap ((List.range m).map e) i (e m) hlen
    rw [hget] at this
    exact this.trans (List.perm_append_singleton _ _).symm

/-- Claim C18: swap-with-last removal.  For a directory node with
`n = num_entries` entries (`n` in the range of its `uint16_t` field) and an index
`i < n`, a call `remove_directory_entry(dir, i)` that does not report failure returns
the removed entry's block number and leaves a directory node with `num_entries = n - 1`
in which, if `i = n - 1`, the first `n - 1` entries are unchanged, and otherwise slot
`i` holds the former entry `n - 1` and every other slot `j < n - 1` is unchanged; the
first `n - 1` entries of the result together with the removed entry are a permutation
of the old first `n` entries; and this node is what the current directory block on
disk holds afterwards. -/
theorem swap_with_last_removal (st : State) (cur_block : Block) (i : Nat)
    (hi : i < cur_block.num_entries) (hn : cur_block.num_entries < 65536)
    (hs : (remove_directory_entry st cur_block (i : Int)).1 ≠ 0) :
    (remove_directory_entry st cur_block (i : Int)).1 = (cur_block.entries i).block_num ∧
    (remove_directory_entry st cur_block (i : Int)).2.1.num_entries =
      cur_block.num_entries - 1 ∧
    (i + 1 = cur_block.num_entries →
      ∀ j, j < cur_block.num_entries - 1 →
        (remove_directory_entry st cur_block (i : Int)).2.1.entries j =
          cur_block.entries j) ∧
    (i + 1 ≠ cur_block.num_entries →
      (remove_directory_entry st cur_block (i : Int)).2.1.entries i =
        cur_block.entries (cur_block.num_entries - 1) ∧
      ∀ j, j < cur_block.num_entries - 1 → j ≠ i →
        (remove_directory_entry st cur_block (i : Int)).2.1.entries j =
          cur_block.entries j) ∧
    List.Perm
      (cur_block.entries i ::
        (List.range (remove_directory_entry st cur_block (i : Int)).2.1.num_entries).map
          (remove_directory_entry st cur_block (i : Int)).2.1.entries)
      ((List.range cur_block.num_entries).map cur_block.entries) ∧
    (remove_directory_entry st cur_block (i : Int)).2.2.blocks st.current_dir =
      (remove_directory_entry st cur_block (i : Int)).2.1 := by
  have hdec : u16_dec cur_block.num_entries = cur_block.num_entries - 1 :=
    u16_dec_pos _ (by omega) (by omega)
  have hcast : ((i : Int) + 1 = (cur_block.num_entries : Int)) ↔
      i + 1 = cur_block.num_entries := by omega
  have hperm := perm_removed cur_block.entries cur_block.num_entries i hi
  by_cases h0 : st.relfail (cur_block.entries i).block_num = true
  · simp [remove_directory_entry, release_block, h0] at hs
  · have h0 : st.relfail (cur_block.entries i).block_num = false := by simpa using h0
    by_cases hwc : st.wfail st.current_dir = true
    · by_cases hwt : st.wfail (cur_block.entries i).block_num = true <;>
        simp [remove_directory_entry, release_block, h0, write_block, hwt, hwc] at hs
    · have hwc : st.wfail st.current_dir = false := by simpa using hwc
      by_cases hlast : i + 1 = cur_block.num_entries
      · simp only [hlast, if_true] at hperm
        by_cases hwt : st.wfail (cur_block.entries i).block_num = true <;>
          simp [remove_directory_entry, release_block, h0, write_block, hwt, hwc, hcast,
            hlast, hdec, upd] <;>
          exact hperm
      · simp only [hlast, if_false] at hperm
        by_cases hwt : st.wfail (cur_block.entries i).block_num = true <;>
          simp [remove_directory_entry, release_block, h0, write_block, hwt, hwc, hcast,
            hlast, hdec] <;>
          exact ⟨⟨upd_same _ _ _, fun j _ hj => upd_other _ _ _ _ hj⟩, hperm, upd_same _ _ _⟩

/-! ## `jfs_write`: how the inode grows -/

theorem alloc_answers_length : ∀ (n : Nat) (st : State), (alloc_answers n st).length = n := by
  intro n
  induction n with
  | zero => intro st; rfl
  | succ n ih => intro st; simp [alloc_answers, ih]

/-- The list the allocation loop returns holds the answers of `allocate_block` in
call order. -/
theorem alloc_loop_answers : ∀ (n : Nat) (st : State) (acc l : List Nat),
    (alloc_loop n st acc).1 = some l → l = acc ++ alloc_answers n st := by
  intro n
  induction n with
  | zero =>
    intro st acc l h
    simp only [alloc_loop, Option.some.injEq] at h
    simp [alloc_answers, h]
  | succ n ih =>
    intro st acc l h
    simp only [alloc_loop] at h
    by_cases ha : (allocate_block st).1 = 0
    · simp [ha] at h
    · simp only [ha, if_false] at h
      rw [ih _ _ _ h]
      simp [alloc_answers]

/-- The caller's inode after a `write_data_blocks` that returns `0`. -/
theorem write_data_blocks_inode (cfg : Config) (st : State) (inode : Block) (buf : List Nat)
    (count : Nat) (h : (write_data_blocks cfg st inode buf count).1 = 0) :
    ∃ new, (alloc_loop (ceil_div cfg (u32 (inode.file_size + count)) -
        ceil_div cfg inode.file_size) st []).1 = some new ∧
      (write_data_blocks cfg st inode buf count).2.1 =
        { inode with
          file_size := u32 (inode.file_size + count)
          data_blocks := store_block_nums inode.data_blocks
            (ceil_div cfg inode.file_size) new } := by
  rcases write_data_blocks_cases cfg st inode buf count with ⟨_, h2⟩ | ⟨h3, _⟩
  · rw [h2] at h; simp at h
  · obtain ⟨new, hnew⟩ := Option.ne_none_iff_exists'.mp h3
    refine ⟨new, hnew, ?_⟩
    have hpair : alloc_loop (ceil_div cfg (u32 (inode.file_size + count)) -
        ceil_div cfg inode.file_size) st [] = (some new,
          (alloc_loop (ceil_div cfg (u32 (inode.file_size + count)) -
            ceil_div cfg inode.file_size) st []).2) := by
      rw [← hnew]
    generalize (alloc_loop (ceil_div cfg (u32 (inode.file_size + count)) -
        ceil_div cfg inode.file_size) st []).2 = st1 at hpair
    revert h
    unfold write_data_blocks
    simp only [hpair]
    (repeat' split) <;> intro h <;>
      first
      | rfl
      | (exfalso; simp at h)

/-- What a successful `jfs_write` implies: the reads succeeded, the target is a file,
the size check passed, `write_data_blocks` returned `0` and the inode was written. -/
theorem jfs_write_success (cfg : Config) (st : State) (name buf : List Nat) (count i : Nat)
    (hi : resolves (cur_dir st) name i)
    (hs : (jfs_write cfg st name buf count).1 = Status.E_SUCCESS) :
    u32 ((st.blocks ((cur_dir st).entries i).block_num).file_size + count) ≤
      cfg.MAX_FILE_SIZE ∧
    (write_data_blocks cfg st (st.blocks ((cur_dir st).entries i).block_num)
      buf count).1 = 0 ∧
    (jfs_write cfg st name buf count).2.blocks ((cur_dir st).entries i).block_num =
      (write_data_blocks cfg st (st.blocks ((cur_dir st).entries i).block_num)
        buf count).2.1 := by
  by_cases hc : st.rfail st.current_dir = true
  · simp [jfs_write, read_block_fail st _ hc] at hs
  · have hc : st.rfail st.current_dir = false := by simpa using hc
    have he := if_exist_resolves st name i hc hi
    by_cases ht : st.rfail ((st.blocks st.current_dir).entries i).block_num = true
    · simp only [jfs_write, read_block_ok st _ hc, he, Int.toNat_ofNat, is_dir_fail st _ ht,
        int_natCast_ne_neg_one, if_false] at hs
      simp at hs
    · have ht : st.rfail ((st.blocks st.current_dir).entries i).block_num = false := by
        simpa using ht
      by_cases hd : (st.blocks ((cur_dir st).entries i).block_num).is_dir = 0
      · have hz := is_dir_eq_zero_iff st _ ht
        unfold cur_dir at hd
        simp only [jfs_write, read_block_ok st _ hc, he, Int.toNat_ofNat,
          int_natCast_ne_neg_one, if_false, ne_eq, hz, hd, not_true_eq_false,
          not_false_eq_true, if_true] at hs
        exact Status.noConfusion hs
      · rw [jfs_write_resolved cfg st name i buf count hc ht hi hd] at hs ⊢
        by_cases hsz : u32 ((st.blocks ((cur_dir st).entries i).block_num).file_size + count)
            > cfg.MAX_FILE_SIZE
        · simp [hsz] at hs
        · simp only [hsz, if_false] at hs ⊢
          by_cases hr0 : (write_data_blocks cfg st
              (st.blocks ((cur_dir st).entries i).block_num) buf count).1 = 0
          · simp only [hr0, ne_eq, not_true_eq_false, if_false] at hs ⊢
            refine ⟨Nat.not_lt.mp hsz, trivial, ?_⟩
            by_cases hwt : st.wfail ((cur_dir st).entries i).block_num = true
            · have henv := write_data_blocks_env cfg st
                (st.blocks ((cur_dir st).entries i).block_num) buf count
              have : (write_data_blocks cfg st
                  (st.blocks ((cur_dir st).entries i).block_num) buf count).2.2.wfail
                  ((cur_dir st).entries i).block_num = true := by
                rw [henv.2.2.2.1]; exact hwt
              simp [write_block, this] at hs
            · have henv := write_data_blocks_env cfg st
                (st.blocks ((cur_dir st).entries i).block_num) buf count
              have : (write_data_blocks cfg st
                  (st.blocks ((cur_dir st).entries i).block_num) buf count).2.2.wfail
                  ((cur_dir st).entries i).block_num = false := by
                rw [henv.2.2.2.1]; simpa using hwt
              simp [write_block, this, upd]
          · simp only [hr0, ne_eq, not_false_eq_true, if_true] at hs
            split at hs <;> exact Status.noConfusion hs

theorem map_range_append (f : Nat → Nat) (a d : Nat) :
    (List.range (a + d)).map f =
      (List.range a).map f ++ (List.range d).map (fun k => f (a + k)) := by
  apply List.ext_getElem
  · simp
  · intro p h1 h2
    simp only [List.getElem_map, List.getElem_range]
    by_cases hp : p < a
    · rw [List.getElem_append_left (by simpa using hp)]
      simp
    · rw [List.getElem_append_right (by simpa using hp)]
      simp only [List.length_map, List.length_range, List.getElem_map, List.getElem_range]
      congr 1
      omega

/-- Claim C17: a successful append of `count` bytes (an `unsigned short`) to a file
of size `s ≤ MAX_FILE_SIZE` leaves the inode on disk with `file_size = s + count`;
its first `ceil(s / BLOCK_SIZE)` block numbers are the old ones, in order, and they are
followed by exactly `ceil((s + count) / BLOCK_SIZE) - ceil(s / BLOCK_SIZE)` numbers, the
answers of the allocator in the order in which it gave them. With an allocator that hands
out free blocks, a file whose block list was duplicate-free and in use stays
duplicate-free. -/
theorem inode_growth (cfg : Config) (st : State) (name buf : List Nat) (count i : Nat)
    (hcfg : cfg.wf) (hi : resolves (cur_dir st) name i)
    (hsize : (st.blocks ((cur_dir st).entries i).block_num).file_size ≤ cfg.MAX_FILE_SIZE)
    (hcount : count < 65536)
    (hs : (jfs_write cfg st name buf count).1 = Status.E_SUCCESS) :
    ((jfs_write cfg st name buf count).2.blocks
      ((cur_dir st).entries i).block_num).file_size =
      (st.blocks ((cur_dir st).entries i).block_num).file_size + count ∧
    (alloc_answers
      (ceil_blocks cfg ((st.blocks ((cur_dir st).entries i).block_num).file_size + count) -
        ceil_blocks cfg (st.blocks ((cur_dir st).entries i).block_num).file_size)
      st).length =
      ceil_blocks cfg ((st.blocks ((cur_dir st).entries i).block_num).file_size + count) -
        ceil_blocks cfg (st.blocks ((cur_dir st).entries i).block_num).file_size ∧
    (List.range (ceil_blocks cfg
        ((jfs_write cfg st name buf count).2.blocks
          ((cur_dir st).entries i).block_num).file_size)).map
      ((jfs_write cfg st name buf count).2.blocks
        ((cur_dir st).entries i).block_num).data_blocks =
      (List.range (ceil_blocks cfg
          (st.blocks ((cur_dir st).entries i).block_num).file_size)).map
        (st.blocks ((cur_dir st).entries i).block_num).data_blocks ++
      alloc_answers
        (ceil_blocks cfg ((st.blocks ((cur_dir st).entries i).block_num).file_size + count) -
          ceil_blocks cfg (st.blocks ((cur_dir st).entries i).block_num).file_size)
        st ∧
    (fresh_alloc st →
      (∀ q, q < ceil_blocks cfg (st.blocks ((cur_dir st).entries i).block_num).file_size →
        st.used ((st.blocks ((cur_dir st).entries i).block_num).data_blocks q) = true) →
      ((List.range (ceil_blocks cfg
          (st.blocks ((cur_dir st).entries i).block_num).file_size)).map
        (st.blocks ((cur_dir st).entries i).block_num).data_blocks).Nodup →
      ((List.range (ceil_blocks cfg
        ((jfs_write cfg st name buf count).2.blocks
          ((cur_dir st).entries i).block_num).file_size)).map
      ((jfs_write cfg st name buf count).2.blocks
        ((cur_dir st).entries i).block_num).data_blocks).Nodup) := by
  obtain ⟨h1, h2, h3⟩ := jfs_write_success cfg st name buf count i hi hs
  obtain ⟨new, hnew, hino⟩ := write_data_blocks_inode cfg st _ buf count h2
  have hsum : u32 ((st.blocks ((cur_dir st).entries i).block_num).file_size + count) =
      (st.blocks ((cur_dir st).entries i).block_num).file_size + count :=
    u32_small _ (by have := hcfg.2.2; omega)
  have hle : (st.blocks ((cur_dir st).entries i).block_num).file_size + count ≤
      cfg.MAX_FILE_SIZE := by rw [hsum] at h1; exact h1
  have hA := ceil_div_wf cfg (st.blocks ((cur_dir st).entries i).block_num).file_size hcfg
    (by omega)
  have hN := ceil_div_wf cfg _ hcfg hle
  rw [hsum, hA, hN] at hnew
  rw [hsum, hA] at hino
  have hans := alloc_loop_answers _ st [] new hnew
  simp only [List.nil_append] at hans
  have hlen := alloc_answers_length
    (ceil_blocks cfg ((st.blocks ((cur_dir st).entries i).block_num).file_size + count) -
      ceil_blocks cfg (st.blocks ((cur_dir st).entries i).block_num).file_size) st
  have hmono := ceil_blocks_mono cfg
    (st.blocks ((cur_dir st).entries i).block_num).file_size
    ((st.blocks ((cur_dir st).entries i).block_num).file_size + count) (by omega)
  rw [h3, hino]
  simp only
  have hlist : (List.range (ceil_blocks cfg
        ((st.blocks ((cur_dir st).entries i).block_num).file_size + count))).map
      (store_block_nums (st.blocks ((cur_dir st).entries i).block_num).data_blocks
        (ceil_blocks cfg (st.blocks ((cur_dir st).entries i).block_num).file_size) new) =
      (List.range (ceil_blocks cfg
          (st.blocks ((cur_dir st).entries i).block_num).file_size)).map
        (st.blocks ((cur_dir st).entries i).block_num).data_blocks ++ new := by
    rw [hans]
    generalize alloc_answers _ st = ans at hlen ⊢
    generalize ceil_blocks cfg
      ((st.blocks ((cur_dir st).entries i).block_num).file_size + count) = N at *
    generalize ceil_blocks cfg
      (st.blocks ((cur_dir st).entries i).block_num).file_size = A at *
    have hNA : N = A + (N - A) := by omega
    rw [hNA, map_range_append]
    congr 1
    · apply List.map_congr_left
      intro q hq
      have hq' : q < A := by simpa using hq
      rw [store_block_nums_eq]
      have : ¬ (A ≤ q ∧ q < A + ans.length) := by omega
      simp only [this, if_false]
    · apply list_ext_getD
      · simp only [List.length_map, List.length_range]; omega
      · intro p hp
        simp only [List.length_map, List.length_range] at hp
        rw [getD_map_range _ _ _ hp, store_block_nums_eq]
        have : A ≤ A + p ∧ A + p < A + ans.length := by omega
        simp only [this, and_self, if_true, Nat.add_sub_cancel_left]
  refine ⟨trivial, hlen, ?_, ?_⟩
  · rw [hlist, hans]
  · intro hfresh hused hnd
    rw [hlist]
    obtain ⟨new', hl, _, _, hfr⟩ := alloc_loop_some _ st [] new hnew
    simp only [List.nil_append] at hl
    subst hl
    obtain ⟨hnd2, hfree⟩ := hfr hfresh
    refine List.Nodup.append hnd hnd2 ?_
    intro b hb1 hb2
    simp only [List.mem_map, List.mem_range] at hb1
    obtain ⟨q, hq, rfl⟩ := hb1
    have h1 := hused q hq
    have h2 := (hfree _ hb2).1
    rw [h1] at h2
    exact Bool.noConfusion h2

/-! ## `jfs_write`: a failed write of a data block -/

theorem release_all_used : ∀ (bs : List Nat) (st : State) (b : Nat),
    (release_all st bs).2.used b =
      if b ∈ bs ∧ st.relfail b = false then false else st.used b := by
  intro bs
  induction bs with
  | nil => intro st b; simp [release_all]
  | cons x rest ih =>
    intro st b
    simp only [release_all]
    rw [ih]
    have henv := release_block_env st x
    rw [henv.2.2.2.2.1]
    by_cases hx : b = x
    · subst hx
      by_cases hr : st.relfail b = true
      · simp [release_block, hr]
      · have hr' : st.relfail b = false := by simpa using hr
        simp [release_block, hr', upd]
    · have : (release_block st x).2.used b = st.used b := by
        unfold release_block
        split
        · rfl
        · simp [upd, hx]
      rw [this]
      simp [hx]

theorem write_new_blocks_fail (all : List Nat) : ∀ (bs : List Nat) (blks : List Block)
    (st : State), bs.length ≤ blks.length → (∃ b ∈ bs, st.wfail b = true) →
    ∃ st2, same_env st st2 ∧ st2.used = st.used ∧
      (∀ b, b ∉ bs → st2.blocks b = st.blocks b) ∧
      write_new_blocks all bs blks st = (-1, (release_all st2 all).2) := by
  intro bs
  induction bs with
  | nil => intro blks st _ h; obtain ⟨b, hb, _⟩ := h; cases hb
  | cons x rest ih =>
    intro blks st hlen hf
    cases blks with
    | nil => simp at hlen
    | cons blk blks =>
      simp only [write_new_blocks]
      by_cases hx : st.wfail x = true
      · refine ⟨st, same_env_refl st, rfl, fun _ _ => rfl, ?_⟩
        simp [write_block, hx]
      · have hx' : st.wfail x = false := by simpa using hx
        have hrest : ∃ b ∈ rest, (write_block st x blk).2.wfail b = true := by
          obtain ⟨b, hb, hw⟩ := hf
          rcases List.mem_cons.1 hb with h | h
          · subst h; rw [hx'] at hw; cases hw
          · exact ⟨b, h, by rw [(write_block_env st x blk).2.2.2.1]; exact hw⟩
        obtain ⟨st2, e, hu, hb, hw⟩ := ih blks (write_block st x blk).2
          (by simpa using hlen) hrest
        refine ⟨st2, same_env_trans _ _ _ (write_block_env st x blk) e, ?_, ?_, ?_⟩
        · rw [hu, write_block_used]
        · intro b hbn
          rw [hb b (fun h => hbn (List.mem_cons_of_mem _ h))]
          simp only [write_block, hx', Bool.false_eq_true, if_false]
          exact upd_other _ _ _ _ (fun h => hbn (h ▸ List.mem_cons_self _ _))
        · simp only [write_block, hx', Bool.false_eq_true, if_false] at hw ⊢
          simpa using hw

theorem write_data_blocks_fail (cfg : Config) (st : State) (inode : Block) (buf : List Nat)
    (count : Nat) (new : List Nat)
    (halloc : (alloc_loop (ceil_div cfg (u32 (inode.file_size + count)) -
      ceil_div cfg inode.file_size) st []).1 = some new)
    (hread : inode.file_size < u32 (ceil_div cfg inode.file_size * cfg.BLOCK_SIZE) →
      st.rfail (inode.data_blocks (ceil_div cfg inode.file_size - 1)) = false)
    (hfail : (inode.file_size < u32 (ceil_div cfg inode.file_size * cfg.BLOCK_SIZE) ∧
        st.wfail (inode.data_blocks (ceil_div cfg inode.file_size - 1)) = true) ∨
      ∃ b ∈ new, st.wfail b = true) :
    (write_data_blocks cfg st inode buf count).1 = -1 ∧
    ∃ st2, same_env st st2 ∧ st2.used = mark st.used new true ∧
      (∀ b, b ∉ new →
        (inode.file_size < u32 (ceil_div cfg inode.file_size * cfg.BLOCK_SIZE) →
          b ≠ inode.data_blocks (ceil_div cfg inode.file_size - 1)) →
        st2.blocks b = st.blocks b) ∧
      (write_data_blocks cfg st inode buf count).2.2 = (release_all st2 new).2 := by
  have hal := alloc_loop_env (ceil_div cfg (u32 (inode.file_size + count)) -
        ceil_div cfg inode.file_size) st []
  obtain ⟨new', hl, hlen, hused, _⟩ := alloc_loop_some _ st [] new halloc
  simp only [List.nil_append] at hl
  subst hl
  have hpair : alloc_loop (ceil_div cfg (u32 (inode.file_size + count)) -
      ceil_div cfg inode.file_size) st [] =
      (some new, (alloc_loop (ceil_div cfg (u32 (inode.file_size + count)) -
        ceil_div cfg inode.file_size) st []).2) := by
    rw [← halloc]
  generalize (alloc_loop (ceil_div cfg (u32 (inode.file_size + count)) -
      ceil_div cfg inode.file_size) st []).2 = st1 at hpair hal hused
  obtain ⟨e1, hb1⟩ := hal
  have hflen := fill_new_blocks_length cfg buf
  unfold write_data_blocks
  simp only [hpair]
  by_cases hroom : inode.file_size < u32 (ceil_div cfg inode.file_size * cfg.BLOCK_SIZE)
  · have hr1 : st1.rfail (inode.data_blocks (ceil_div cfg inode.file_size - 1)) = false := by
      rw [e1.2.2.1]; exact hread hroom
    simp only [hroom, decide_True, if_true, read_block_ok st1 _ hr1]
    by_cases hwl : st.wfail (inode.data_blocks (ceil_div cfg inode.file_size - 1)) = true
    · have hw1 : st1.wfail (inode.data_blocks (ceil_div cfg inode.file_size - 1)) = true := by
        rw [e1.2.2.2.1]; exact hwl
      have hres : ∀ blk, write_block st1
          (inode.data_blocks (ceil_div cfg inode.file_size - 1)) blk = (-1, st1) := by
        intro blk; simp [write_block, hw1]
      by_cases hbl : u32 (ceil_div cfg inode.file_size * cfg.BLOCK_SIZE) - inode.file_size >
          count <;>
        simp only [hbl, if_true, if_false, hres] <;>
        exact ⟨trivial, st1, e1, hused, fun b _ _ => by rw [hb1], rfl⟩
    · have hwl' : st.wfail (inode.data_blocks (ceil_div cfg inode.file_size - 1)) = false := by
        simpa using hwl
      have hw1 : st1.wfail (inode.data_blocks (ceil_div cfg inode.file_size - 1)) = false := by
        rw [e1.2.2.2.1]; exact hwl'
      have hnew : ∃ b ∈ new, st.wfail b = true := by
        rcases hfail with h | h
        · exact absurd h.2 hwl
        · exact h
      have key : ∀ (blk : Block) (blks : List Block), new.length ≤ blks.length →
          (write_new_blocks new new blks (write_block st1
              (inode.data_blocks (ceil_div cfg inode.file_size - 1)) blk).2).1 = -1 ∧
          ∃ st2, same_env st st2 ∧ st2.used = mark st.used new true ∧
            (∀ b, b ∉ new →
              (True → b ≠ inode.data_blocks (ceil_div cfg inode.file_size - 1)) →
              st2.blocks b = st.blocks b) ∧
            (write_new_blocks new new blks (write_block st1
              (inode.data_blocks (ceil_div cfg inode.file_size - 1)) blk).2).2 =
              (release_all st2 new).2 := by
        intro blk blks hlen2
        have ew := write_block_env st1
          (inode.data_blocks (ceil_div cfg inode.file_size - 1)) blk
        obtain ⟨st2, e2, hu2, hbk, hw⟩ := write_new_blocks_fail new new blks
          (write_block st1 (inode.data_blocks (ceil_div cfg inode.file_size - 1)) blk).2
          hlen2 (by
            obtain ⟨b, hb, hw⟩ := hnew
            exact ⟨b, hb, by rw [ew.2.2.2.1, e1.2.2.2.1]; exact hw⟩)
        rw [hw]
        refine ⟨rfl, st2, same_env_trans _ _ _ (same_env_trans _ _ _ e1 ew) e2, ?_, ?_, rfl⟩
        · rw [hu2, write_block_used, hused]
        · intro b hbn hbl
          have hbl := hbl trivial
          rw [hbk b hbn]
          simp only [write_block, hw1, Bool.false_eq_true, if_false]
          rw [upd_other _ _ _ _ hbl, hb1]
      have h01 : ((0 : Int) = -1) = False := by simp
      have hres : ∀ blk, (write_block st1
          (inode.data_blocks (ceil_div cfg inode.file_size - 1)) blk).1 = 0 := by
        intro blk; simp [write_block, hw1]
      by_cases hbl : u32 (ceil_div cfg inode.file_size * cfg.BLOCK_SIZE) - inode.file_size >
          count <;>
        simp only [hbl, if_true, if_false, hres, h01] <;>
        (refine key _ _ (le_of_eq ?_); rw [hflen, hlen])
  · have hnew : ∃ b ∈ new, st.wfail b = true := by
      rcases hfail with h | h
      · exact absurd h.1 hroom
      · exact h
    simp only [hroom, decide_False, Bool.false_eq_true, if_false]
    obtain ⟨st2, e2, hu2, hbk, hw⟩ := write_new_blocks_fail new new
      (fill_new_blocks cfg buf (ceil_div cfg (u32 (inode.file_size + count)) -
        ceil_div cfg inode.file_size) 0 count) st1 (le_of_eq (by rw [hflen, hlen]))
      (by
        obtain ⟨b, hb, hw⟩ := hnew
        exact ⟨b, hb, by rw [e1.2.2.2.1]; exact hw⟩)
    simp only [hw]
    refine ⟨by simp, st2, same_env_trans _ _ _ e1 e2, by rw [hu2, hused], ?_, by simp⟩
    intro b hb _
    rw [hbk b hb, hb1]

/-- Claim C19: in `jfs_write` on an existing file within the size limit, when the
allocation loop succeeds with the blocks `new` and `write_block` fails on the last
data block (which had room) or on a block of `new`, the call returns `E_UNKNOWN`;
`release_block` has been applied to every block of `new`, so each of them whose
release does not fail is free and no other block changes its allocation status (with
a fresh allocator and no failing release, the allocation status is the one from before
the call); only blocks of `new` and the last data block can have been written, so the
inode block on disk, when it is in use and is not that last data block, is the one
from before the call. -/
theorem failed_data_write_rolls_back (cfg : Config) (st : State) (name buf : List Nat)
    (count i : Nat) (new : List Nat)
    (hc : st.rfail st.current_dir = false)
    (hi : resolves (cur_dir st) name i)
    (ht : st.rfail ((cur_dir st).entries i).block_num = false)
    (hd : (st.blocks ((cur_dir st).entries i).block_num).is_dir ≠ 0)
    (hs : u32 ((st.blocks ((cur_dir st).entries i).block_num).file_size + count) ≤ cfg.MAX_FILE_SIZE)
    (halloc : (alloc_loop (ceil_div cfg (u32 ((st.blocks ((cur_dir st).entries i).block_num).file_size + count)) - ceil_div cfg (st.blocks ((cur_dir st).entries i).block_num).file_size) st []).1 = some new)
    (hread : (st.blocks ((cur_dir st).entries i).block_num).file_size < u32 (ceil_div cfg (st.blocks ((cur_dir st).entries i).block_num).file_size * cfg.BLOCK_SIZE) →
      st.rfail ((st.blocks ((cur_dir st).entries i).block_num).data_blocks (ceil_div cfg (st.blocks ((cur_dir st).entries i).block_num).file_size - 1)) = false)
    (hfail : ((st.blocks ((cur_dir st).entries i).block_num).file_size < u32 (ceil_div cfg (st.blocks ((cur_dir st).entries i).block_num).file_size * cfg.BLOCK_SIZE) ∧
        st.wfail ((st.blocks ((cur_dir st).entries i).block_num).data_blocks (ceil_div cfg (st.blocks ((cur_dir st).entries i).block_num).file_size - 1)) = true) ∨
      ∃ b ∈ new, st.wfail b = true) :
    (jfs_write cfg st name buf count).1 = Status.E_UNKNOWN ∧
    same_env st (jfs_write cfg st name buf count).2 ∧
    (∀ b ∈ new, st.relfail b = false → (jfs_write cfg st name buf count).2.used b = false) ∧
    (∀ b, b ∉ new → (jfs_write cfg st name buf count).2.used b = st.used b) ∧
    (fresh_alloc st → (∀ b ∈ new, st.relfail b = false) → (jfs_write cfg st name buf count).2.used = st.used) ∧
    (∀ b, b ∉ new →
      ((st.blocks ((cur_dir st).entries i).block_num).file_size < u32 (ceil_div cfg (st.blocks ((cur_dir st).entries i).block_num).file_size * cfg.BLOCK_SIZE) →
        b ≠ (st.blocks ((cur_dir st).entries i).block_num).data_blocks (ceil_div cfg (st.blocks ((cur_dir st).entries i).block_num).file_size - 1)) →
      (jfs_write cfg st name buf count).2.blocks b = st.blocks b) ∧
    (fresh_alloc st → st.used ((cur_dir st).entries i).block_num = true →
      ((st.blocks ((cur_dir st).entries i).block_num).file_size < u32 (ceil_div cfg (st.blocks ((cur_dir st).entries i).block_num).file_size * cfg.BLOCK_SIZE) →
        ((cur_dir st).entries i).block_num ≠ (st.blocks ((cur_dir st).entries i).block_num).data_blocks (ceil_div cfg (st.blocks ((cur_dir st).entries i).block_num).file_size - 1)) →
      (jfs_write cfg st name buf count).2.blocks ((cur_dir st).entries i).block_num = st.blocks ((cur_dir st).entries i).block_num) := by
  have hc' : st.rfail st.current_dir = false := hc
  have ht' : st.rfail ((st.blocks st.current_dir).entries i).block_num = false := ht
  obtain ⟨h1, st2, e2, hu2, hb2, hst⟩ := write_data_blocks_fail cfg st
    (st.blocks ((cur_dir st).entries i).block_num) buf count new halloc hread hfail
  obtain ⟨new2, hl, _, _, hfr⟩ := alloc_loop_some _ st [] new halloc
  simp only [List.nil_append] at hl
  subst hl
  have hres : jfs_write cfg st name buf count =
      (Status.E_UNKNOWN, (release_all st2 new).2) := by
    rw [jfs_write_resolved cfg st name i buf count hc' ht' hi hd, if_neg (by omega), h1, hst]
    simp
  rw [hres]
  obtain ⟨er, hbr⟩ := release_all_env new st2
  have hused : ∀ b, (release_all st2 new).2.used b =
      if b ∈ new ∧ st.relfail b = false then false else mark st.used new true b := by
    intro b
    rw [release_all_used, e2.2.2.2.2.1, hu2]
  have hnotin : ∀ b, b ∉ new → (release_all st2 new).2.used b = st.used b := by
    intro b hb
    rw [hused]
    simp [hb, mark]
  have hin : ∀ b ∈ new, st.relfail b = false → (release_all st2 new).2.used b = false := by
    intro b hb hr
    rw [hused]
    simp [hb, hr]
  have hblocks : ∀ b, b ∉ new →
      ((st.blocks ((cur_dir st).entries i).block_num).file_size < u32 (ceil_div cfg (st.blocks ((cur_dir st).entries i).block_num).file_size * cfg.BLOCK_SIZE) →
        b ≠ (st.blocks ((cur_dir st).entries i).block_num).data_blocks (ceil_div cfg (st.blocks ((cur_dir st).entries i).block_num).file_size - 1)) →
      (release_all st2 new).2.blocks b = st.blocks b := by
    intro b hb hl
    rw [hbr]
    exact hb2 b hb hl
  refine ⟨rfl, same_env_trans _ _ _ e2 er, hin, hnotin, ?_, hblocks, ?_⟩
  · intro hfresh hrel
    funext b
    by_cases hb : b ∈ new
    · rw [hin b hb (hrel b hb), ((hfr hfresh).2 b hb).1]
    · exact hnotin b hb
  · intro hfresh hut hl
    refine hblocks _ ?_ hl
    intro hb
    have := ((hfr hfresh).2 _ hb).1
    rw [hut] at this
    exact Bool.noConfusion this

/-! ## `jfs_rmdir` and `jfs_remove`: a failure after or at the release of the target -/

theorem remove_directory_entry_release_fails (st : State) (cur_block : Block) (i : Nat)
    (hrel : st.relfail (cur_block.entries i).block_num = true) :
    remove_directory_entry st cur_block (i : Int) = (0, cur_block, st) := by
  simp [remove_directory_entry, release_block, hrel]

theorem remove_directory_entry_write_fails (st : State) (cur_block : Block) (i : Nat)
    (hrel : st.relfail (cur_block.entries i).block_num = false)
    (hw : st.wfail st.current_dir = true) :
    (remove_directory_entry st cur_block (i : Int)).1 = 0 ∧
    (remove_directory_entry st cur_block (i : Int)).2.2.used =
      upd st.used (cur_block.entries i).block_num false ∧
    (remove_directory_entry st cur_block (i : Int)).2.2.blocks st.current_dir =
      st.blocks st.current_dir ∧
    (∀ b, b ≠ (cur_block.entries i).block_num →
      (remove_directory_entry st cur_block (i : Int)).2.2.blocks b = st.blocks b) := by
  by_cases ht : st.wfail (cur_block.entries i).block_num = true
  · simp [remove_directory_entry, release_block, hrel, write_block, hw, ht]
  · have ht' : st.wfail (cur_block.entries i).block_num = false := by simpa using ht
    have hne : st.current_dir ≠ (cur_block.entries i).block_num := by
      intro h; rw [h] at hw; rw [hw] at ht'; cases ht'
    simp only [remove_directory_entry, release_block, hrel, write_block, hw, ht',
      Int.toNat_ofNat, Bool.false_eq_true, if_false, if_true]
    refine ⟨by simp, rfl, upd_other _ _ _ _ hne, fun b hb => upd_other _ _ _ _ hb⟩

theorem release_data_loop_pointwise (inode : Block) (n : Nat) :
    ∀ (i : Nat) (st : State),
      (∀ j, j < n → st.relfail (inode.data_blocks (i + j)) = false) →
      (release_data_loop inode n i st).1 = 0 ∧
      (release_data_loop inode n i st).2.blocks = st.blocks := by
  induction n with
  | zero => intro i st _; simp [release_data_loop]
  | succ n ih =>
    intro i st h
    have h0 : st.relfail (inode.data_blocks i) = false := by simpa using h 0 (by omega)
    have hnext : ∀ j, j < n →
        (release_block st (inode.data_blocks i)).2.relfail
          (inode.data_blocks (i + 1 + j)) = false := by
      intro j hj
      rw [(release_block_env st _).2.2.2.2.1]
      have := h (j + 1) (by omega)
      rwa [show i + (j + 1) = i + 1 + j by omega] at this
    obtain ⟨r1, r2⟩ := ih (i + 1) (release_block st (inode.data_blocks i)).2 hnext
    have hr : (release_block st (inode.data_blocks i)).1 = 0 := by
      simp [release_block, h0]
    simp only [release_data_loop, hr]
    refine ⟨by simpa using r1, ?_⟩
    simp only [show ((0 : Int) = -1) = False by simp, if_false]
    rw [r2, release_block_blocks]

theorem release_phase_pointwise (cfg : Config) (st : State) (inode : Block)
    (h : ∀ q, q < ceil_div cfg inode.file_size → st.relfail (inode.data_blocks q) = false) :
    (if inode.file_size ≠ 0 then release_data_blocks cfg st inode else (0, st)).1 = 0 ∧
    same_env st (if inode.file_size ≠ 0 then release_data_blocks cfg st inode else (0, st)).2 ∧
    (if inode.file_size ≠ 0 then release_data_blocks cfg st inode else (0, st)).2.blocks
      = st.blocks := by
  by_cases h0 : inode.file_size = 0
  · simp [h0, same_env_refl]
  · obtain ⟨r1, r2⟩ := release_data_loop_pointwise inode (ceil_div cfg inode.file_size) 0 st
      (fun j hj => by simpa using h j hj)
    simp only [ne_eq, h0, not_false_eq_true, if_true, release_data_blocks]
    exact ⟨r1, (release_data_loop_env inode _ 0 st).1, r2⟩

/-- Claim C20: `jfs_rmdir` on an empty directory and `jfs_remove` on a file whose
data blocks can be released. When `release_block` on the target succeeds and the
write of the current directory fails, the call returns `E_UNKNOWN`, the target block
is free afterwards, and the current directory on disk is the one from before the
call, so it still holds the entry for the name, pointing at the freed block. When
`release_block` on the target fails, the call returns `E_UNKNOWN` and no block of the
disk has changed (for `jfs_rmdir` the whole state is the one from before the call). -/
theorem asymmetric_rollback (cfg : Config) (st : State) (name : List Nat) (i : Nat)
    (hc : st.rfail st.current_dir = false)
    (ht : st.rfail ((cur_dir st).entries i).block_num = false)
    (hi : resolves (cur_dir st) name i) :
    ((st.blocks ((cur_dir st).entries i).block_num).is_dir = 0 →
      (st.blocks ((cur_dir st).entries i).block_num).num_entries = 0 →
      (st.relfail ((cur_dir st).entries i).block_num = false → st.wfail st.current_dir = true →
        (jfs_rmdir st name).1 = Status.E_UNKNOWN ∧
        (jfs_rmdir st name).2.used ((cur_dir st).entries i).block_num = false ∧
        cur_dir (jfs_rmdir st name).2 = cur_dir st ∧
        resolves (cur_dir (jfs_rmdir st name).2) name i) ∧
      (st.relfail ((cur_dir st).entries i).block_num = true →
        jfs_rmdir st name = (Status.E_UNKNOWN, st))) ∧
    ((st.blocks ((cur_dir st).entries i).block_num).is_dir ≠ 0 →
      (∀ q, q < ceil_div cfg (st.blocks ((cur_dir st).entries i).block_num).file_size →
        st.relfail ((st.blocks ((cur_dir st).entries i).block_num).data_blocks q) = false) →
      (st.relfail ((cur_dir st).entries i).block_num = false → st.wfail st.current_dir = true →
        (jfs_remove cfg st name).1 = Status.E_UNKNOWN ∧
        (jfs_remove cfg st name).2.used ((cur_dir st).entries i).block_num = false ∧
        cur_dir (jfs_remove cfg st name).2 = cur_dir st ∧
        resolves (cur_dir (jfs_remove cfg st name).2) name i) ∧
      (st.relfail ((cur_dir st).entries i).block_num = true →
        (jfs_remove cfg st name).1 = Status.E_UNKNOWN ∧
        (jfs_remove cfg st name).2.blocks = st.blocks)) := by
  have ht' : st.rfail ((st.blocks st.current_dir).entries i).block_num = false := ht
  refine ⟨fun hd he => ⟨fun hrel hw => ?_, fun hrel => ?_⟩,
    fun hd hdata => ⟨fun hrel hw => ?_, fun hrel => ?_⟩⟩
  · obtain ⟨r1, r2, r3, _⟩ := remove_directory_entry_write_fails st (cur_dir st) i hrel hw
    have hres : jfs_rmdir st name =
        (Status.E_UNKNOWN, (remove_directory_entry st (cur_dir st) (i : Int)).2.2) := by
      rw [jfs_rmdir_resolved st name i hc ht' hi, if_pos hd, if_neg (by omega), if_pos r1]
    have hcur : cur_dir (remove_directory_entry st (cur_dir st) (i : Int)).2.2 = cur_dir st := by
      show (remove_directory_entry st (cur_dir st) (i : Int)).2.2.blocks
        (remove_directory_entry st (cur_dir st) (i : Int)).2.2.current_dir =
          st.blocks st.current_dir
      rw [(remove_directory_entry_env st (cur_dir st) (i : Int)).1, r3]
    rw [hres]
    refine ⟨rfl, ?_, hcur, ?_⟩
    · show (remove_directory_entry st (cur_dir st) (i : Int)).2.2.used _ = false
      rw [r2]
      exact upd_same _ _ _
    · show resolves (cur_dir (remove_directory_entry st (cur_dir st) (i : Int)).2.2) name i
      rw [hcur]
      exact hi
  · rw [jfs_rmdir_resolved st name i hc ht' hi, if_pos hd, if_neg (by omega),
      remove_directory_entry_release_fails st (cur_dir st) i hrel]
    simp
  · obtain ⟨p1, p2, p3⟩ := release_phase_pointwise cfg st
      (st.blocks ((cur_dir st).entries i).block_num) hdata
    generalize hst1 : (if (st.blocks ((cur_dir st).entries i).block_num).file_size ≠ 0 then
      release_data_blocks cfg st (st.blocks ((cur_dir st).entries i).block_num)
      else (0, st)) = rel at p1 p2 p3
    obtain ⟨r1, r2, r3, _⟩ := remove_directory_entry_write_fails rel.2 (cur_dir st) i
      (show _ = false by rw [p2.2.2.2.2.1]; exact hrel)
      (show _ = true by rw [p2.2.2.2.1, p2.1]; exact hw)
    have hres : jfs_remove cfg st name =
        (Status.E_UNKNOWN, (remove_directory_entry rel.2 (cur_dir st) (i : Int)).2.2) := by
      rw [jfs_remove_resolved cfg st name i hc ht' hi, if_neg hd, hst1,
        if_neg (by rw [p1]; simp), if_pos r1]
    have hcur : cur_dir (remove_directory_entry rel.2 (cur_dir st) (i : Int)).2.2 =
        cur_dir st := by
      show (remove_directory_entry rel.2 (cur_dir st) (i : Int)).2.2.blocks
        (remove_directory_entry rel.2 (cur_dir st) (i : Int)).2.2.current_dir =
          st.blocks st.current_dir
      rw [(remove_directory_entry_env rel.2 (cur_dir st) (i : Int)).1, r3, p3, p2.1]
    rw [hres]
    refine ⟨rfl, ?_, hcur, ?_⟩
    · show (remove_directory_entry rel.2 (cur_dir st) (i : Int)).2.2.used _ = false
      rw [r2]
      exact upd_same _ _ _
    · show resolves (cur_dir (remove_directory_entry rel.2 (cur_dir st) (i : Int)).2.2) name i
      rw [hcur]
      exact hi
  · obtain ⟨p1, p2, p3⟩ := release_phase_pointwise cfg st
      (st.blocks ((cur_dir st).entries i).block_num) hdata
    generalize hst1 : (if (st.blocks ((cur_dir st).entries i).block_num).file_size ≠ 0 then
      release_data_blocks cfg st (st.blocks ((cur_dir st).entries i).block_num)
      else (0, st)) = rel at p1 p2 p3
    rw [jfs_remove_resolved cfg st name i hc ht' hi, if_neg hd, hst1,
      if_neg (by rw [p1]; simp),
      remove_directory_entry_release_fails rel.2 (cur_dir st) i
        (show _ = true by rw [p2.2.2.2.2.1]; exact hrel)]
    simp only [if_true]
    exact ⟨trivial, p3⟩

/-! ## `release_data_blocks`: the first failing release -/

theorem ceil_div_zero (cfg : Config) : ceil_div cfg 0 = 0 := by
  unfold ceil_div u32
  rcases Nat.eq_zero_or_pos cfg.BLOCK_SIZE with h | h
  · simp [h]
  · apply Nat.div_eq_of_lt
    simp only [Nat.zero_add]
    exact lt_of_le_of_lt (Nat.mod_le _ _) (by omega)

theorem range_succ_map_shift (f : Nat → Nat) (i j : Nat) :
    (List.range (j + 1)).map (fun k => f (i + k)) =
      f i :: (List.range j).map (fun k => f (i + 1 + k)) := by
  rw [List.range_succ_eq_map, List.map_cons, List.map_map]
  simp only [Nat.add_zero, List.cons.injEq, true_and]
  apply List.map_congr_left
  intro k _
  simp only [Function.comp, Nat.succ_eq_add_one]
  congr 1
  omega

theorem release_data_loop_stops (inode : Block) :
    ∀ (j n i : Nat) (st : State), j < n →
      (∀ k, k < j → st.relfail (inode.data_blocks (i + k)) = false) →
      st.relfail (inode.data_blocks (i + j)) = true →
      (release_data_loop inode n i st).1 = -1 ∧
      (release_data_loop inode n i st).2.blocks = st.blocks ∧
      (release_data_loop inode n i st).2.used =
        mark st.used ((List.range j).map (fun k => inode.data_blocks (i + k))) false := by
  intro j
  induction j with
  | zero =>
    intro n i st hn _ hf
    obtain ⟨n, rfl⟩ : ∃ m, n = m + 1 := ⟨n - 1, by omega⟩
    have hf' : st.relfail (inode.data_blocks i) = true := by simpa using hf
    simp [release_data_loop, release_block, hf', mark_nil]
  | succ j ih =>
    intro n i st hn hok hf
    obtain ⟨n, rfl⟩ : ∃ m, n = m + 1 := ⟨n - 1, by omega⟩
    have h0 : st.relfail (inode.data_blocks i) = false := by simpa using hok 0 (by omega)
    have henv := release_block_env st (inode.data_blocks i)
    obtain ⟨r1, r2, r3⟩ := ih n (i + 1) (release_block st (inode.data_blocks i)).2 (by omega)
      (fun k hk => by
        rw [henv.2.2.2.2.1]
        have := hok (k + 1) (by omega)
        rwa [show i + (k + 1) = i + 1 + k by omega] at this)
      (by
        rw [henv.2.2.2.2.1]
        rwa [show i + (j + 1) = i + 1 + j by omega] at hf)
    have hr : (release_block st (inode.data_blocks i)).1 = 0 := by
      simp [release_block, h0]
    simp only [release_data_loop, hr, show ((0 : Int) = -1) = False by simp, if_false]
    refine ⟨r1, ?_, ?_⟩
    · rw [r2, release_block_blocks]
    · rw [r3, release_block_ok st _ h0, range_succ_map_shift]
      exact mark_upd _ _ _ _

/-- Claim C21: `release_data_blocks` on an inode whose releases succeed at the indices
before `j` and fail at index `j < ceil(file_size / BLOCK_SIZE)` reports failure; the
blocks `data_blocks[0 .. j)` are free afterwards, no other block changes its allocation
status and no disk block changes. In `jfs_remove` on a file with this inode the call
returns that failure code (`-1`) with the state in which `release_data_blocks` stopped,
`remove_directory_entry` not being called: the current directory on disk still
resolves the name and the inode block is the one from before the call. -/
theorem release_stops_at_first_failure (cfg : Config) (st : State) (inode : Block) (j : Nat)
    (hj : j < ceil_div cfg inode.file_size)
    (hok : ∀ k, k < j → st.relfail (inode.data_blocks k) = false)
    (hfail : st.relfail (inode.data_blocks j) = true) :
    (release_data_blocks cfg st inode).1 = -1 ∧
    (release_data_blocks cfg st inode).2.blocks = st.blocks ∧
    (release_data_blocks cfg st inode).2.used =
      mark st.used ((List.range j).map inode.data_blocks) false ∧
    (∀ k, k < j → (release_data_blocks cfg st inode).2.used (inode.data_blocks k) = false) ∧
    (∀ b, (∀ k, k < j → b ≠ inode.data_blocks k) →
      (release_data_blocks cfg st inode).2.used b = st.used b) ∧
    (∀ (name : List Nat) (i : Nat),
      st.rfail st.current_dir = false →
      st.rfail ((cur_dir st).entries i).block_num = false →
      resolves (cur_dir st) name i →
      st.blocks ((cur_dir st).entries i).block_num = inode →
      inode.is_dir ≠ 0 →
      jfs_remove cfg st name = (Status.minus_one, (release_data_blocks cfg st inode).2) ∧
      cur_dir (jfs_remove cfg st name).2 = cur_dir st ∧
      resolves (cur_dir (jfs_remove cfg st name).2) name i ∧
      (jfs_remove cfg st name).2.blocks ((cur_dir st).entries i).block_num = inode) := by
  obtain ⟨r1, r2, r3⟩ := release_data_loop_stops inode j (ceil_div cfg inode.file_size) 0 st hj
    (fun k hk => by simpa using hok k hk) (by simpa using hfail)
  simp only [Nat.zero_add] at r3
  have r3' : (release_data_blocks cfg st inode).2.used =
      mark st.used ((List.range j).map inode.data_blocks) false := r3
  have r2' : (release_data_blocks cfg st inode).2.blocks = st.blocks := r2
  have henv : same_env st (release_data_blocks cfg st inode).2 :=
    (release_data_loop_env inode _ 0 st).1
  refine ⟨r1, r2', r3', ?_, ?_, ?_⟩
  · intro k hk
    rw [r3']
    simp only [mark]
    rw [if_pos (List.mem_map.2 ⟨k, List.mem_range.2 hk, rfl⟩)]
  · intro b hb
    rw [r3']
    simp only [mark]
    rw [if_neg]
    intro hmem
    obtain ⟨k, hk, hkb⟩ := List.mem_map.1 hmem
    exact hb k (List.mem_range.1 hk) hkb.symm
  · intro name i hc ht hi hino hd
    have hs : inode.file_size ≠ 0 := by
      intro h0
      rw [h0, ceil_div_zero] at hj
      omega
    have hres : jfs_remove cfg st name =
        (Status.minus_one, (release_data_blocks cfg st inode).2) := by
      rw [jfs_remove_resolved cfg st name i hc ht hi, hino, if_neg hd, if_pos hs,
        if_pos (by rw [show (release_data_blocks cfg st inode).1 = -1 from r1]; decide)]
    have hcur : cur_dir (release_data_blocks cfg st inode).2 = cur_dir st := by
      show (release_data_blocks cfg st inode).2.blocks
        (release_data_blocks cfg st inode).2.current_dir = st.blocks st.current_dir
      rw [henv.1, r2']
    rw [hres]
    refine ⟨rfl, hcur, ?_, ?_⟩
    · show resolves (cur_dir (release_data_blocks cfg st inode).2) name i
      rw [hcur]; exact hi
    · show (release_data_blocks cfg st inode).2.blocks _ = inode
      rw [r2']; exact hino

/-! ## The order of the checks in `jfs_mkdir` and `jfs_creat` -/

theorem create_entry_status (st : State) (cur_block : Block) (name : List Nat) (tag : Nat) :
    (create_entry st cur_block name tag).1 ∈
      [Status.E_SUCCESS, Status.E_UNKNOWN, Status.E_DISK_FULL] := by
  unfold create_entry
  (repeat' first | split | dsimp only) <;> simp

/-- The order of the checks of `jfs_mkdir` (`tag = 0`) and `jfs_creat` (`tag = 1`):
each rejection code is returned exactly when the earlier checks pass and its own check
fails, and a rejection returns the state as it was. -/
theorem create_checked_precedence (cfg : Config) (st : State) (name : List Nat) (tag : Nat) :
    ((create_checked cfg st name tag).1 = Status.E_MAX_NAME_LENGTH ↔
      name.length > cfg.MAX_NAME_LENGTH) ∧
    ((create_checked cfg st name tag).1 = Status.E_MAX_DIR_ENTRIES ↔
      name.length ≤ cfg.MAX_NAME_LENGTH ∧ st.rfail st.current_dir = false ∧
        cfg.MAX_DIR_ENTRIES ≤ (cur_dir st).num_entries) ∧
    ((create_checked cfg st name tag).1 = Status.E_EXISTS ↔
      name.length ≤ cfg.MAX_NAME_LENGTH ∧ st.rfail st.current_dir = false ∧
        (cur_dir st).num_entries < cfg.MAX_DIR_ENTRIES ∧ ¬ absent (cur_dir st) name) := by
  have hce := create_entry_status st (cur_dir st) name tag
  by_cases hlen : name.length > cfg.MAX_NAME_LENGTH
  · have h : create_checked cfg st name tag = (Status.E_MAX_NAME_LENGTH, st) := by
      simp [create_checked, hlen]
    rw [h]
    refine ⟨by simp [hlen], ?_, ?_⟩
    · constructor
      · intro h; cases h
      · intro h; omega
    · constructor
      · intro h; cases h
      · intro h; omega
  · have hlen2 : name.length ≤ cfg.MAX_NAME_LENGTH := Nat.not_lt.mp hlen
    by_cases hc : st.rfail st.current_dir = true
    · have h : create_checked cfg st name tag = (Status.minus_one, st) := by
        simp [create_checked, hlen, read_block, hc]
      rw [h]
      refine ⟨?_, ?_, ?_⟩
      · constructor
        · intro h; cases h
        · intro h; exact absurd h hlen
      · constructor
        · intro h; cases h
        · intro h; rw [h.2.1] at hc; cases hc
      · constructor
        · intro h; cases h
        · intro h; rw [h.2.1] at hc; cases hc
    · have hc2 : st.rfail st.current_dir = false := by simpa using hc
      by_cases hfull : cfg.MAX_DIR_ENTRIES ≤ (cur_dir st).num_entries
      · have h : create_checked cfg st name tag = (Status.E_MAX_DIR_ENTRIES, st) := by
          unfold cur_dir at hfull
          simp [create_checked, hlen, read_block_ok st _ hc2, hfull]
        rw [h]
        refine ⟨?_, ?_, ?_⟩
        · constructor
          · intro h; cases h
          · intro h; exact absurd h hlen
        · exact ⟨fun _ => ⟨hlen2, hc2, hfull⟩, fun _ => rfl⟩
        · constructor
          · intro h; cases h
          · intro h; omega
      · have hroom : (cur_dir st).num_entries < cfg.MAX_DIR_ENTRIES := Nat.not_le.mp hfull
        by_cases habs : absent (cur_dir st) name
        · have h : create_checked cfg st name tag = create_entry st (cur_dir st) name tag := by
            have hs := (scan_absent (cur_dir st) name).mpr habs
            unfold cur_dir at hs hfull
            simp [create_checked, hlen, read_block_ok st _ hc2, hfull, hs, cur_dir]
          rw [h]
          refine ⟨?_, ?_, ?_⟩
          · constructor
            · intro h; rw [h] at hce; simp at hce
            · intro h; exact absurd h hlen
          · constructor
            · intro h; rw [h] at hce; simp at hce
            · intro h; omega
          · constructor
            · intro h; rw [h] at hce; simp at hce
            · intro h; exact absurd habs h.2.2.2
        · have h : create_checked cfg st name tag = (Status.E_EXISTS, st) := by
            have hs : ¬ name_scan (cur_dir st).entries name (cur_dir st).num_entries 0 = -1 :=
              fun h => habs ((scan_absent _ _).mp h)
            unfold cur_dir at hs hfull
            simp [create_checked, hlen, read_block_ok st _ hc2, hfull, hs]
          rw [h]
          refine ⟨?_, ?_, ?_⟩
          · constructor
            · intro h; cases h
            · intro h; exact absurd h hlen
          · constructor
            · intro h; cases h
            · intro h; omega
          · exact ⟨fun _ => ⟨hlen2, hc2, hroom, habs⟩, fun _ => rfl⟩

/-- Claim C22: the order of the checks in `jfs_mkdir` and `jfs_creat`. Each returns
`E_MAX_NAME_LENGTH` exactly when the name is longer than `MAX_NAME_LENGTH`;
`E_MAX_DIR_ENTRIES` exactly when the name is short enough, the current directory is
read and it holds at least `MAX_DIR_ENTRIES` entries; `E_EXISTS` exactly when the name
is short enough, the directory is read, it is not full and it holds the name. So a
name that is too long yields `E_MAX_NAME_LENGTH` also in a full directory, and an
existing name in a full directory yields `E_MAX_DIR_ENTRIES`, not `E_EXISTS`. -/
theorem creation_error_precedence (cfg : Config) (st : State) (name : List Nat) :
    ((jfs_mkdir cfg st name).1 = Status.E_MAX_NAME_LENGTH ↔
      name.length > cfg.MAX_NAME_LENGTH) ∧
    ((jfs_mkdir cfg st name).1 = Status.E_MAX_DIR_ENTRIES ↔
      name.length ≤ cfg.MAX_NAME_LENGTH ∧ st.rfail st.current_dir = false ∧
        cfg.MAX_DIR_ENTRIES ≤ (cur_dir st).num_entries) ∧
    ((jfs_mkdir cfg st name).1 = Status.E_EXISTS ↔
      name.length ≤ cfg.MAX_NAME_LENGTH ∧ st.rfail st.current_dir = false ∧
        (cur_dir st).num_entries < cfg.MAX_DIR_ENTRIES ∧ ¬ absent (cur_dir st) name) ∧
    ((jfs_creat cfg st name).1 = Status.E_MAX_NAME_LENGTH ↔
      name.length > cfg.MAX_NAME_LENGTH) ∧
    ((jfs_creat cfg st name).1 = Status.E_MAX_DIR_ENTRIES ↔
      name.length ≤ cfg.MAX_NAME_LENGTH ∧ st.rfail st.current_dir = false ∧
        cfg.MAX_DIR_ENTRIES ≤ (cur_dir st).num_entries) ∧
    ((jfs_creat cfg st name).1 = Status.E_EXISTS ↔
      name.length ≤ cfg.MAX_NAME_LENGTH ∧ st.rfail st.current_dir = false ∧
        (cur_dir st).num_entries < cfg.MAX_DIR_ENTRIES ∧ ¬ absent (cur_dir st) name) ∧
    (name.length > cfg.MAX_NAME_LENGTH → cfg.MAX_DIR_ENTRIES ≤ (cur_dir st).num_entries →
      (jfs_mkdir cfg st name).1 = Status.E_MAX_NAME_LENGTH ∧
      (jfs_creat cfg st name).1 = Status.E_MAX_NAME_LENGTH) ∧
    (name.length ≤ cfg.MAX_NAME_LENGTH → st.rfail st.current_dir = false →
      cfg.MAX_DIR_ENTRIES ≤ (cur_dir st).num_entries → ¬ absent (cur_dir st) name →
      (jfs_mkdir cfg st name).1 = Status.E_MAX_DIR_ENTRIES ∧
      (jfs_creat cfg st name).1 = Status.E_MAX_DIR_ENTRIES) := by
  have hm := create_checked_precedence cfg st name 0
  have hc := create_checked_precedence cfg st name 1
  rw [← jfs_mkdir_eq] at hm
  rw [← jfs_creat_eq] at hc
  refine ⟨hm.1, hm.2.1, hm.2.2, hc.1, hc.2.1, hc.2.2, ?_, ?_⟩
  · intro hlen _
    exact ⟨hm.1.2 hlen, hc.1.2 hlen⟩
  · intro hlen hr hfull _
    exact ⟨hm.2.1.2 ⟨hlen, hr, hfull⟩, hc.2.1.2 ⟨hlen, hr, hfull⟩⟩

/-! ## A failed read in `is_dir` -/

theorem write_data_blocks_read_fails (cfg : Config) (st : State) (inode : Block)
    (buf : List Nat) (count : Nat) (new : List Nat)
    (halloc : (alloc_loop (ceil_div cfg (u32 (inode.file_size + count)) -
      ceil_div cfg inode.file_size) st []).1 = some new)
    (hroom : inode.file_size < u32 (ceil_div cfg inode.file_size * cfg.BLOCK_SIZE))
    (hfail : st.rfail (inode.data_blocks (ceil_div cfg inode.file_size - 1)) = true) :
    write_data_blocks cfg st inode buf count =
      (-1, inode, (alloc_loop (ceil_div cfg (u32 (inode.file_size + count)) -
        ceil_div cfg inode.file_size) st []).2) := by
  have hal := alloc_loop_env (ceil_div cfg (u32 (inode.file_size + count)) -
        ceil_div cfg inode.file_size) st []
  have hpair : alloc_loop (ceil_div cfg (u32 (inode.file_size + count)) -
      ceil_div cfg inode.file_size) st [] =
      (some new, (alloc_loop (ceil_div cfg (u32 (inode.file_size + count)) -
        ceil_div cfg inode.file_size) st []).2) := by
    rw [← halloc]
  generalize (alloc_loop (ceil_div cfg (u32 (inode.file_size + count)) -
      ceil_div cfg inode.file_size) st []).2 = st1 at hpair hal
  have hr1 : st1.rfail (inode.data_blocks (ceil_div cfg inode.file_size - 1)) = true := by
    rw [hal.1.2.2.1]; exact hfail
  unfold write_data_blocks
  simp only [hpair, hroom, decide_True, if_true, read_block_fail st1 _ hr1]

/-- Claim C24: in `jfs_write` on an existing file within the size limit whose last data
block has room (the size is not a multiple of `BLOCK_SIZE`), when the allocation loop
succeeds with the blocks `new` and `read_block` of the last data block fails,
`write_data_blocks` returns `-1` and `jfs_write` returns `E_UNKNOWN` in the state in
which the allocation loop ended: no disk block has changed, so the inode does not
reference the blocks of `new`, and every block of `new` is marked allocated, none of
them being released. `new` has as many blocks as the append needs, so it is not empty
when at least one is needed, and with an allocator that hands out free blocks they
were free before the call. -/
theorem failed_last_read_leaks (cfg : Config) (st : State) (name buf : List Nat)
    (count i : Nat) (new : List Nat)
    (hc : st.rfail st.current_dir = false)
    (hi : resolves (cur_dir st) name i)
    (ht : st.rfail ((cur_dir st).entries i).block_num = false)
    (hd : (st.blocks ((cur_dir st).entries i).block_num).is_dir ≠ 0)
    (hs : u32 ((st.blocks ((cur_dir st).entries i).block_num).file_size + count) ≤ cfg.MAX_FILE_SIZE)
    (halloc : (alloc_loop (ceil_div cfg (u32 ((st.blocks ((cur_dir st).entries i).block_num).file_size + count)) - ceil_div cfg (st.blocks ((cur_dir st).entries i).block_num).file_size) st []).1 = some new)
    (hroom : (st.blocks ((cur_dir st).entries i).block_num).file_size < u32 (ceil_div cfg (st.blocks ((cur_dir st).entries i).block_num).file_size * cfg.BLOCK_SIZE))
    (hfail : st.rfail ((st.blocks ((cur_dir st).entries i).block_num).data_blocks (ceil_div cfg (st.blocks ((cur_dir st).entries i).block_num).file_size - 1)) = true) :
    (write_data_blocks cfg st (st.blocks ((cur_dir st).entries i).block_num) buf count).1 = -1 ∧
    (jfs_write cfg st name buf count).1 = Status.E_UNKNOWN ∧
    same_env st (jfs_write cfg st name buf count).2 ∧
    (jfs_write cfg st name buf count).2.blocks = st.blocks ∧
    (jfs_write cfg st name buf count).2.used = mark st.used new true ∧
    (∀ b ∈ new, (jfs_write cfg st name buf count).2.used b = true) ∧
    new.length = (ceil_div cfg (u32 ((st.blocks ((cur_dir st).entries i).block_num).file_size + count)) - ceil_div cfg (st.blocks ((cur_dir st).entries i).block_num).file_size) ∧
    (0 < (ceil_div cfg (u32 ((st.blocks ((cur_dir st).entries i).block_num).file_size + count)) - ceil_div cfg (st.blocks ((cur_dir st).entries i).block_num).file_size) → new ≠ []) ∧
    (fresh_alloc st → new.Nodup ∧ ∀ b ∈ new, st.used b = false ∧ b ≠ 0) := by
  have hc' : st.rfail st.current_dir = false := hc
  have ht' : st.rfail ((st.blocks st.current_dir).entries i).block_num = false := ht
  have hw := write_data_blocks_read_fails cfg st (st.blocks ((cur_dir st).entries i).block_num) buf count new
    halloc hroom hfail
  obtain ⟨new2, hl, hlen, hused, hfr⟩ := alloc_loop_some _ st [] new halloc
  simp only [List.nil_append] at hl
  subst hl
  obtain ⟨e1, hb1⟩ := alloc_loop_env (ceil_div cfg (u32 ((st.blocks ((cur_dir st).entries i).block_num).file_size + count)) - ceil_div cfg (st.blocks ((cur_dir st).entries i).block_num).file_size) st []
  have hres : jfs_write cfg st name buf count =
      (Status.E_UNKNOWN, (alloc_loop (ceil_div cfg (u32 ((st.blocks ((cur_dir st).entries i).block_num).file_size + count)) - ceil_div cfg (st.blocks ((cur_dir st).entries i).block_num).file_size) st []).2) := by
    rw [jfs_write_resolved cfg st name i buf count hc' ht' hi hd, if_neg (by omega), hw]
    simp
  rw [hres, hw]
  refine ⟨rfl, rfl, e1, hb1, hused, ?_, hlen, ?_, hfr⟩
  · intro b hb
    show (alloc_loop _ st []).2.used b = true
    rw [hused]
    exact mark_true_of_mem _ _ _ hb
  · intro hpos hnil
    rw [hnil] at hlen
    simp only [List.length_nil] at hlen
    omega

/-! ## The discriminant `is_dir` of the blocks -/

/-- After a successful `jfs_mkdir` (`tag = 0`) or `jfs_creat` (`tag = 1`) the name
resolves to the entry behind the old ones, and the block of that entry carries the
discriminant `tag`. -/
theorem create_checked_tag (cfg : Config) (st : State) (name : List Nat) (tag : Nat)
    (hcfg : cfg.wf) (hr : reads_ok st) (hw : writes_ok st) (hfresh : fresh_alloc st)
    (hused : st.used st.current_dir = true)
    (hsucc : (create_checked cfg st name tag).1 = Status.E_SUCCESS) :
    resolves (cur_dir (create_checked cfg st name tag).2) name (cur_dir st).num_entries ∧
    ((create_checked cfg st name tag).2.blocks
      ((cur_dir (create_checked cfg st name tag).2).entries
        (cur_dir st).num_entries).block_num).is_dir = tag ∧
    reads_ok (create_checked cfg st name tag).2 := by
  rcases create_checked_cases cfg st name tag hr with ⟨h, _⟩ | ⟨h, _⟩ | ⟨h, _⟩ |
    ⟨h, _, hroom, habs⟩
  · rw [h] at hsucc; exact Status.noConfusion hsucc
  · rw [h] at hsucc; exact Status.noConfusion hsucc
  · rw [h] at hsucc; exact Status.noConfusion hsucc
  · rw [h] at hsucc ⊢
    have hb : st.pick st.used ≠ 0 := by
      intro h0
      rw [create_entry_full st _ name tag h0] at hsucc
      exact Status.noConfusion hsucc
    have hne := pick_ne_cur st hfresh hused hb
    have hn2 : u16 ((cur_dir st).num_entries + 1) = (cur_dir st).num_entries + 1 :=
      u16_succ _ (by have := hcfg.2.1; omega)
    have hcd := cur_dir_create_entry st (cur_dir st) name tag hw hb
    rw [hn2] at hcd
    simp only [Nat.add_sub_cancel] at hcd
    refine ⟨?_, ?_, reads_ok_env _ _ (create_entry_env st _ name tag) hr⟩
    · rw [hcd]
      refine ⟨by simp, by simp [upd], ?_⟩
      intro j hj
      simp only
      rw [upd_other _ _ _ _ (by omega)]
      exact habs j hj
    · rw [hcd]
      rw [create_entry_ok st _ name tag hw hb]
      simp [upd, hne]

/-- Claim C25: the discriminant convention. With reads succeeding, `is_dir` answers
non-zero exactly for the blocks whose `is_dir` field is `0`, and `jfs_stat` reports the
field of the resolved entry's block as it is. With writes succeeding too, the allocator
handing out free blocks and the current directory allocated: after a successful
`jfs_mkdir` the name resolves to the new last entry, whose block has `is_dir = 0`, so
`is_dir` answers non-zero and `jfs_stat` reports `is_dir = 0`; after a successful
`jfs_creat` the block has `is_dir = 1`, `is_dir` answers `0` and `jfs_stat` reports
`is_dir = 1`. -/
theorem discriminant_convention (cfg : Config) (st : State) (name : List Nat) (sbuf : Stats)
    (hcfg : cfg.wf) (hr : reads_ok st) (hw : writes_ok st) (hfresh : fresh_alloc st)
    (hused : st.used st.current_dir = true) :
    (∀ b, is_dir st b ≠ 0 ↔ (st.blocks b).is_dir = 0) ∧
    (∀ i, resolves (cur_dir st) name i →
      (jfs_stat cfg st name sbuf).2.is_dir =
        (st.blocks ((cur_dir st).entries i).block_num).is_dir) ∧
    ((jfs_mkdir cfg st name).1 = Status.E_SUCCESS →
      resolves (cur_dir (jfs_mkdir cfg st name).2) name (cur_dir st).num_entries ∧
      ((jfs_mkdir cfg st name).2.blocks
        ((cur_dir (jfs_mkdir cfg st name).2).entries (cur_dir st).num_entries).block_num).is_dir = 0 ∧
      is_dir (jfs_mkdir cfg st name).2
        ((cur_dir (jfs_mkdir cfg st name).2).entries (cur_dir st).num_entries).block_num ≠ 0 ∧
      (jfs_stat cfg (jfs_mkdir cfg st name).2 name sbuf).1 = Status.E_SUCCESS ∧
      (jfs_stat cfg (jfs_mkdir cfg st name).2 name sbuf).2.is_dir = 0) ∧
    ((jfs_creat cfg st name).1 = Status.E_SUCCESS →
      resolves (cur_dir (jfs_creat cfg st name).2) name (cur_dir st).num_entries ∧
      ((jfs_creat cfg st name).2.blocks
        ((cur_dir (jfs_creat cfg st name).2).entries (cur_dir st).num_entries).block_num).is_dir = 1 ∧
      is_dir (jfs_creat cfg st name).2
        ((cur_dir (jfs_creat cfg st name).2).entries (cur_dir st).num_entries).block_num = 0 ∧
      (jfs_stat cfg (jfs_creat cfg st name).2 name sbuf).1 = Status.E_SUCCESS ∧
      (jfs_stat cfg (jfs_creat cfg st name).2 name sbuf).2.is_dir = 1) := by
  have hstat : ∀ (st1 : State) (i : Nat), reads_ok st1 → resolves (cur_dir st1) name i →
      (jfs_stat cfg st1 name sbuf).1 = Status.E_SUCCESS ∧
      (jfs_stat cfg st1 name sbuf).2.is_dir =
        (st1.blocks ((cur_dir st1).entries i).block_num).is_dir := by
    intro st1 i hr1 hi1
    rw [jfs_stat_resolved cfg st1 name i sbuf (hr1 _) (hr1 _) hi1]
    split <;> exact ⟨rfl, rfl⟩
  refine ⟨fun b => is_dir_ne_zero_iff st b (hr b), fun i hi => (hstat st i hr hi).2, ?_, ?_⟩
  · intro hs
    rw [jfs_mkdir_eq] at hs ⊢
    obtain ⟨h1, h2, h3⟩ := create_checked_tag cfg st name 0 hcfg hr hw hfresh hused hs
    obtain ⟨s1, s2⟩ := hstat _ _ h3 h1
    refine ⟨h1, h2, ?_, s1, by rw [s2, h2]⟩
    rw [is_dir_ne_zero_iff _ _ (h3 _)]
    exact h2
  · intro hs
    rw [jfs_creat_eq] at hs ⊢
    obtain ⟨h1, h2, h3⟩ := create_checked_tag cfg st name 1 hcfg hr hw hfresh hused hs
    obtain ⟨s1, s2⟩ := hstat _ _ h3 h1
    refine ⟨h1, h2, ?_, s1, by rw [s2, h2]⟩
    rw [is_dir_eq_zero_iff _ _ (h3 _), h2]
    decide

/-! ## `write_data_blocks`: indices, counts and the last block -/

theorem room_iff (cfg : Config) (s : Nat) (hcfg : cfg.wf) (hs : s ≤ cfg.MAX_FILE_SIZE) :
    (s < u32 (ceil_div cfg s * cfg.BLOCK_SIZE) ↔ s % cfg.BLOCK_SIZE ≠ 0) ∧
    u32 (ceil_div cfg s * cfg.BLOCK_SIZE) = ceil_blocks cfg s * cfg.BLOCK_SIZE := by
  have hb := ceil_blocks_bounds cfg s hcfg.1
  have hw := hcfg.2.2
  have hvol : u32 (ceil_div cfg s * cfg.BLOCK_SIZE) = ceil_blocks cfg s * cfg.BLOCK_SIZE := by
    rw [ceil_div_wf cfg s hcfg hs]
    exact u32_small _ (by omega)
  refine ⟨?_, hvol⟩
  rw [hvol]
  constructor
  · intro hlt h0
    have h1 := Nat.div_add_mod s cfg.BLOCK_SIZE
    rw [h0, Nat.add_zero, Nat.mul_comm] at h1
    have h2 : ceil_blocks cfg s * cfg.BLOCK_SIZE < (s / cfg.BLOCK_SIZE + 1) * cfg.BLOCK_SIZE := by
      rw [Nat.add_mul, Nat.one_mul]; omega
    have h3 := Nat.lt_of_mul_lt_mul_right h2
    have h4 : ceil_blocks cfg s * cfg.BLOCK_SIZE ≤ s / cfg.BLOCK_SIZE * cfg.BLOCK_SIZE :=
      Nat.mul_le_mul_right _ (by omega)
    omega
  · intro hne
    rcases Nat.lt_or_ge s (ceil_blocks cfg s * cfg.BLOCK_SIZE) with h | h
    · exact h
    · exfalso
      apply hne
      have : s = ceil_blocks cfg s * cfg.BLOCK_SIZE := by omega
      rw [this]
      exact Nat.mul_mod_left _ _

/-- The inode that `write_data_blocks` leaves to its caller: the one it was given, or
that one with the new size and the allocated block numbers stored behind the old
ones. -/
theorem write_data_blocks_inode_cases (cfg : Config) (st : State) (inode : Block)
    (buf : List Nat) (count : Nat) :
    (write_data_blocks cfg st inode buf count).2.1 = inode ∨
    ∃ new, (alloc_loop (ceil_div cfg (u32 (inode.file_size + count)) -
        ceil_div cfg inode.file_size) st []).1 = some new ∧
      (write_data_blocks cfg st inode buf count).2.1 =
        { inode with
          file_size := u32 (inode.file_size + count)
          data_blocks := store_block_nums inode.data_blocks (ceil_div cfg inode.file_size)
            new } := by
  unfold write_data_blocks
  simp only
  generalize alloc_loop (ceil_div cfg (u32 (inode.file_size + count)) -
        ceil_div cfg inode.file_size) st [] = al
  obtain ⟨l, st1⟩ := al
  cases l with
  | none => left; rfl
  | some new =>
    simp only
    (repeat' split) <;>
      first
      | (left; rfl)
      | (right; exact ⟨new, rfl, rfl⟩)

/-- When the last data block has no room, the status and the storage after
`write_data_blocks` do not depend on the `data_blocks` array (nor on any field of the
inode but `file_size`). -/
theorem write_data_blocks_no_room (cfg : Config) (st : State) (inode inode2 : Block)
    (buf : List Nat) (count : Nat)
    (hroom : ¬ inode.file_size < u32 (ceil_div cfg inode.file_size * cfg.BLOCK_SIZE))
    (hfs : inode2.file_size = inode.file_size) :
    (write_data_blocks cfg st inode2 buf count).1 =
      (write_data_blocks cfg st inode buf count).1 ∧
    (write_data_blocks cfg st inode2 buf count).2.2 =
      (write_data_blocks cfg st inode buf count).2.2 := by
  unfold write_data_blocks
  simp only [hfs, hroom, decide_False, Bool.false_eq_true, if_false]
  generalize alloc_loop (ceil_div cfg (u32 (inode.file_size + count)) -
        ceil_div cfg inode.file_size) st [] = al
  obtain ⟨l, st1⟩ := al
  cases l with
  | none => exact ⟨rfl, rfl⟩
  | some new => exact ⟨rfl, rfl⟩

/-! ## `write_data_blocks`: what is copied from the payload -/

/-- The fill loop of `write_data_blocks` in closed form: new block `k` holds, at its
bytes `j < BLOCK_SIZE` with `k * BLOCK_SIZE + j < count`, the payload bytes from offset
`copied + k * BLOCK_SIZE` on, and zero elsewhere. -/
theorem fill_new_blocks_closed (cfg : Config) (buf : List Nat) :
    ∀ (n copied count : Nat),
    fill_new_blocks cfg buf n copied count =
      (List.range n).map (fun k =>
        { zero_block with
          bytes := fun j =>
            if j < cfg.BLOCK_SIZE ∧ k * cfg.BLOCK_SIZE + j < count then
              buf.getD (copied + (k * cfg.BLOCK_SIZE + j)) 0
            else 0 }) := by
  intro n
  induction n with
  | zero => intro _ _; simp [fill_new_blocks]
  | succ n ih =>
    intro copied count
    rw [List.range_succ_eq_map, List.map_cons, List.map_map]
    simp only [fill_new_blocks]
    split
    · rename_i hle
      rw [ih]
      congr 1
      · congr 1
        funext j
        simp only [memcpy_bytes, zero_block, Nat.zero_mul, Nat.zero_add, Nat.zero_le, true_and,
          Nat.sub_zero]
        by_cases h1 : j < count
        · have h2 : j < cfg.BLOCK_SIZE := by omega
          simp [h1, h2]
        · simp [h1]
      · apply List.map_congr_left
        intro k _
        simp only [Function.comp, Nat.succ_eq_add_one]
        congr 1
        funext j
        have hmul : (k + 1) * cfg.BLOCK_SIZE = k * cfg.BLOCK_SIZE + cfg.BLOCK_SIZE := by
          rw [Nat.add_mul, Nat.one_mul]
        rw [hmul]
        have h1 : ¬ (j < cfg.BLOCK_SIZE ∧ k * cfg.BLOCK_SIZE + j < 0) := by omega
        have h2 : ¬ (j < cfg.BLOCK_SIZE ∧
            k * cfg.BLOCK_SIZE + cfg.BLOCK_SIZE + j < count) := by omega
        simp only [h1, h2, if_false]
    · rename_i hgt
      rw [ih]
      congr 1
      · congr 1
        funext j
        simp only [memcpy_bytes, zero_block, Nat.zero_mul, Nat.zero_add, Nat.zero_le, true_and,
          Nat.sub_zero]
        by_cases h1 : j < cfg.BLOCK_SIZE
        · have h2 : j < count := by omega
          simp [h1, h2]
        · simp [h1]
      · apply List.map_congr_left
        intro k _
        simp only [Function.comp, Nat.succ_eq_add_one]
        congr 1
        funext j
        have hmul : (k + 1) * cfg.BLOCK_SIZE = k * cfg.BLOCK_SIZE + cfg.BLOCK_SIZE := by
          rw [Nat.add_mul, Nat.one_mul]
        rw [hmul]
        by_cases h1 : j < cfg.BLOCK_SIZE ∧
            k * cfg.BLOCK_SIZE + j < count - cfg.BLOCK_SIZE
        · have h2 : j < cfg.BLOCK_SIZE ∧
              k * cfg.BLOCK_SIZE + cfg.BLOCK_SIZE + j < count := by omega
          simp only [h1, h2, and_self, if_true]
          congr 1
          omega
        · have h2 : ¬ (j < cfg.BLOCK_SIZE ∧
              k * cfg.BLOCK_SIZE + cfg.BLOCK_SIZE + j < count) := by omega
          simp only [h1, h2, if_false]

theorem last_block_payload (cfg : Config) (s count n : Nat) (buf : List Nat) (old : Block)
    (hroom : s < ceil_blocks cfg s * cfg.BLOCK_SIZE)
    (hA2 : ceil_blocks cfg s * cfg.BLOCK_SIZE < s + cfg.BLOCK_SIZE)
    (hn : n = min (ceil_blocks cfg s * cfg.BLOCK_SIZE - s) count) :
    { old with
      bytes := memcpy_bytes old.bytes
        (cfg.BLOCK_SIZE - (ceil_blocks cfg s * cfg.BLOCK_SIZE - s)) buf 0 n } =
      payload_block cfg s count buf (ceil_blocks cfg s - 1) old := by
  have hpos : 1 ≤ ceil_blocks cfg s := by
    rcases Nat.eq_zero_or_pos (ceil_blocks cfg s) with h | h
    · rw [h, Nat.zero_mul] at hroom; omega
    · exact h
  have hmul : (ceil_blocks cfg s - 1) * cfg.BLOCK_SIZE =
      ceil_blocks cfg s * cfg.BLOCK_SIZE - cfg.BLOCK_SIZE := by
    rw [Nat.sub_mul, Nat.one_mul]
  have hge : cfg.BLOCK_SIZE ≤ ceil_blocks cfg s * cfg.BLOCK_SIZE :=
    Nat.le_mul_of_pos_left _ hpos
  unfold payload_block
  congr 1
  funext j
  simp only [memcpy_bytes, hmul, Nat.zero_add]
  by_cases h1 : cfg.BLOCK_SIZE - (ceil_blocks cfg s * cfg.BLOCK_SIZE - s) ≤ j ∧
      j < cfg.BLOCK_SIZE - (ceil_blocks cfg s * cfg.BLOCK_SIZE - s) + n
  · have h2 : j < cfg.BLOCK_SIZE ∧
        s ≤ ceil_blocks cfg s * cfg.BLOCK_SIZE - cfg.BLOCK_SIZE + j ∧
        ceil_blocks cfg s * cfg.BLOCK_SIZE - cfg.BLOCK_SIZE + j < s + count := by omega
    rw [if_pos h1, if_pos h2]
    congr 1
    omega
  · have h2 : ¬ (j < cfg.BLOCK_SIZE ∧
        s ≤ ceil_blocks cfg s * cfg.BLOCK_SIZE - cfg.BLOCK_SIZE + j ∧
        ceil_blocks cfg s * cfg.BLOCK_SIZE - cfg.BLOCK_SIZE + j < s + count) := by omega
    rw [if_neg h1, if_neg h2]

theorem new_blocks_payload (cfg : Config) (s count copied d : Nat) (buf : List Nat)
    (hA1 : s ≤ ceil_blocks cfg s * cfg.BLOCK_SIZE)
    (hc : copied = min (ceil_blocks cfg s * cfg.BLOCK_SIZE - s) count) :
    fill_new_blocks cfg buf d copied (count - copied) =
      (List.range d).map
        (fun k => payload_block cfg s count buf (ceil_blocks cfg s + k) zero_block) := by
  rw [fill_new_blocks_closed]
  apply List.map_congr_left
  intro k _
  unfold payload_block
  dsimp only
  congr 1
  funext j
  have hmul : (ceil_blocks cfg s + k) * cfg.BLOCK_SIZE =
      ceil_blocks cfg s * cfg.BLOCK_SIZE + k * cfg.BLOCK_SIZE := Nat.add_mul _ _ _
  simp only [hmul, zero_block]
  by_cases h1 : j < cfg.BLOCK_SIZE ∧ k * cfg.BLOCK_SIZE + j < count - copied
  · have h2 : j < cfg.BLOCK_SIZE ∧
        s ≤ ceil_blocks cfg s * cfg.BLOCK_SIZE + k * cfg.BLOCK_SIZE + j ∧
        ceil_blocks cfg s * cfg.BLOCK_SIZE + k * cfg.BLOCK_SIZE + j < s + count := by omega
    rw [if_pos h1, if_pos h2]
    congr 1
    omega
  · have h2 : ¬ (j < cfg.BLOCK_SIZE ∧
        s ≤ ceil_blocks cfg s * cfg.BLOCK_SIZE + k * cfg.BLOCK_SIZE + j ∧
        ceil_blocks cfg s * cfg.BLOCK_SIZE + k * cfg.BLOCK_SIZE + j < s + count) := by omega
    rw [if_neg h1, if_neg h2]

/-- The helper `write_data_blocks` once the allocation loop has handed out `new` and
the last data block, if it has room, is read: what is written, block by block, as
`payload_block` describes it. -/
theorem write_data_blocks_payload (cfg : Config) (st : State) (inode : Block) (buf : List Nat)
    (count : Nat) (new : List Nat) (st1 : State) (hcfg : cfg.wf)
    (hle : inode.file_size + count ≤ cfg.MAX_FILE_SIZE)
    (hal : alloc_loop (ceil_div cfg (u32 (inode.file_size + count)) - ceil_div cfg inode.file_size) st [] =
      (some new, st1))
    (hread : inode.file_size % cfg.BLOCK_SIZE ≠ 0 → st.rfail (inode.data_blocks (ceil_blocks cfg inode.file_size - 1)) = false) :
    write_data_blocks cfg st inode buf count =
      if inode.file_size % cfg.BLOCK_SIZE ≠ 0 ∧ st.wfail (inode.data_blocks (ceil_blocks cfg inode.file_size - 1)) = true then
        (-1, append_inode cfg inode count new, (release_all st1 new).2)
      else
        ((write_new_blocks new new
          ((List.range new.length).map
            (fun k => payload_block cfg inode.file_size count buf (ceil_blocks cfg inode.file_size + k) zero_block))
          (if inode.file_size % cfg.BLOCK_SIZE ≠ 0 then
            { st1 with
              blocks := upd st1.blocks (inode.data_blocks (ceil_blocks cfg inode.file_size - 1))
                (payload_block cfg inode.file_size count buf (ceil_blocks cfg inode.file_size - 1)
                  (st1.blocks (inode.data_blocks (ceil_blocks cfg inode.file_size - 1)))) }
          else st1)).1,
        append_inode cfg inode count new,
        (write_new_blocks new new
          ((List.range new.length).map
            (fun k => payload_block cfg inode.file_size count buf (ceil_blocks cfg inode.file_size + k) zero_block))
          (if inode.file_size % cfg.BLOCK_SIZE ≠ 0 then
            { st1 with
              blocks := upd st1.blocks (inode.data_blocks (ceil_blocks cfg inode.file_size - 1))
                (payload_block cfg inode.file_size count buf (ceil_blocks cfg inode.file_size - 1)
                  (st1.blocks (inode.data_blocks (ceil_blocks cfg inode.file_size - 1)))) }
          else st1)).2) := by
  obtain ⟨hb, _, hmax⟩ := hcfg
  have hcfg : cfg.wf := ⟨hb, by assumption, hmax⟩
  have hs : inode.file_size ≤ cfg.MAX_FILE_SIZE := by omega
  have hA := ceil_div_wf cfg inode.file_size hcfg hs
  have hsum : u32 (inode.file_size + count) = inode.file_size + count := u32_small _ (by omega)
  have hN := ceil_div_wf cfg (inode.file_size + count) hcfg hle
  obtain ⟨hA1, hA2⟩ := ceil_blocks_bounds cfg inode.file_size hb
  have hvol : u32 (ceil_blocks cfg inode.file_size * cfg.BLOCK_SIZE) =
      ceil_blocks cfg inode.file_size * cfg.BLOCK_SIZE := u32_small _ (by omega)
  have hroomiff := (room_iff cfg inode.file_size hcfg hs).1
  rw [hA, hvol] at hroomiff
  have henv := (alloc_loop_env (ceil_div cfg (u32 (inode.file_size + count)) - ceil_div cfg inode.file_size) st []).1
  rw [hal] at henv
  have hlen : new.length = ceil_blocks cfg (inode.file_size + count) - ceil_blocks cfg inode.file_size := by
    obtain ⟨new2, hl, hlen, _, _⟩ := alloc_loop_some _ st [] new (by rw [hal])
    simp only [List.nil_append] at hl
    subst hl
    rw [hlen, hsum, hN, hA]
  rw [hsum, hN, hA] at hal
  unfold write_data_blocks append_inode
  simp only [hA, hsum, hN, hvol, hal]
  by_cases hroom : inode.file_size < ceil_blocks cfg inode.file_size * cfg.BLOCK_SIZE
  · have hmod := hroomiff.1 hroom
    have hr1 : st1.rfail (inode.data_blocks (ceil_blocks cfg inode.file_size - 1)) = false := by
      rw [henv.2.2.1]; exact hread hmod
    have hfill : ∀ copied, copied = min (ceil_blocks cfg inode.file_size * cfg.BLOCK_SIZE - inode.file_size) count →
        fill_new_blocks cfg buf
          (ceil_blocks cfg (inode.file_size + count) - ceil_blocks cfg inode.file_size) copied (count - copied) =
        (List.range new.length).map
          (fun k => payload_block cfg inode.file_size count buf (ceil_blocks cfg inode.file_size + k) zero_block) := by
      intro copied hc
      rw [hlen]
      exact new_blocks_payload cfg inode.file_size count copied _ buf hA1 hc
    have hlast : ∀ n, n = min (ceil_blocks cfg inode.file_size * cfg.BLOCK_SIZE - inode.file_size) count →
        ({ st1.blocks (inode.data_blocks (ceil_blocks cfg inode.file_size - 1)) with
          bytes := memcpy_bytes (st1.blocks (inode.data_blocks (ceil_blocks cfg inode.file_size - 1))).bytes
            (cfg.BLOCK_SIZE - (ceil_blocks cfg inode.file_size * cfg.BLOCK_SIZE - inode.file_size)) buf 0 n } : Block) =
        payload_block cfg inode.file_size count buf (ceil_blocks cfg inode.file_size - 1) (st1.blocks (inode.data_blocks (ceil_blocks cfg inode.file_size - 1))) :=
      fun n hn => last_block_payload cfg inode.file_size count n buf _ hroom hA2 hn
    simp only [hroom, decide_True, if_true, read_block_ok st1 _ hr1, hmod, ne_eq,
      not_false_eq_true, true_and]
    by_cases hwl : st.wfail (inode.data_blocks (ceil_blocks cfg inode.file_size - 1)) = true
    · have hw1 : st1.wfail (inode.data_blocks (ceil_blocks cfg inode.file_size - 1)) = true := by rw [henv.2.2.2.1]; exact hwl
      by_cases hgt : ceil_blocks cfg inode.file_size * cfg.BLOCK_SIZE - inode.file_size > count <;>
        simp [hgt, write_block, hw1, hwl]
    · have hwl' : st.wfail (inode.data_blocks (ceil_blocks cfg inode.file_size - 1)) = false := by simpa using hwl
      have hw1 : st1.wfail (inode.data_blocks (ceil_blocks cfg inode.file_size - 1)) = false := by rw [henv.2.2.2.1]; exact hwl'
      have h01 : ((0 : Int) = -1) = False := by simp
      by_cases hgt : ceil_blocks cfg inode.file_size * cfg.BLOCK_SIZE - inode.file_size > count
      · have hf := hfill count (by omega)
        rw [Nat.sub_self] at hf
        simp only [hgt, if_true, write_block_ok st1 _ _ hw1, h01, if_false, hwl',
          Bool.false_eq_true, hf, hlast count (by omega)]
      · have hf := hfill (ceil_blocks cfg inode.file_size * cfg.BLOCK_SIZE - inode.file_size) (by omega)
        simp only [hgt, if_false, write_block_ok st1 _ _ hw1, h01, hwl',
          Bool.false_eq_true, hf, hlast _ (by omega : ceil_blocks cfg inode.file_size * cfg.BLOCK_SIZE - inode.file_size =
            min (ceil_blocks cfg inode.file_size * cfg.BLOCK_SIZE - inode.file_size) count)]
  · have hmod : ¬ inode.file_size % cfg.BLOCK_SIZE ≠ 0 := fun h => hroom (hroomiff.2 h)
    have hf := new_blocks_payload cfg inode.file_size count 0
      (ceil_blocks cfg (inode.file_size + count) - ceil_blocks cfg inode.file_size) buf hA1 (by omega)
    rw [Nat.sub_zero] at hf
    have h01 : ((0 : Int) = -1) = False := by simp
    simp only [hroom, decide_False, Bool.false_eq_true, if_false, hmod, false_and, h01, hf,
      hlen]

theorem payload_block_congr (cfg : Config) (s count q : Nat) (buf buf2 : List Nat)
    (old : Block) (h : ∀ p, p < count → buf2.getD p 0 = buf.getD p 0) :
    payload_block cfg s count buf2 q old = payload_block cfg s count buf q old := by
  unfold payload_block
  congr 1
  funext j
  split
  · rename_i hc
    exact h _ (by omega)
  · rfl

/-- The helper `write_data_blocks` reads the payload only at the indices below
`count`. -/
theorem write_data_blocks_window (cfg : Config) (st : State) (inode : Block)
    (buf buf2 : List Nat) (count : Nat) (hcfg : cfg.wf)
    (hle : inode.file_size + count ≤ cfg.MAX_FILE_SIZE)
    (h : ∀ p, p < count → buf2.getD p 0 = buf.getD p 0) :
    write_data_blocks cfg st inode buf2 count = write_data_blocks cfg st inode buf count := by
  have hs : inode.file_size ≤ cfg.MAX_FILE_SIZE := by omega
  have hA := ceil_div_wf cfg inode.file_size hcfg hs
  obtain ⟨hroomiff, _⟩ := room_iff cfg inode.file_size hcfg hs
  rcases hal : alloc_loop (ceil_div cfg (u32 (inode.file_size + count)) - ceil_div cfg inode.file_size) st []
    with ⟨l, st1⟩
  cases l with
  | none =>
    unfold write_data_blocks
    simp only [hal]
  | some new =>
    by_cases hrf : inode.file_size % cfg.BLOCK_SIZE ≠ 0 ∧ st.rfail (inode.data_blocks (ceil_blocks cfg inode.file_size - 1)) = true
    · have hroom := hroomiff.2 hrf.1
      have hfail : st.rfail (inode.data_blocks (ceil_div cfg inode.file_size - 1)) = true := by
        rw [hA]; exact hrf.2
      rw [write_data_blocks_read_fails cfg st inode buf count new (by rw [hal]) hroom hfail,
        write_data_blocks_read_fails cfg st inode buf2 count new (by rw [hal]) hroom hfail]
    · have hread : inode.file_size % cfg.BLOCK_SIZE ≠ 0 → st.rfail (inode.data_blocks (ceil_blocks cfg inode.file_size - 1)) = false := by
        intro hm
        by_cases hx : st.rfail (inode.data_blocks (ceil_blocks cfg inode.file_size - 1)) = true
        · exact absurd ⟨hm, hx⟩ hrf
        · simpa using hx
      rw [write_data_blocks_payload cfg st inode buf count new st1 hcfg hle hal hread,
        write_data_blocks_payload cfg st inode buf2 count new st1 hcfg hle hal hread]
      simp only [payload_block_congr cfg inode.file_size count _ buf buf2 _ h]

/-- Claim C26: `write_data_blocks` on an inode of size `s` with `s + count` within
`MAX_FILE_SIZE` (well-formed constants). The two ceiling divisions of the code do not
wrap, and `ceil(s / BLOCK_SIZE) ≤ ceil((s + count) / BLOCK_SIZE) ≤
ceil(MAX_FILE_SIZE / BLOCK_SIZE)`; an allocation loop that succeeds hands out exactly
`ceil((s + count) / BLOCK_SIZE) - ceil(s / BLOCK_SIZE)` blocks, and every index
`cur_block_amount + k` at which one is stored is below
`ceil(MAX_FILE_SIZE / BLOCK_SIZE)`, so `data_blocks` is unchanged from that bound on
and below the old block count; a failed allocation (`-2`) and a failed
read of the last block (`-1`) return before anything is copied, the caller's inode
untouched; otherwise what the function writes is, block by block, `payload_block`:
payload byte `p < count` at file position `s + p` and no other byte changed, so the
bytes copied are exactly `count`, and the result does not depend on the payload from
index `count` on; the last data block has room exactly when `s` is not a multiple of
`BLOCK_SIZE`, never for `s = 0`; and without room the status and the storage after the
call do not depend on the `data_blocks` array, so the number read at index
`cur_block_amount - 1` is not used. -/
theorem append_index_bounds (cfg : Config) (st : State) (inode : Block) (buf : List Nat)
    (count : Nat) (hcfg : cfg.wf)
    (hle : inode.file_size + count ≤ cfg.MAX_FILE_SIZE) :
    ceil_div cfg inode.file_size = ceil_blocks cfg inode.file_size ∧
    ceil_div cfg (u32 (inode.file_size + count)) = ceil_blocks cfg (inode.file_size + count) ∧
    ceil_blocks cfg inode.file_size ≤ ceil_blocks cfg (inode.file_size + count) ∧
    ceil_blocks cfg (inode.file_size + count) ≤ ceil_blocks cfg cfg.MAX_FILE_SIZE ∧
    (∀ new, (alloc_loop (ceil_div cfg (u32 (inode.file_size + count)) -
        ceil_div cfg inode.file_size) st []).1 = some new →
      new.length = ceil_blocks cfg (inode.file_size + count) - ceil_blocks cfg inode.file_size ∧
      ∀ k, k < new.length → ceil_div cfg inode.file_size + k < ceil_blocks cfg cfg.MAX_FILE_SIZE) ∧
    (∀ m, ceil_blocks cfg cfg.MAX_FILE_SIZE ≤ m →
      (write_data_blocks cfg st inode buf count).2.1.data_blocks m = inode.data_blocks m) ∧
    (∀ m, m < ceil_blocks cfg inode.file_size →
      (write_data_blocks cfg st inode buf count).2.1.data_blocks m = inode.data_blocks m) ∧
    ((((alloc_loop (ceil_div cfg (u32 (inode.file_size + count)) -
        ceil_div cfg inode.file_size) st []).1 = none →
        write_data_blocks cfg st inode buf count =
          (-2, inode, (alloc_loop (ceil_div cfg (u32 (inode.file_size + count)) -
        ceil_div cfg inode.file_size) st []).2)) ∧
      (∀ new, (alloc_loop (ceil_div cfg (u32 (inode.file_size + count)) -
        ceil_div cfg inode.file_size) st []).1 = some new →
        inode.file_size % cfg.BLOCK_SIZE ≠ 0 →
        st.rfail (inode.data_blocks (ceil_blocks cfg inode.file_size - 1)) = true →
        write_data_blocks cfg st inode buf count =
          (-1, inode, (alloc_loop (ceil_div cfg (u32 (inode.file_size + count)) -
        ceil_div cfg inode.file_size) st []).2)) ∧
      (∀ new st1, alloc_loop (ceil_div cfg (u32 (inode.file_size + count)) -
        ceil_div cfg inode.file_size) st [] = (some new, st1) →
        (inode.file_size % cfg.BLOCK_SIZE ≠ 0 →
          st.rfail (inode.data_blocks (ceil_blocks cfg inode.file_size - 1)) = false) →
        write_data_blocks cfg st inode buf count =
          if inode.file_size % cfg.BLOCK_SIZE ≠ 0 ∧
              st.wfail (inode.data_blocks (ceil_blocks cfg inode.file_size - 1)) = true then
            (-1, append_inode cfg inode count new, (release_all st1 new).2)
          else
            ((write_new_blocks new new
              ((List.range new.length).map
              (fun k => payload_block cfg inode.file_size count buf (ceil_blocks cfg inode.file_size + k)
                zero_block))
              (if inode.file_size % cfg.BLOCK_SIZE ≠ 0 then
              { st1 with
                blocks := upd st1.blocks (inode.data_blocks (ceil_blocks cfg inode.file_size - 1))
                  (payload_block cfg inode.file_size count buf (ceil_blocks cfg inode.file_size - 1)
                    (st1.blocks (inode.data_blocks (ceil_blocks cfg inode.file_size - 1)))) }
            else st1)).1,
            append_inode cfg inode count new,
            (write_new_blocks new new
              ((List.range new.length).map
              (fun k => payload_block cfg inode.file_size count buf (ceil_blocks cfg inode.file_size + k)
                zero_block))
              (if inode.file_size % cfg.BLOCK_SIZE ≠ 0 then
              { st1 with
                blocks := upd st1.blocks (inode.data_blocks (ceil_blocks cfg inode.file_size - 1))
                  (payload_block cfg inode.file_size count buf (ceil_blocks cfg inode.file_size - 1)
                    (st1.blocks (inode.data_blocks (ceil_blocks cfg inode.file_size - 1)))) }
            else st1)).2)) ∧
      (∀ (old : Block) (p : Nat), p < count →
        (payload_block cfg inode.file_size count buf ((inode.file_size + p) / cfg.BLOCK_SIZE) old).bytes
          ((inode.file_size + p) % cfg.BLOCK_SIZE) = buf.getD p 0) ∧
      (∀ (old : Block) (q j : Nat),
        ¬ (j < cfg.BLOCK_SIZE ∧ inode.file_size ≤ q * cfg.BLOCK_SIZE + j ∧
          q * cfg.BLOCK_SIZE + j < inode.file_size + count) →
        (payload_block cfg inode.file_size count buf q old).bytes j = old.bytes j) ∧
      (∀ buf2 : List Nat, (∀ p, p < count → buf2.getD p 0 = buf.getD p 0) →
        write_data_blocks cfg st inode buf2 count =
          write_data_blocks cfg st inode buf count))) ∧
    (inode.file_size < u32 (ceil_div cfg inode.file_size * cfg.BLOCK_SIZE) ↔
      inode.file_size % cfg.BLOCK_SIZE ≠ 0) ∧
    (inode.file_size = 0 → ¬ inode.file_size < u32 (ceil_div cfg inode.file_size * cfg.BLOCK_SIZE)) ∧
    (¬ inode.file_size < u32 (ceil_div cfg inode.file_size * cfg.BLOCK_SIZE) →
      ∀ inode2 : Block, inode2.file_size = inode.file_size →
        (write_data_blocks cfg st inode2 buf count).1 = (write_data_blocks cfg st inode buf count).1 ∧
        (write_data_blocks cfg st inode2 buf count).2.2 = (write_data_blocks cfg st inode buf count).2.2) := by
  have hs : inode.file_size ≤ cfg.MAX_FILE_SIZE := by omega
  have hw := hcfg.2.2
  have hA := ceil_div_wf cfg inode.file_size hcfg hs
  have hsum : u32 (inode.file_size + count) = inode.file_size + count := u32_small _ (by omega)
  have hN : ceil_div cfg (u32 (inode.file_size + count)) = ceil_blocks cfg (inode.file_size + count) := by
    rw [hsum]; exact ceil_div_wf cfg _ hcfg hle
  have hmono := ceil_blocks_mono cfg inode.file_size (inode.file_size + count) (by omega)
  have hmax := ceil_blocks_mono cfg (inode.file_size + count) cfg.MAX_FILE_SIZE hle
  have hroom := (room_iff cfg inode.file_size hcfg hs).1
  have hlen : ∀ new, (alloc_loop (ceil_div cfg (u32 (inode.file_size + count)) -
        ceil_div cfg inode.file_size) st []).1 = some new →
      new.length = ceil_blocks cfg (inode.file_size + count) - ceil_blocks cfg inode.file_size := by
    intro new hnew
    obtain ⟨new2, hl, hlen, _, _⟩ := alloc_loop_some _ st [] new hnew
    simp only [List.nil_append] at hl
    subst hl
    rw [hlen, hN, hA]
  have hframe : ∀ m, (m < ceil_blocks cfg inode.file_size ∨ ceil_blocks cfg cfg.MAX_FILE_SIZE ≤ m) →
      (write_data_blocks cfg st inode buf count).2.1.data_blocks m = inode.data_blocks m := by
    intro m hm
    rcases write_data_blocks_inode_cases cfg st inode buf count with h | ⟨new, hnew, h⟩
    · rw [h]
    · rw [h]
      simp only
      rw [store_block_nums_eq, if_neg]
      have := hlen new hnew
      rw [hA]
      omega
  refine ⟨hA, hN, hmono, hmax, ?_, fun m hm => hframe m (Or.inr hm),
    fun m hm => hframe m (Or.inl hm), ?_, hroom, ?_,
    fun hnr inode2 hfs => write_data_blocks_no_room cfg st inode inode2 buf count hnr hfs⟩
  · intro new hnew
    have := hlen new hnew
    refine ⟨this, ?_⟩
    intro k hk
    rw [hA]
    omega
  · refine ⟨?_, ?_, ?_, ?_, ?_, ?_⟩
    · intro hnone
      rcases write_data_blocks_cases cfg st inode buf count with h | h
      · exact h.2
      · exact absurd hnone h.1
    · intro new hnew hmod hfail
      exact write_data_blocks_read_fails cfg st inode buf count new hnew (hroom.2 hmod)
        (by rw [hA]; exact hfail)
    · intro new st1 hal hread
      exact write_data_blocks_payload cfg st inode buf count new st1 hcfg hle hal hread
    · intro old p hp
      have hdm := Nat.div_add_mod (inode.file_size + p) cfg.BLOCK_SIZE
      have hlt := Nat.mod_lt (inode.file_size + p) hcfg.1
      rw [Nat.mul_comm] at hdm
      unfold payload_block
      simp only
      rw [if_pos ⟨hlt, by omega, by omega⟩]
      congr 1
      omega
    · intro old q j hn
      unfold payload_block
      simp only
      rw [if_neg hn]
    · intro buf2 h
      exact write_data_blocks_window cfg st inode buf buf2 count hcfg hle h
  · intro h0 hr
    have := hroom.1 hr
    rw [h0] at this
    simp at this

/-! ## The scenarios on the concrete disk -/

theorem first_fit_fresh (n : Nat) (u : Nat → Bool) (h : first_fit n u ≠ 0) :
    u (first_fit n u) = false := by
  unfold first_fit at h ⊢
  generalize (List.range n).map (· + 1) = l at h ⊢
  induction l with
  | nil => simp at h
  | cons b rest ih =>
    simp only [List.foldr_cons] at h ⊢
    by_cases hb : u b = true
    · simp only [hb, if_true] at h ⊢
      exact ih h
    · simp only [hb, if_false]
      simpa using hb

theorem disk0_fresh (n : Nat) : fresh_alloc (disk0 n) :=
  fun u h => first_fit_fresh n u h

theorem round_trip_witness :
    (jfs_creat cfg0 in_dir_a name_f).1 = Status.E_SUCCESS ∧
    (∀ s ∈ (write_many cfg0 name_f (jfs_creat cfg0 in_dir_a name_f).2 [hello]).1,
      s = Status.E_SUCCESS) ∧
    jfs_read cfg0 (write_many cfg0 name_f (jfs_creat cfg0 in_dir_a name_f).2 [hello]).2
      name_f [0, 0, 0, 0, 0] 5 = (Status.E_SUCCESS, hello, 5) ∧
    jfs_read cfg0
      (jfs_chdir (jfs_chdir (jfs_write cfg0 (jfs_creat cfg0 in_dir_a name_f).2 name_f
        hello 5).2 none).2 (some name_a)).2
      name_f [0, 0, 0, 0, 0] 5 = (Status.E_SUCCESS, hello, 5) :=
  ⟨by decide,
    (round_trip cfg0 in_dir_a name_f [hello] [0, 0, 0, 0, 0] 5 (by decide) (fun _ => rfl)
      (fun _ => rfl) (fun u h => first_fit_fresh 8 u h) (by decide) (by decide) (by decide)
      (by decide) (by decide) (by decide)).1,
    (round_trip cfg0 in_dir_a name_f [hello] [0, 0, 0, 0, 0] 5 (by decide) (fun _ => rfl)
      (fun _ => rfl) (fun u h => first_fit_fresh 8 u h) (by decide) (by decide) (by decide)
      (by decide) (by decide) (by decide)).2,
    by decide⟩

theorem disk_full_rolls_back_witness :
    fresh_alloc (with_file 3) ∧ releases_ok (with_file 3) ∧
    (jfs_write cfg0 (with_file 3) name_f [1, 2, 3, 4, 5, 6, 7, 8] 8).1 = Status.E_DISK_FULL ∧
    (jfs_write cfg0 (with_file 3) name_f [1, 2, 3, 4, 5, 6, 7, 8] 8).2 = with_file 3 :=
  ⟨fun u h => first_fit_fresh 3 u h, fun _ => rfl, by decide,
    (disk_full_rolls_back cfg0 (with_file 3) name_f [1, 2, 3, 4, 5, 6, 7, 8] 8
      (fun u h => first_fit_fresh 3 u h) (fun _ => rfl)).1 (by decide)⟩

theorem write_size_boundary_witness :
    resolves (cur_dir with_hello) name_f 0 ∧
    (with_hello.blocks ((cur_dir with_hello).entries 0).block_num).file_size + 7 =
      cfg0.MAX_FILE_SIZE ∧
    (jfs_write cfg0 with_hello name_f [1, 2, 3, 4, 5, 6, 7] 7).1 = Status.E_SUCCESS ∧
    ((jfs_write cfg0 with_hello name_f [1, 2, 3, 4, 5, 6, 7] 7).2.blocks
      ((cur_dir with_hello).entries 0).block_num).file_size = cfg0.MAX_FILE_SIZE ∧
    (jfs_write cfg0 with_hello name_f [1, 2, 3, 4, 5, 6, 7, 8] 8).1 =
      Status.E_MAX_FILE_SIZE :=
  ⟨by decide, by decide,
    ((write_size_boundary cfg0 with_hello name_f [1, 2, 3, 4, 5, 6, 7] 7 0 (by decide)
      (fun _ => rfl) (by decide) (by decide) (by decide) (by decide)).2.1 (fun _ => rfl)
      (by decide) (by decide)).1,
    ((write_size_boundary cfg0 with_hello name_f [1, 2, 3, 4, 5, 6, 7] 7 0 (by decide)
      (fun _ => rfl) (by decide) (by decide) (by decide) (by decide)).2.1 (fun _ => rfl)
      (by decide) (by decide)).2,
    (write_size_boundary cfg0 with_hello name_f [1, 2, 3, 4, 5, 6, 7, 8] 8 0 (by decide)
      (fun _ => rfl) (by decide) (by decide) (by decide) (by decide)).1 (by decide)⟩

theorem name_length_boundary_witness :
    [1, 2, 3].length = cfg0.MAX_NAME_LENGTH ∧
    (jfs_mkdir cfg0 (disk0 8) [1, 2, 3]).1 = Status.E_SUCCESS ∧
    (jfs_creat cfg0 (disk0 8) [1, 2, 3]).1 = Status.E_SUCCESS ∧
    (jfs_mkdir cfg0 (disk0 8) [1, 2, 3, 4]).1 = Status.E_MAX_NAME_LENGTH :=
  ⟨rfl,
    ((name_length_boundary cfg0 (disk0 8) [1, 2, 3]).1 rfl (fun _ => rfl) (fun _ => rfl)
      (by decide) (by decide) (by decide)).1,
    ((name_length_boundary cfg0 (disk0 8) [1, 2, 3]).1 rfl (fun _ => rfl) (fun _ => rfl)
      (by decide) (by decide) (by decide)).2,
    ((name_length_boundary cfg0 (disk0 8) [1, 2, 3, 4]).2 (by decide)).1⟩

theorem dir_entries_boundary_witness :
    reads_ok (disk0 8) ∧ [9].length ≤ cfg0.MAX_NAME_LENGTH ∧
    (∀ s ∈ (create_many cfg0 (disk0 8) [(true, [1]), (false, [2])]).1,
      s = Status.E_SUCCESS) ∧
    (jfs_mkdir cfg0 (create_many cfg0 (disk0 8) [(true, [1]), (false, [2])]).2 [9]).1 =
      Status.E_MAX_DIR_ENTRIES ∧
    (jfs_creat cfg0 (create_many cfg0 (disk0 8) [(true, [1]), (false, [2])]).2 [9]).1 =
      Status.E_MAX_DIR_ENTRIES :=
  ⟨fun _ => rfl, by decide,
    (dir_entries_boundary cfg0 (disk0 8) [9] [(true, [1]), (false, [2])] (fun _ => rfl)
      (by decide)).2.2 (by decide) (fun _ => rfl) (by decide) (by decide) (by decide)
      (by decide) (by decide)⟩

theorem directory_invariant_witness :
    dir_inv cfg0 (cur_dir (with_file 8)) ∧
    dir_inv cfg0 (cur_dir (jfs_remove cfg0 (with_file 8) name_f).2) ∧
    ((jfs_remove cfg0 (with_file 8) name_f).1 = Status.E_SUCCESS →
      (cur_dir (jfs_remove cfg0 (with_file 8) name_f).2).num_entries + 1 =
        (cur_dir (with_file 8)).num_entries) :=
  ⟨by decide,
    (directory_invariant cfg0 (with_file 8) name_f (by decide) (fun _ => rfl) (fun _ => rfl)
      (fun _ => rfl) (by decide)).2.2.2⟩

theorem no_leak_on_deletion_witness :
    resolves (cur_dir with_hello) name_f 0 ∧
    (jfs_remove cfg0 with_hello name_f).1 = Status.E_SUCCESS ∧
    (jfs_remove cfg0 with_hello name_f).2.used
      ((cur_dir with_hello).entries 0).block_num = false :=
  ⟨by decide, by decide,
    ((no_leak_on_deletion cfg0 with_hello name_f 0 (by decide)).1 (by decide) (by decide)
      (by decide)).1⟩

theorem mkdir_creat_effect_witness :
    (allocate_block (disk0 8)).1 ≠ 0 ∧
    (jfs_mkdir cfg0 (disk0 8) name_a).1 = Status.E_SUCCESS ∧
    (jfs_mkdir cfg0 (disk0 8) name_a).2.blocks (allocate_block (disk0 8)).1 = zero_block :=
  ⟨by decide,
    ((mkdir_creat_effect cfg0 (disk0 8) name_a (by decide) (fun _ => rfl) (fun _ => rfl)
      (fun u h => first_fit_fresh 8 u h) (by decide) (by decide) (by decide)
      (by decide)).1 (by decide)).1.1,
    ((mkdir_creat_effect cfg0 (disk0 8) name_a (by decide) (fun _ => rfl) (fun _ => rfl)
      (fun u h => first_fit_fresh 8 u h) (by decide) (by decide) (by decide)
      (by decide)).1 (by decide)).1.2.1⟩

theorem rmdir_only_when_empty_witness :
    reads_ok a_with_entry ∧ writes_ok a_with_entry ∧ releases_ok a_with_entry ∧
    ((jfs_rmdir a_with_entry name_a).1 = Status.E_NOT_EMPTY ↔
      ∃ i, resolves (cur_dir a_with_entry) name_a i ∧
        (a_with_entry.blocks ((cur_dir a_with_entry).entries i).block_num).is_dir = 0 ∧
        0 < (a_with_entry.blocks ((cur_dir a_with_entry).entries i).block_num).num_entries) ∧
    (jfs_rmdir a_with_entry name_a).1 = Status.E_NOT_EMPTY ∧
    (jfs_rmdir
      (jfs_chdir (jfs_remove cfg0 (jfs_chdir a_with_entry (some name_a)).2 name_f).2 none).2
      name_a).1 = Status.E_SUCCESS :=
  ⟨fun _ => rfl, fun _ => rfl, fun _ => rfl,
    (rmdir_only_when_empty cfg0 a_with_entry name_a (fun _ => rfl) (fun _ => rfl)
      (fun _ => rfl)).1,
    by decide, by decide⟩

theorem name_and_kind_checks_witness :
    reads_ok with_hello ∧ resolves (cur_dir with_hello) name_f 0 ∧
    ((jfs_chdir with_hello (some name_f)).1 = Status.E_NOT_DIR ↔
      (with_hello.blocks ((cur_dir with_hello).entries 0).block_num).is_dir ≠ 0) ∧
    ((jfs_stat cfg0 with_hello name_a ⟨0, [], 0, 0, 0⟩).1 = Status.E_NOT_EXISTS ↔
      absent (cur_dir with_hello) name_a) :=
  ⟨fun _ => rfl, by decide,
    ((name_and_kind_checks cfg0 with_hello name_f [] [] 0 0 ⟨0, [], 0, 0, 0⟩
      (fun _ => rfl)).2 0 (by decide)).1,
    (name_and_kind_checks cfg0 with_hello name_a [] [] 0 0 ⟨0, [], 0, 0, 0⟩
      (fun _ => rfl)).1.2.2.2.2.2⟩

theorem rejections_have_no_effect_witness :
    (jfs_mkdir cfg0 with_hello name_f).1 ∈ create_rejections ∧
    (jfs_mkdir cfg0 with_hello name_f).2 = with_hello ∧
    (jfs_rmdir with_hello name_f).1 = Status.E_NOT_DIR ∧
    (jfs_rmdir with_hello name_f).2 = with_hello ∧
    (jfs_write cfg0 with_hello name_f [1, 2, 3, 4, 5, 6, 7, 8] 8).1 = Status.E_MAX_FILE_SIZE ∧
    (jfs_write cfg0 with_hello name_f [1, 2, 3, 4, 5, 6, 7, 8] 8).2 = with_hello ∧
    (jfs_remove cfg0 with_hello name_a).1 = Status.E_NOT_EXISTS ∧
    (jfs_remove cfg0 with_hello name_a).2 = with_hello :=
  ⟨by decide,
    (rejections_have_no_effect cfg0 with_hello name_f [1, 2, 3, 4, 5, 6, 7, 8] 8
      ⟨0, [], 0, 0, 0⟩).1 (by decide),
    by decide,
    (rejections_have_no_effect cfg0 with_hello name_f [1, 2, 3, 4, 5, 6, 7, 8] 8
      ⟨0, [], 0, 0, 0⟩).2.2.2.1 (by decide),
    by decide,
    (rejections_have_no_effect cfg0 with_hello name_f [1, 2, 3, 4, 5, 6, 7, 8] 8
      ⟨0, [], 0, 0, 0⟩).2.2.2.2.2.1 (by decide),
    by decide,
    (rejections_have_no_effect cfg0 with_hello name_a [] 0
      ⟨0, [], 0, 0, 0⟩).2.2.2.2.1 (by decide)⟩

theorem read_returns_file_start_witness :
    resolves (cur_dir with_hello) name_f 0 ∧
    jfs_read cfg0 with_hello name_f [0, 0, 0] 3 = (Status.E_SUCCESS, [104, 101, 108], 3) ∧
    jfs_read cfg0 with_hello name_f [0, 0, 0, 0, 0, 0, 0] 7 =
      (Status.E_SUCCESS, [104, 101, 108, 108, 111, 0, 0], 5) ∧
    jfs_read cfg0 with_hello name_f (jfs_read cfg0 with_hello name_f [0, 0, 0] 3).2.1
        (jfs_read cfg0 with_hello name_f [0, 0, 0] 3).2.2 =
      jfs_read cfg0 with_hello name_f [0, 0, 0] 3 ∧
    (jfs_read cfg0 with_hello name_f [9, 9, 9, 9] 3).2.1.take
        (min 3 (with_hello.blocks ((cur_dir with_hello).entries 0).block_num).file_size) =
      (jfs_read cfg0 with_hello name_f [0, 0, 0] 3).2.1.take
        (min 3 (with_hello.blocks ((cur_dir with_hello).entries 0).block_num).file_size) :=
  ⟨by decide, by decide, by decide,
    (read_returns_file_start cfg0 with_hello name_f [0, 0, 0] [9, 9, 9, 9] 3 0 (by decide)
      (fun _ => rfl) (by decide) (by decide) (by decide) (by decide) (by decide)).2⟩

theorem stat_reports_witness :
    reads_ok with_hello ∧ resolves (cur_dir with_hello) name_f 0 ∧
    (jfs_stat cfg0 with_hello name_f ⟨0, [], 0, 0, 0⟩).1 = Status.E_SUCCESS ∧
    (jfs_stat cfg0 with_hello name_f ⟨0, [], 0, 0, 0⟩).2.file_size =
      (with_hello.blocks ((cur_dir with_hello).entries 0).block_num).file_size ∧
    (jfs_stat cfg0 with_hello name_f ⟨0, [], 0, 0, 0⟩).2.num_data_blocks =
      ceil_blocks cfg0 (with_hello.blocks ((cur_dir with_hello).entries 0).block_num).file_size ∧
    (jfs_stat cfg0 with_hello name_f ⟨0, [], 0, 0, 0⟩).2 = ⟨1, name_f, 2, 2, 5⟩ :=
  ⟨fun _ => rfl, by decide,
    (stat_reports cfg0 with_hello name_f 0 ⟨0, [], 0, 0, 0⟩ (fun _ => rfl) (by decide)).1,
    ((stat_reports cfg0 with_hello name_f 0 ⟨0, [], 0, 0, 0⟩ (fun _ => rfl)
      (by decide)).2.2.2.2.1 (by decide)).1,
    ((stat_reports cfg0 with_hello name_f 0 ⟨0, [], 0, 0, 0⟩ (fun _ => rfl)
      (by decide)).2.2.2.2.1 (by decide)).2 (by decide) (by decide),
    by decide⟩

theorem current_dir_frame_witness :
    (jfs_chdir with_two (some name_a)).1 = Status.E_SUCCESS ∧
    (∃ i, resolves (cur_dir with_two) name_a i ∧
      (jfs_chdir with_two (some name_a)).2.current_dir =
        ((cur_dir with_two).entries i).block_num) ∧
    (jfs_chdir with_two (some name_f)).1 = Status.E_NOT_DIR ∧
    (jfs_chdir with_two (some name_f)).2 = with_two ∧
    (jfs_mount in_dir_a []).2.current_dir = 1 ∧
    (jfs_creat cfg0 in_dir_a name_f).2.current_dir = in_dir_a.current_dir :=
  ⟨by decide,
    (current_dir_frame cfg0 with_two name_a [] [] 0 none).2.1 (by decide),
    by decide,
    (current_dir_frame cfg0 with_two name_a [] [] 0 (some name_f)).2.2.1 (by decide),
    (current_dir_frame cfg0 in_dir_a name_f [] [] 0 none).1,
    (current_dir_frame cfg0 in_dir_a name_f [] [] 0 none).2.2.2.2.1⟩

theorem inode_growth_witness :
    resolves (cur_dir one_block_written) name_f 0 ∧
    (one_block_written.blocks ((cur_dir one_block_written).entries 0).block_num).file_size =
      cfg1.BLOCK_SIZE ∧
    (jfs_write cfg1 one_block_written name_f (List.range 10) 10).1 = Status.E_SUCCESS ∧
    ((jfs_write cfg1 one_block_written name_f (List.range 10) 10).2.blocks
      ((cur_dir one_block_written).entries 0).block_num).file_size =
      (one_block_written.blocks ((cur_dir one_block_written).entries 0).block_num).file_size
        + 10 ∧
    (jfs_stat cfg1 (jfs_write cfg1 one_block_written name_f (List.range 10) 10).2 name_f
      ⟨0, [], 0, 0, 0⟩).2.num_data_blocks = 2 :=
  ⟨by decide, by decide, by decide,
    (inode_growth cfg1 one_block_written name_f (List.range 10) 10 0 (by decide) (by decide)
      (by decide) (by decide) (by decide)).1,
    by decide⟩

theorem swap_with_last_removal_witness :
    0 < (cur_dir with_two).num_entries ∧
    (remove_directory_entry with_two (cur_dir with_two) ((0 : Nat) : Int)).1 ≠ 0 ∧
    (remove_directory_entry with_two (cur_dir with_two) ((0 : Nat) : Int)).1 =
      ((cur_dir with_two).entries 0).block_num ∧
    (remove_directory_entry with_two (cur_dir with_two) ((0 : Nat) : Int)).2.1.num_entries =
      (cur_dir with_two).num_entries - 1 ∧
    (remove_directory_entry with_two (cur_dir with_two) ((0 : Nat) : Int)).2.1.entries 0 =
      (cur_dir with_two).entries ((cur_dir with_two).num_entries - 1) :=
  ⟨by decide, by decide,
    (swap_with_last_removal with_two (cur_dir with_two) 0 (by decide) (by decide)
      (by decide)).1,
    (swap_with_last_removal with_two (cur_dir with_two) 0 (by decide) (by decide)
      (by decide)).2.1,
    ((swap_with_last_removal with_two (cur_dir with_two) 0 (by decide) (by decide)
      (by decide)).2.2.2.1 (by decide)).1⟩

theorem failed_data_write_rolls_back_witness :
    (alloc_loop 1 (write_fault 5 with_hello) []).1 = some [5] ∧
    (write_fault 5 with_hello).wfail 5 = true ∧
    (jfs_write cfg0 (write_fault 5 with_hello) name_f [1, 2, 3, 4] 4).1 = Status.E_UNKNOWN ∧
    (jfs_write cfg0 (write_fault 5 with_hello) name_f [1, 2, 3, 4] 4).2.used 5 = false ∧
    (jfs_write cfg0 (write_fault 5 with_hello) name_f [1, 2, 3, 4] 4).2.used =
      (write_fault 5 with_hello).used ∧
    (jfs_write cfg0 (write_fault 5 with_hello) name_f [1, 2, 3, 4] 4).2.blocks
        (((cur_dir (write_fault 5 with_hello)).entries 0).block_num) =
      (write_fault 5 with_hello).blocks
        (((cur_dir (write_fault 5 with_hello)).entries 0).block_num) :=
  ⟨by decide, by decide,
    (failed_data_write_rolls_back cfg0 (write_fault 5 with_hello) name_f [1, 2, 3, 4] 4 0 [5]
      (by decide) (by decide) (by decide) (by decide) (by decide) (by decide)
      (fun _ => by decide) (Or.inr ⟨5, by decide, by decide⟩)).1,
    (failed_data_write_rolls_back cfg0 (write_fault 5 with_hello) name_f [1, 2, 3, 4] 4 0 [5]
      (by decide) (by decide) (by decide) (by decide) (by decide) (by decide)
      (fun _ => by decide) (Or.inr ⟨5, by decide, by decide⟩)).2.2.1 5 (by decide) (by decide),
    (failed_data_write_rolls_back cfg0 (write_fault 5 with_hello) name_f [1, 2, 3, 4] 4 0 [5]
      (by decide) (by decide) (by decide) (by decide) (by decide) (by decide)
      (fun _ => by decide) (Or.inr ⟨5, by decide, by decide⟩)).2.2.2.2.1
      (fun u h => first_fit_fresh 8 u h) (fun _ _ => rfl),
    (failed_data_write_rolls_back cfg0 (write_fault 5 with_hello) name_f [1, 2, 3, 4] 4 0 [5]
      (by decide) (by decide) (by decide) (by decide) (by decide) (by decide)
      (fun _ => by decide) (Or.inr ⟨5, by decide, by decide⟩)).2.2.2.2.2.2
      (fun u h => first_fit_fresh 8 u h) (by decide) (fun _ => by decide)⟩

theorem asymmetric_rollback_witness :
    resolves (cur_dir (write_fault 1 with_two)) name_a 0 ∧
    (write_fault 1 with_two).wfail (write_fault 1 with_two).current_dir = true ∧
    (jfs_rmdir (write_fault 1 with_two) name_a).1 = Status.E_UNKNOWN ∧
    (jfs_rmdir (write_fault 1 with_two) name_a).2.used
      ((cur_dir (write_fault 1 with_two)).entries 0).block_num = false ∧
    resolves (cur_dir (jfs_rmdir (write_fault 1 with_two) name_a).2) name_a 0 ∧
    resolves (cur_dir (release_fault 3 with_two)) name_f 1 ∧
    (release_fault 3 with_two).relfail
      ((cur_dir (release_fault 3 with_two)).entries 1).block_num = true ∧
    (jfs_remove cfg0 (release_fault 3 with_two) name_f).1 = Status.E_UNKNOWN ∧
    (jfs_remove cfg0 (release_fault 3 with_two) name_f).2.blocks =
      (release_fault 3 with_two).blocks :=
  ⟨by decide, by decide,
    (((asymmetric_rollback cfg0 (write_fault 1 with_two) name_a 0 (by decide) (by decide)
      (by decide)).1 (by decide) (by decide)).1 (by decide) (by decide)).1,
    (((asymmetric_rollback cfg0 (write_fault 1 with_two) name_a 0 (by decide) (by decide)
      (by decide)).1 (by decide) (by decide)).1 (by decide) (by decide)).2.1,
    (((asymmetric_rollback cfg0 (write_fault 1 with_two) name_a 0 (by decide) (by decide)
      (by decide)).1 (by decide) (by decide)).1 (by decide) (by decide)).2.2.2,
    by decide, by decide,
    (((asymmetric_rollback cfg0 (release_fault 3 with_two) name_f 1 (by decide) (by decide)
      (by decide)).2 (by decide) (fun _ _ => rfl)).2 (by decide)).1,
    (((asymmetric_rollback cfg0 (release_fault 3 with_two) name_f 1 (by decide) (by decide)
      (by decide)).2 (by decide) (fun _ _ => rfl)).2 (by decide)).2⟩

theorem creation_error_precedence_witness :
    cfg0.MAX_DIR_ENTRIES ≤ (cur_dir with_two).num_entries ∧
    ¬ absent (cur_dir with_two) name_a ∧
    (jfs_mkdir cfg0 with_two name_a).1 = Status.E_MAX_DIR_ENTRIES ∧
    (jfs_creat cfg0 with_two name_a).1 = Status.E_MAX_DIR_ENTRIES ∧
    (jfs_mkdir cfg0 with_two [1, 2, 3, 4]).1 = Status.E_MAX_NAME_LENGTH ∧
    (jfs_creat cfg0 with_two [1, 2, 3, 4]).1 = Status.E_MAX_NAME_LENGTH ∧
    (jfs_mkdir cfg0 with_hello name_f).1 = Status.E_EXISTS :=
  ⟨by decide, by decide,
    ((creation_error_precedence cfg0 with_two name_a).2.2.2.2.2.2.2 (by decide) (by decide)
      (by decide) (by decide)).1,
    ((creation_error_precedence cfg0 with_two name_a).2.2.2.2.2.2.2 (by decide) (by decide)
      (by decide) (by decide)).2,
    ((creation_error_precedence cfg0 with_two [1, 2, 3, 4]).2.2.2.2.2.2.1 (by decide)
      (by decide)).1,
    ((creation_error_precedence cfg0 with_two [1, 2, 3, 4]).2.2.2.2.2.2.1 (by decide)
      (by decide)).2,
    (creation_error_precedence cfg0 with_hello name_f).2.2.1.2
      ⟨by decide, by decide, by decide, by decide⟩⟩

theorem release_stops_at_first_failure_witness :
    (release_fault 4 with_hello).relfail ((with_hello.blocks 2).data_blocks 1) = true ∧
    (release_data_blocks cfg0 (release_fault 4 with_hello) (with_hello.blocks 2)).1 = -1 ∧
    (release_data_blocks cfg0 (release_fault 4 with_hello) (with_hello.blocks 2)).2.used
      ((with_hello.blocks 2).data_blocks 0) = false ∧
    (release_data_blocks cfg0 (release_fault 4 with_hello) (with_hello.blocks 2)).2.used 4 =
      (release_fault 4 with_hello).used 4 ∧
    (release_fault 4 with_hello).used 4 = true ∧
    jfs_remove cfg0 (release_fault 4 with_hello) name_f =
      (Status.minus_one,
        (release_data_blocks cfg0 (release_fault 4 with_hello) (with_hello.blocks 2)).2) ∧
    resolves (cur_dir (jfs_remove cfg0 (release_fault 4 with_hello) name_f).2) name_f 0 :=
  ⟨by decide,
    (release_stops_at_first_failure cfg0 (release_fault 4 with_hello) (with_hello.blocks 2) 1
      (by decide) (by decide) (by decide)).1,
    (release_stops_at_first_failure cfg0 (release_fault 4 with_hello) (with_hello.blocks 2) 1
      (by decide) (by decide) (by decide)).2.2.2.1 0 (by decide),
    (release_stops_at_first_failure cfg0 (release_fault 4 with_hello) (with_hello.blocks 2) 1
      (by decide) (by decide) (by decide)).2.2.2.2.1 4 (by decide),
    by decide,
    ((release_stops_at_first_failure cfg0 (release_fault 4 with_hello) (with_hello.blocks 2) 1
      (by decide) (by decide) (by decide)).2.2.2.2.2 name_f 0 (by decide) (by decide)
      (by decide) rfl (by decide)).1,
    ((release_stops_at_first_failure cfg0 (release_fault 4 with_hello) (with_hello.blocks 2) 1
      (by decide) (by decide) (by decide)).2.2.2.2.2 name_f 0 (by decide) (by decide)
      (by decide) rfl (by decide)).2.2.1⟩

theorem failed_last_read_leaks_witness :
    (alloc_loop 1 (read_fault 4 with_hello) []).1 = some [5] ∧
    (read_fault 4 with_hello).used 5 = false ∧
    (jfs_write cfg0 (read_fault 4 with_hello) name_f [1, 2, 3, 4] 4).1 = Status.E_UNKNOWN ∧
    (jfs_write cfg0 (read_fault 4 with_hello) name_f [1, 2, 3, 4] 4).2.used 5 = true ∧
    (jfs_write cfg0 (read_fault 4 with_hello) name_f [1, 2, 3, 4] 4).2.blocks =
      (read_fault 4 with_hello).blocks :=
  ⟨by decide, by decide,
    (failed_last_read_leaks cfg0 (read_fault 4 with_hello) name_f [1, 2, 3, 4] 4 0 [5]
      (by decide) (by decide) (by decide) (by decide) (by decide) (by decide) (by decide)
      (by decide)).2.1,
    (failed_last_read_leaks cfg0 (read_fault 4 with_hello) name_f [1, 2, 3, 4] 4 0 [5]
      (by decide) (by decide) (by decide) (by decide) (by decide) (by decide) (by decide)
      (by decide)).2.2.2.2.2.1 5 (by decide),
    (failed_last_read_leaks cfg0 (read_fault 4 with_hello) name_f [1, 2, 3, 4] 4 0 [5]
      (by decide) (by decide) (by decide) (by decide) (by decide) (by decide) (by decide)
      (by decide)).2.2.2.1⟩

theorem discriminant_convention_witness :
    (jfs_mkdir cfg0 (disk0 8) name_a).1 = Status.E_SUCCESS ∧
    (jfs_stat cfg0 (jfs_mkdir cfg0 (disk0 8) name_a).2 name_a ⟨7, [], 0, 0, 0⟩).2.is_dir = 0 ∧
    (jfs_creat cfg0 (disk0 8) name_f).1 = Status.E_SUCCESS ∧
    (jfs_stat cfg0 (jfs_creat cfg0 (disk0 8) name_f).2 name_f ⟨7, [], 0, 0, 0⟩).2.is_dir = 1 ∧
    is_dir (jfs_creat cfg0 (disk0 8) name_f).2
      ((cur_dir (jfs_creat cfg0 (disk0 8) name_f).2).entries
        (cur_dir (disk0 8)).num_entries).block_num = 0 :=
  ⟨by decide,
    ((discriminant_convention cfg0 (disk0 8) name_a ⟨7, [], 0, 0, 0⟩ (by decide)
      (fun _ => rfl) (fun _ => rfl) (fun u h => first_fit_fresh 8 u h) (by decide)).2.2.1
      (by decide)).2.2.2.2,
    by decide,
    ((discriminant_convention cfg0 (disk0 8) name_f ⟨7, [], 0, 0, 0⟩ (by decide)
      (fun _ => rfl) (fun _ => rfl) (fun u h => first_fit_fresh 8 u h) (by decide)).2.2.2
      (by decide)).2.2.2.2,
    ((discriminant_convention cfg0 (disk0 8) name_f ⟨7, [], 0, 0, 0⟩ (by decide)
      (fun _ => rfl) (fun _ => rfl) (fun u h => first_fit_fresh 8 u h) (by decide)).2.2.2
      (by decide)).2.2.1⟩

theorem append_index_bounds_witness :
    (with_hello.blocks 2).file_size + 7 = cfg0.MAX_FILE_SIZE ∧
    (alloc_loop (ceil_div cfg0 (u32 ((with_hello.blocks 2).file_size + 7)) -
      ceil_div cfg0 (with_hello.blocks 2).file_size) with_hello []).1 = some [5] ∧
    ceil_div cfg0 (with_hello.blocks 2).file_size + 0 < ceil_blocks cfg0 cfg0.MAX_FILE_SIZE ∧
    (write_data_blocks cfg0 with_hello (with_hello.blocks 2) [1, 2, 3, 4, 5, 6, 7] 7).2.1 =
      append_inode cfg0 (with_hello.blocks 2) 7 [5] ∧
    (write_data_blocks cfg0 with_hello (with_hello.blocks 2) [1, 2, 3, 4, 5, 6, 7] 7).1 = 0 ∧
    ((write_data_blocks cfg0 with_hello (with_hello.blocks 2) [1, 2, 3, 4, 5, 6, 7] 7).2.2.blocks 4).bytes 0 = 111 ∧
    ((write_data_blocks cfg0 with_hello (with_hello.blocks 2) [1, 2, 3, 4, 5, 6, 7] 7).2.2.blocks 4).bytes 1 = 1 ∧
    ((write_data_blocks cfg0 with_hello (with_hello.blocks 2) [1, 2, 3, 4, 5, 6, 7] 7).2.2.blocks 4).bytes 3 = 3 ∧
    ((write_data_blocks cfg0 with_hello (with_hello.blocks 2) [1, 2, 3, 4, 5, 6, 7] 7).2.2.blocks 5).bytes 0 = 4 ∧
    ((write_data_blocks cfg0 with_hello (with_hello.blocks 2) [1, 2, 3, 4, 5, 6, 7] 7).2.2.blocks 5).bytes 3 = 7 ∧
    (payload_block cfg0 (with_hello.blocks 2).file_size 7 [1, 2, 3, 4, 5, 6, 7]
      (((with_hello.blocks 2).file_size + 6) / cfg0.BLOCK_SIZE) zero_block).bytes
      (((with_hello.blocks 2).file_size + 6) % cfg0.BLOCK_SIZE) =
      [1, 2, 3, 4, 5, 6, 7].getD 6 0 ∧
    write_data_blocks cfg0 with_hello (with_hello.blocks 2) [1, 2, 3, 4, 5, 6, 7, 99] 7 =
      (write_data_blocks cfg0 with_hello (with_hello.blocks 2) [1, 2, 3, 4, 5, 6, 7] 7) ∧
    (write_data_blocks cfg0 (with_file 3) ((with_file 3).blocks 2)
      [1, 2, 3, 4, 5, 6, 7, 8] 8).1 = -2 ∧
    (write_data_blocks cfg0 (with_file 3) ((with_file 3).blocks 2)
      [1, 2, 3, 4, 5, 6, 7, 8] 8).2.1 = (with_file 3).blocks 2 ∧
    ((with_file 8).blocks 2).file_size = 0 ∧
    ¬ ((with_file 8).blocks 2).file_size <
      u32 (ceil_div cfg0 ((with_file 8).blocks 2).file_size * cfg0.BLOCK_SIZE) ∧
    (write_data_blocks cfg0 (with_file 8) zero_block hello 5).1 =
      (write_data_blocks cfg0 (with_file 8) ((with_file 8).blocks 2) hello 5).1 :=
  ⟨by decide, by decide,
    ((append_index_bounds cfg0 with_hello (with_hello.blocks 2) [1, 2, 3, 4, 5, 6, 7] 7
      (by decide) (by decide)).2.2.2.2.1 [5] (by decide)).2 0 (by decide),
    (congrArg (fun r => r.2.1) ((append_index_bounds cfg0 with_hello (with_hello.blocks 2) [1, 2, 3, 4, 5, 6, 7] 7
      (by decide) (by decide)).2.2.2.2.2.2.2.1.2.2.1 [5]
      (alloc_loop 1 with_hello []).2 (Prod.ext (by decide) rfl) (fun _ => by decide))).trans rfl,
    by decide, by decide, by decide, by decide, by decide, by decide,
    (append_index_bounds cfg0 with_hello (with_hello.blocks 2) [1, 2, 3, 4, 5, 6, 7] 7
      (by decide) (by decide)).2.2.2.2.2.2.2.1.2.2.2.1 zero_block 6 (by decide),
    (append_index_bounds cfg0 with_hello (with_hello.blocks 2) [1, 2, 3, 4, 5, 6, 7] 7
      (by decide) (by decide)).2.2.2.2.2.2.2.1.2.2.2.2.2 [1, 2, 3, 4, 5, 6, 7, 99] (by decide),
    congrArg Prod.fst ((append_index_bounds cfg0 (with_file 3) ((with_file 3).blocks 2) [1, 2, 3, 4, 5, 6, 7, 8] 8
      (by decide) (by decide)).2.2.2.2.2.2.2.1.1 (by decide)),
    congrArg (fun r => r.2.1) ((append_index_bounds cfg0 (with_file 3) ((with_file 3).blocks 2) [1, 2, 3, 4, 5, 6, 7, 8] 8
      (by decide) (by decide)).2.2.2.2.2.2.2.1.1 (by decide)),
    by decide,
    (append_index_bounds cfg0 (with_file 8) ((with_file 8).blocks 2) hello 5
      (by decide) (by decide)).2.2.2.2.2.2.2.2.2.1 (by decide),
    ((append_index_bounds cfg0 (with_file 8) ((with_file 8).blocks 2) hello 5
      (by decide) (by decide)).2.2.2.2.2.2.2.2.2.2
      ((append_index_bounds cfg0 (with_file 8) ((with_file 8).blocks 2) hello 5
      (by decide) (by decide)).2.2.2.2.2.2.2.2.2.1 (by decide)) zero_block (by decide)).1⟩

end JFS
